import Mathlib

/-!
Verification development for the `hcp-rs` repository: a Markov-chain Monte-Carlo
sampler for hierarchical community structure on an undirected graph.

The Rust source is shallowly embedded: `u64` group masks and `usize` counters
become `Nat` (with explicit `2 ^ 64` bounds where machine-word width matters),
`Vec` becomes `List`, the row-indexed table `IndexedList` becomes a list of rows
(every access in the source is row-local, so the flat row-major layout and the
list-of-rows view agree on all touched cells), and the `f64` log-likelihood is
modelled over `ℝ` with `ln_fact k = Real.log k!` (the source fills its table
with `lgamma(k+1)`).  `usize` subtraction is modelled by truncated `Nat`
subtraction; every theorem below that relies on a subtraction proves the
no-underflow bound as part of its invariant, so the truncation is never
exercised in a proved statement.
-/

/-! ## Bit-pack utilities (src/src/lib.rs:409-430, src/src/multi_group_model.rs:48-69)

The source computes `let group_mask = (1u64 << num_groups) - 1` in `hcg`,
`hcg_node`, `insert_zero_at` and `remove_bit_at`.  On `u64` a shift count is
taken modulo 64 and every arithmetic result modulo `2 ^ 64` (release profile;
an overflow-checked build panics where the wrap would fire), so at
`num_groups = 64` the group mask is `(1 << 0) - 1 = 0`, not the all-ones
word.  The definitions below keep that wrapping behaviour bit for bit; the
`*_eq_of_le` lemmas discharge the modular operations for `num_groups <= 63`,
where no wrap fires. -/

/-- `insert_zero_at(val, pos, num_groups)` from src/src/lib.rs:410-418.
`!select_mask` on `u64` is the xor against `2 ^ 64 - 1`; the `u64` shifts
wrap as described above. -/
def insert_zero_at (val pos num_groups : Nat) : Nat :=
  let group_mask := 2 ^ (num_groups % 64) - 1
  let select_mask := ((group_mask <<< (pos % 64)) % 2 ^ 64) &&& group_mask
  let left := val &&& select_mask
  let right := val &&& ((2 ^ 64 - 1) ^^^ select_mask)
  ((left <<< 1) % 2 ^ 64) ||| right

/-- `remove_bit_at(val, pos, num_groups)` from src/src/lib.rs:421-430, with the
same `u64` wrapping semantics. -/
def remove_bit_at (val pos num_groups : Nat) : Nat :=
  let group_mask := 2 ^ (num_groups % 64) - 1
  let upper_mask := ((group_mask <<< ((pos + 1) % 64)) % 2 ^ 64) &&& group_mask
  let lower_mask := (group_mask >>> ((num_groups - pos) % 64)) &&& group_mask
  let upper := val &&& upper_mask
  let lower := val &&& lower_mask
  (upper >>> 1) ||| lower

/-- `u64` wrapping subtraction (the release-profile value of `a - b`); valid
for `b ≤ 2 ^ 64`. -/
def u64_sub (a b : Nat) : Nat := (a + (2 ^ 64 - b)) % 2 ^ 64

/-- `u64` wrapping addition. -/
def u64_add (a b : Nat) : Nat := (a + b) % 2 ^ 64

theorem u64_sub_eq (a b : Nat) (h1 : b ≤ a) (h2 : a < 2 ^ 64) : u64_sub a b = a - b := by
  have he : a + (2 ^ 64 - b) = 2 ^ 64 + (a - b) := by omega
  rw [u64_sub, he, Nat.add_mod_left]
  exact Nat.mod_eq_of_lt (by omega)

theorem u64_add_eq (a b : Nat) (h : a + b < 2 ^ 64) : u64_add a b = a + b :=
  Nat.mod_eq_of_lt h

theorem u64_sub_lt (a b : Nat) : u64_sub a b < 2 ^ 64 :=
  Nat.mod_lt _ (by norm_num)

theorem u64_add_lt (a b : Nat) : u64_add a b < 2 ^ 64 :=
  Nat.mod_lt _ (by norm_num)

theorem u64_sub_add_cancel (a b : Nat) (ha : a < 2 ^ 64) (hb : b ≤ 2 ^ 64) :
    u64_add (u64_sub a b) b = a := by
  rw [u64_add, u64_sub, Nat.mod_add_mod]
  have he : a + (2 ^ 64 - b) + b = a + 2 ^ 64 := by omega
  rw [he, Nat.add_mod_right]
  exact Nat.mod_eq_of_lt ha

theorem u64_add_sub_cancel (a b : Nat) (ha : a < 2 ^ 64) (hb : b ≤ 2 ^ 64) :
    u64_sub (u64_add a b) b = a := by
  rw [u64_sub, u64_add, Nat.mod_add_mod]
  have he : a + b + (2 ^ 64 - b) = a + 2 ^ 64 := by omega
  rw [he, Nat.add_mod_right]
  exact Nat.mod_eq_of_lt ha

theorem insert_zero_at_zero (pos ng : Nat) : insert_zero_at 0 pos ng = 0 := by
  simp [insert_zero_at]

theorem remove_bit_at_zero (pos ng : Nat) : remove_bit_at 0 pos ng = 0 := by
  simp [remove_bit_at]

/-- At `num_groups = 64` the wrapped group mask is `0`, so `remove_bit_at`
clears every bit of every mask (this is the release-profile value; an
overflow-checked build panics on the shift instead). -/
theorem remove_bit_at_64 (val pos : Nat) : remove_bit_at val pos 64 = 0 := by
  have h1 : (2:Nat) ^ (64 % 64) - 1 = 0 := by norm_num
  simp [remove_bit_at, h1]

theorem insert_zero_at_lt64 (val pos ng : Nat) (hval : val < 2 ^ 64) :
    insert_zero_at val pos ng < 2 ^ 64 := by
  rw [insert_zero_at]
  refine Nat.or_lt_two_pow (Nat.mod_lt _ (by norm_num)) ?_
  refine lt_of_le_of_lt Nat.and_le_left hval

theorem remove_bit_at_lt64 (val pos ng : Nat) (hval : val < 2 ^ 64) :
    remove_bit_at val pos ng < 2 ^ 64 := by
  rw [remove_bit_at]
  have h1 : ∀ x : Nat, x &&& (((2 ^ (ng % 64) - 1) <<< ((pos + 1) % 64)) % 2 ^ 64
      &&& (2 ^ (ng % 64) - 1)) ≤ x := fun x => Nat.and_le_left
  have h2 : (val &&& (((2 ^ (ng % 64) - 1) <<< ((pos + 1) % 64)) % 2 ^ 64
      &&& (2 ^ (ng % 64) - 1))) >>> 1
      ≤ val &&& (((2 ^ (ng % 64) - 1) <<< ((pos + 1) % 64)) % 2 ^ 64
      &&& (2 ^ (ng % 64) - 1)) := by
    rw [Nat.shiftRight_eq_div_pow]
    exact Nat.div_le_self _ _
  exact Nat.or_lt_two_pow (lt_of_le_of_lt (le_trans h2 (h1 val)) hval)
    (lt_of_le_of_lt Nat.and_le_left hval)

theorem and_mask_of_lt (x k : Nat) (h : x < 2 ^ k) : x &&& (2 ^ k - 1) = x := by
  rw [Nat.and_pow_two_sub_one_eq_mod, Nat.mod_eq_of_lt h]

theorem testBit_select_mask (pos ng j : Nat) :
    (((2 ^ ng - 1) <<< pos) &&& (2 ^ ng - 1)).testBit j = decide (pos ≤ j ∧ j < ng) := by
  simp only [Nat.testBit_and, Nat.testBit_shiftLeft, Nat.testBit_two_pow_sub_one]
  rcases Nat.lt_or_ge j pos with h | h
  · simp [Nat.not_le.mpr h, h]
  · have : j - pos < ng ↔ j - pos < ng := Iff.rfl
    by_cases h2 : j < ng
    · simp [h, h2, Nat.lt_of_le_of_lt (Nat.sub_le j pos) h2]
    · simp [h, h2]

/-- For `num_groups ≤ 63` none of the `u64` wrap operations in
`insert_zero_at` fire: the function is the plain bit-field shift. -/
theorem insert_zero_at_eq_of_le (val pos ng : Nat) (hp : pos ≤ ng) (hng : ng ≤ 63) :
    insert_zero_at val pos ng =
      ((val &&& (((2 ^ ng - 1) <<< pos) &&& (2 ^ ng - 1))) <<< 1)
        ||| (val &&& ((2 ^ 64 - 1) ^^^ (((2 ^ ng - 1) <<< pos) &&& (2 ^ ng - 1)))) := by
  have hm : ng % 64 = ng := Nat.mod_eq_of_lt (by omega)
  have hpm : pos % 64 = pos := Nat.mod_eq_of_lt (by omega)
  have hgm_lt : 2 ^ ng - 1 < 2 ^ 64 := by
    have h1 : (2:Nat) ^ ng ≤ 2 ^ 64 := Nat.pow_le_pow_right (by norm_num) (by omega)
    have h2 : (0:Nat) < 2 ^ ng := Nat.pos_pow_of_pos _ (by norm_num)
    omega
  have hshift_mod : ((2 ^ ng - 1) <<< pos) % 2 ^ 64 &&& (2 ^ ng - 1)
      = ((2 ^ ng - 1) <<< pos) &&& (2 ^ ng - 1) := by
    rw [← Nat.and_pow_two_sub_one_eq_mod, Nat.and_assoc]
    congr 1
    rw [Nat.and_comm, Nat.and_pow_two_sub_one_eq_mod, Nat.mod_eq_of_lt hgm_lt]
  have hleft_lt : (val &&& (((2 ^ ng - 1) <<< pos) &&& (2 ^ ng - 1))) <<< 1 < 2 ^ 64 := by
    have h1 : val &&& (((2 ^ ng - 1) <<< pos) &&& (2 ^ ng - 1)) ≤ 2 ^ ng - 1 :=
      le_trans Nat.and_le_right Nat.and_le_right
    have h2 : (2:Nat) ^ ng ≤ 2 ^ 63 := Nat.pow_le_pow_right (by norm_num) hng
    have h3 : (2:Nat) ^ 64 = 2 * 2 ^ 63 := by norm_num
    rw [Nat.shiftLeft_eq]
    have h4 : (val &&& (((2 ^ ng - 1) <<< pos) &&& (2 ^ ng - 1))) * 2 ^ 1
        ≤ (2 ^ ng - 1) * 2 := Nat.mul_le_mul h1 (by norm_num)
    omega
  simp only [insert_zero_at]
  rw [hm, hpm, hshift_mod, Nat.mod_eq_of_lt hleft_lt]

/-- For `num_groups ≤ 63` the wraps in `remove_bit_at` do not fire either. -/
theorem remove_bit_at_eq_of_le (val pos ng : Nat) (hp : pos < ng) (hng : ng ≤ 63) :
    remove_bit_at val pos ng =
      ((val &&& (((2 ^ ng - 1) <<< (pos + 1)) &&& (2 ^ ng - 1))) >>> 1)
        ||| (val &&& (((2 ^ ng - 1) >>> (ng - pos)) &&& (2 ^ ng - 1))) := by
  have hm : ng % 64 = ng := Nat.mod_eq_of_lt (by omega)
  have hpm : (pos + 1) % 64 = pos + 1 := Nat.mod_eq_of_lt (by omega)
  have hdm : (ng - pos) % 64 = ng - pos := Nat.mod_eq_of_lt (by omega)
  have hgm_lt : 2 ^ ng - 1 < 2 ^ 64 := by
    have h1 : (2:Nat) ^ ng ≤ 2 ^ 64 := Nat.pow_le_pow_right (by norm_num) (by omega)
    have h2 : (0:Nat) < 2 ^ ng := Nat.pos_pow_of_pos _ (by norm_num)
    omega
  have hshift_mod : ((2 ^ ng - 1) <<< (pos + 1)) % 2 ^ 64 &&& (2 ^ ng - 1)
      = ((2 ^ ng - 1) <<< (pos + 1)) &&& (2 ^ ng - 1) := by
    rw [← Nat.and_pow_two_sub_one_eq_mod, Nat.and_assoc]
    congr 1
    rw [Nat.and_comm, Nat.and_pow_two_sub_one_eq_mod, Nat.mod_eq_of_lt hgm_lt]
  simp only [remove_bit_at]
  rw [hm, hpm, hdm, hshift_mod]

/-- Per-bit behaviour of `insert_zero_at` when the input has no bits at or above
`num_groups`: bits below `pos` are kept, bit `pos` is cleared, bits in
`[pos, num_groups)` move up by one. -/
theorem insert_zero_at_testBit (val pos ng : Nat) (hv : val < 2 ^ ng)
    (hp : pos ≤ ng) (hng : ng ≤ 63) (i : Nat) :
    (insert_zero_at val pos ng).testBit i =
      if i < pos then val.testBit i
      else if i = pos then false
      else if i ≤ ng then val.testBit (i - 1)
      else false := by
  have hvbit : ∀ j, ng ≤ j → val.testBit j = false := by
    intro j hj
    exact Nat.testBit_eq_false_of_lt (Nat.lt_of_lt_of_le hv (Nat.pow_le_pow_right (by norm_num) hj))
  have hsm : ∀ j, (((2 ^ ng - 1) <<< pos) &&& (2 ^ ng - 1)).testBit j
      = decide (pos ≤ j ∧ j < ng) := testBit_select_mask pos ng
  rw [insert_zero_at_eq_of_le val pos ng hp hng]
  simp only [Nat.testBit_or, Nat.testBit_and, Nat.testBit_shiftLeft,
    Nat.testBit_xor, Nat.testBit_two_pow_sub_one, hsm]
  rcases Nat.lt_trichotomy i pos with h1 | h1 | h1
  · -- i < pos
    rw [if_pos h1]
    have f1 : ¬ (pos ≤ i - 1 ∧ i - 1 < ng) := by omega
    have f2 : i < 64 := by omega
    have f3 : ¬ (pos ≤ i ∧ i < ng) := by omega
    simp [f1, f2, f3]
  · -- i = pos
    subst h1
    rw [if_neg (lt_irrefl i), if_pos rfl]
    have hleft : (decide (1 ≤ i) && (val.testBit (i - 1) && decide (i ≤ i - 1 ∧ i - 1 < ng)))
        = false := by
      rcases Nat.eq_zero_or_pos i with h0 | h0
      · subst h0
        simp
      · have f1 : ¬ (i ≤ i - 1 ∧ i - 1 < ng) := by omega
        simp [f1]
    rw [hleft]
    by_cases hpn : i < ng
    · have f2 : i < 64 := by omega
      have f3 : i ≤ i ∧ i < ng := ⟨le_refl _, hpn⟩
      simp [f2, f3]
    · have f3 : ¬ (i ≤ i ∧ i < ng) := by omega
      have fb : val.testBit i = false := hvbit _ (by omega)
      simp [f3, fb]
  · -- pos < i
    rw [if_neg (by omega), if_neg (by omega)]
    have g1 : 1 ≤ i := by omega
    by_cases h3 : i ≤ ng
    · rw [if_pos h3]
      have f1 : pos ≤ i - 1 ∧ i - 1 < ng := by omega
      by_cases h4 : i < ng
      · have f2 : i < 64 := by omega
        have f3 : pos ≤ i ∧ i < ng := by omega
        simp [f1, f2, f3, g1]
      · -- i = ng
        have f3 : ¬ (pos ≤ i ∧ i < ng) := by omega
        have fb : val.testBit i = false := hvbit _ (by omega)
        by_cases h64 : i < 64
        · simp [f1, f3, fb, g1, h64]
        · simp [f1, f3, fb, g1, h64]
    · -- ng < i
      rw [if_neg h3]
      have f1 : ¬ (pos ≤ i - 1 ∧ i - 1 < ng) := by omega
      have fb : val.testBit i = false := hvbit _ (by omega)
      simp [f1, fb]

/-- Per-bit behaviour of `remove_bit_at` below the wrap boundary (both masks
discard bits at or above `num_groups`). -/
theorem remove_bit_at_testBit (val pos ng : Nat) (hp : pos < ng) (hng : ng ≤ 63) (i : Nat) :
    (remove_bit_at val pos ng).testBit i =
      if i < pos then val.testBit i
      else if i < ng - 1 then val.testBit (i + 1)
      else false := by
  have hlow : ∀ j, ((2 ^ ng - 1) >>> (ng - pos) &&& (2 ^ ng - 1)).testBit j
      = decide (j < pos) := by
    intro j
    simp only [Nat.testBit_and, Nat.testBit_shiftRight, Nat.testBit_two_pow_sub_one]
    by_cases h : j < pos
    · simp [h, show ng - pos + j < ng by omega, show j < ng by omega]
    · simp [h, show ¬ (ng - pos + j < ng) by omega]
  have hup : ∀ j, (((2 ^ ng - 1) <<< (pos + 1)) &&& (2 ^ ng - 1)).testBit j
      = decide (pos + 1 ≤ j ∧ j < ng) := testBit_select_mask (pos + 1) ng
  rw [remove_bit_at_eq_of_le val pos ng hp hng]
  simp only [Nat.testBit_or, Nat.testBit_and, Nat.testBit_shiftRight, hlow, hup]
  rcases Nat.lt_or_ge i pos with h1 | h1
  · rw [if_pos h1]
    have f1 : ¬ (pos + 1 ≤ 1 + i ∧ 1 + i < ng) := by omega
    simp [f1, h1]
  · rw [if_neg (by omega)]
    by_cases h2 : i < ng - 1
    · rw [if_pos h2]
      have f1 : pos + 1 ≤ 1 + i ∧ 1 + i < ng := by omega
      have f2 : ¬ i < pos := by omega
      simp [f1, f2, Nat.add_comm 1 i]
      intro _
      omega
    · rw [if_neg h2]
      have f1 : ¬ (pos + 1 ≤ 1 + i ∧ 1 + i < ng) := by omega
      have f2 : ¬ i < pos := by omega
      simp [f1, f2]

/-! ## Highest common group (src/src/lib.rs:125-156) -/

/-- The bit-smearing cascade shared by `HierarchicalModel::hcg` (src/src/lib.rs:130-136)
and `hcg_node` (147-153). -/
def smear_chain (c0 : Nat) : Nat :=
  let c1 := c0 ||| (c0 >>> 1)
  let c2 := c1 ||| (c1 >>> 2)
  let c3 := c2 ||| (c2 >>> 4)
  let c4 := c3 ||| (c3 >>> 8)
  let c5 := c4 ||| (c4 >>> 16)
  let c6 := c5 ||| (c5 >>> 32)
  c6

/-- Executable bit length of a value below `2 ^ 64`: the index of the highest
set bit plus one (`0` for `0`).  Agrees with `Nat.size` on `u64` values
(`u64_size_eq_size` below). -/
def u64_size (x : Nat) : Nat :=
  (List.range 64).foldl (fun acc i => if x.testBit i then i + 1 else acc) 0

/-- `u64::leading_zeros`. -/
def u64_leading_zeros (x : Nat) : Nat := 64 - u64_size x

theorem range_foldl_size (x m : Nat) (hx : x < 2 ^ m) :
    (List.range m).foldl (fun acc i => if x.testBit i then i + 1 else acc) 0 = Nat.size x := by
  induction m with
  | zero =>
    have hx0 : x = 0 := by omega
    subst hx0
    simp
  | succ m ih =>
    rw [List.range_succ, List.foldl_append, List.foldl_cons, List.foldl_nil]
    by_cases hb : x.testBit m
    · have hge : 2 ^ m ≤ x := Nat.testBit_implies_ge hb
      have h1 : m < Nat.size x := Nat.lt_size.mpr hge
      have h2 : Nat.size x ≤ m + 1 := Nat.size_le.mpr hx
      rw [if_pos hb]
      omega
    · have hpos : (0:Nat) < 2 ^ m := Nat.pos_pow_of_pos _ (by norm_num)
      have hlt : x < 2 ^ m := by
        by_contra hc
        push_neg at hc
        have hdiv : x / 2 ^ m = 1 := by
          have lo : 1 ≤ x / 2 ^ m := (Nat.one_le_div_iff hpos).mpr hc
          have hi : x / 2 ^ m < 2 := by
            rw [Nat.div_lt_iff_lt_mul hpos]
            calc x < 2 ^ (m + 1) := hx
              _ = 2 * 2 ^ m := by rw [Nat.pow_succ, Nat.mul_comm]
          omega
        rw [Nat.testBit_to_div_mod, hdiv] at hb
        simp at hb
      rw [if_neg hb, ih hlt]

theorem u64_size_eq_size (x : Nat) (h : x < 2 ^ 64) : u64_size x = Nat.size x :=
  range_foldl_size x 64 h

/-- The mathematical (wrap-free) form of the hcg computation: mask both
arguments to the low `num_groups` bits with the unbounded all-ones mask
`2 ^ num_groups - 1`, intersect, smear, and take `63 - leading_zeros` of the
isolated top bit.  For `num_groups ≤ 63` this is exactly the source's `hcg`
(`hcg_masks_eq_ideal` below); the data-structure invariant and the spec-side
recounts are stated with it. -/
def hcg_ideal (num_groups mu mv : Nat) : Nat :=
  let group_mask := 2 ^ num_groups - 1
  let masked_u := mu &&& group_mask
  let masked_v := mv &&& group_mask
  let common_bits := smear_chain (masked_u &&& masked_v)
  63 - u64_leading_zeros (common_bits - (common_bits >>> 1))

theorem smear_window {x y : Nat} {w : Nat}
    (h : ∀ i, y.testBit i = true ↔ ∃ j, j < w ∧ x.testBit (i + j) = true) :
    ∀ i, (y ||| (y >>> w)).testBit i = true ↔ ∃ j, j < 2 * w ∧ x.testBit (i + j) = true := by
  intro i
  simp only [Nat.testBit_or, Nat.testBit_shiftRight, Bool.or_eq_true, h]
  constructor
  · rintro (⟨j, hj, hb⟩ | ⟨j, hj, hb⟩)
    · exact ⟨j, by omega, hb⟩
    · exact ⟨w + j, by omega, by rwa [show i + (w + j) = w + i + j by omega]⟩
  · rintro ⟨j, hj, hb⟩
    rcases Nat.lt_or_ge j w with h2 | h2
    · exact Or.inl ⟨j, h2, hb⟩
    · exact Or.inr ⟨j - w, by omega, by rwa [show w + i + (j - w) = i + j by omega]⟩

theorem smear_chain_testBit (x : Nat) :
    ∀ i, (smear_chain x).testBit i = true ↔ ∃ j, j < 64 ∧ x.testBit (i + j) = true := by
  have h0 : ∀ i, x.testBit i = true ↔ ∃ j, j < 1 ∧ x.testBit (i + j) = true := by
    intro i
    constructor
    · intro hb
      exact ⟨0, by omega, by simpa using hb⟩
    · rintro ⟨j, hj, hb⟩
      have hj0 : j = 0 := by omega
      subst hj0
      simpa using hb
  have h1 := smear_window h0
  have h2 := smear_window h1
  have h4 := smear_window h2
  have h8 := smear_window h4
  have h16 := smear_window h8
  have h32 := smear_window h16
  simpa [smear_chain] using h32

theorem testBit_log2_self (x : Nat) (hx : x ≠ 0) : x.testBit (Nat.log2 x) = true := by
  have h1 : 2 ^ Nat.log2 x ≤ x := Nat.log2_self_le hx
  have h2 : x < 2 ^ (Nat.log2 x + 1) := Nat.lt_log2_self
  have hpos : 0 < 2 ^ Nat.log2 x := Nat.pos_pow_of_pos _ (by norm_num)
  have hdiv : x / 2 ^ Nat.log2 x = 1 := by
    have lo : 1 ≤ x / 2 ^ Nat.log2 x := (Nat.one_le_div_iff hpos).mpr h1
    have hi : x / 2 ^ Nat.log2 x < 2 := by
      rw [Nat.div_lt_iff_lt_mul hpos]
      calc x < 2 ^ (Nat.log2 x + 1) := h2
        _ = 2 * 2 ^ Nat.log2 x := by rw [Nat.pow_succ, Nat.mul_comm]
    omega
  rw [Nat.testBit_to_div_mod, hdiv]
  decide

theorem smear_chain_eq (x : Nat) (hx : x ≠ 0) (hb : x < 2 ^ 64) :
    smear_chain x = 2 ^ (Nat.log2 x + 1) - 1 := by
  apply Nat.eq_of_testBit_eq
  intro i
  rw [Nat.testBit_two_pow_sub_one]
  have hc := smear_chain_testBit x i
  have hl64 : Nat.log2 x < 64 := (Nat.log2_lt hx).mpr hb
  by_cases h : i ≤ Nat.log2 x
  · have hex : ∃ j, j < 64 ∧ x.testBit (i + j) = true := by
      refine ⟨Nat.log2 x - i, by omega, ?_⟩
      rw [show i + (Nat.log2 x - i) = Nat.log2 x by omega]
      exact testBit_log2_self x hx
    rw [hc.mpr hex]
    simp [show i < Nat.log2 x + 1 by omega]
  · have hno : ¬ ∃ j, j < 64 ∧ x.testBit (i + j) = true := by
      rintro ⟨j, hj, hbj⟩
      have hge : 2 ^ (i + j) ≤ x := Nat.testBit_implies_ge hbj
      have : i + j ≤ Nat.log2 x := (Nat.le_log2 hx).mpr hge
      omega
    have : (smear_chain x).testBit i = false := by
      rcases Bool.eq_false_or_eq_true ((smear_chain x).testBit i) with h2 | h2
      · exact absurd (hc.mp h2) hno
      · exact h2
    rw [this]
    simp [show ¬ i < Nat.log2 x + 1 by omega]

/-- The hcg computation returns the index of the most significant set bit of
`mask_u &&& mask_v &&& group_mask`. -/
theorem hcg_ideal_eq_log2 (ng mu mv : Nat) (hng : ng ≤ 64)
    (h : mu &&& mv &&& (2 ^ ng - 1) ≠ 0) :
    hcg_ideal ng mu mv = Nat.log2 (mu &&& mv &&& (2 ^ ng - 1)) := by
  have hc0 : (mu &&& (2 ^ ng - 1)) &&& (mv &&& (2 ^ ng - 1)) = mu &&& mv &&& (2 ^ ng - 1) := by
    apply Nat.eq_of_testBit_eq
    intro i
    simp only [Nat.testBit_and]
    cases mu.testBit i <;> cases mv.testBit i <;> cases (2 ^ ng - 1).testBit i <;> rfl
  have hle : mu &&& mv &&& (2 ^ ng - 1) < 2 ^ 64 :=
    lt_of_le_of_lt Nat.and_le_right
      (lt_of_lt_of_le (Nat.sub_lt (Nat.pos_pow_of_pos _ (by norm_num)) (by norm_num))
        (Nat.pow_le_pow_right (by norm_num) hng))
  set b := Nat.log2 (mu &&& mv &&& (2 ^ ng - 1)) + 1 with hbdef
  have hb64 : b ≤ 64 := by
    have := (Nat.log2_lt h).mpr hle
    omega
  have hs : smear_chain ((mu &&& (2 ^ ng - 1)) &&& (mv &&& (2 ^ ng - 1))) = 2 ^ b - 1 := by
    rw [hc0]
    exact smear_chain_eq _ h hle
  have hb1 : 1 ≤ b := by omega
  have hpow : (2 : Nat) ^ b = 2 * 2 ^ (b - 1) := by
    conv_lhs => rw [show b = b - 1 + 1 by omega]
    rw [Nat.pow_succ, Nat.mul_comm]
  have hshift : (2 ^ b - 1) >>> 1 = 2 ^ (b - 1) - 1 := by
    rw [Nat.shiftRight_succ, Nat.shiftRight_zero, hpow]
    omega
  have hdiff : (2 ^ b - 1) - ((2 ^ b - 1) >>> 1) = 2 ^ (b - 1) := by
    rw [hshift, hpow]
    have hp : (1 : Nat) ≤ 2 ^ (b - 1) := Nat.one_le_two_pow
    omega
  have hsize : Nat.size ((2 : Nat) ^ (b - 1)) = b := by
    rw [Nat.size_pow]
    omega
  have hdlt : (2:Nat) ^ (b - 1) < 2 ^ 64 :=
    lt_of_lt_of_le (Nat.pow_lt_pow_right (by norm_num) (by omega))
      (Nat.pow_le_pow_right (by norm_num) (le_refl 64))
  simp only [hcg_ideal, u64_leading_zeros, hs, hdiff, u64_size_eq_size _ hdlt, hsize]
  omega

/-- When bit 0 is set in both masks, the masked intersection is nonzero. -/
theorem hcg_masked_ne_zero (ng mu mv : Nat) (h1 : 1 ≤ ng)
    (hu : mu % 2 = 1) (hv : mv % 2 = 1) :
    mu &&& mv &&& (2 ^ ng - 1) ≠ 0 := by
  intro hz
  have hb : (mu &&& mv &&& (2 ^ ng - 1)).testBit 0 = true := by
    simp only [Nat.testBit_and, Nat.testBit_two_pow_sub_one, Nat.testBit_zero]
    simp [hu, hv, show 0 < ng by omega]
  rw [hz] at hb
  simp at hb

/-- The ideal bucket index is always within `[0, num_groups)`. -/
theorem hcg_ideal_lt (ng mu mv : Nat) (hng : ng ≤ 64) (h1 : 1 ≤ ng)
    (hu : mu % 2 = 1) (hv : mv % 2 = 1) :
    hcg_ideal ng mu mv < ng := by
  have hnz := hcg_masked_ne_zero ng mu mv h1 hu hv
  rw [hcg_ideal_eq_log2 ng mu mv hng hnz]
  rw [Nat.log2_lt hnz]
  exact lt_of_le_of_lt Nat.and_le_right
    (Nat.sub_lt (Nat.pos_pow_of_pos _ (by norm_num)) (by norm_num))

/-- `HierarchicalModel::hcg` / `hcg_node` on two raw masks
(src/src/lib.rs:125-156), with the source's `u64` semantics: the group mask is
`(1 << (num_groups % 64)) - 1` and the final `63u64 - leading_zeros` wraps
modulo `2 ^ 64` (release profile; an overflow-checked build panics where the
wrap fires).  At `num_groups = 64`, or when the masked intersection is zero,
the result is `2 ^ 64 - 1` — far outside the counter vectors. -/
def hcg_masks (num_groups mu mv : Nat) : Nat :=
  let group_mask := 2 ^ (num_groups % 64) - 1
  let masked_u := mu &&& group_mask
  let masked_v := mv &&& group_mask
  let common_bits := smear_chain (masked_u &&& masked_v)
  (2 ^ 64 + 63 - u64_leading_zeros (common_bits - (common_bits >>> 1))) % 2 ^ 64

/-- Below the wrap boundary, on a nonzero masked intersection, the source's
hcg computes the most significant common bit. -/
theorem hcg_masks_eq_log2 (ng mu mv : Nat) (hng : ng ≤ 63)
    (h : mu &&& mv &&& (2 ^ ng - 1) ≠ 0) :
    hcg_masks ng mu mv = Nat.log2 (mu &&& mv &&& (2 ^ ng - 1)) := by
  have hm : ng % 64 = ng := Nat.mod_eq_of_lt (by omega)
  have hc0 : (mu &&& (2 ^ ng - 1)) &&& (mv &&& (2 ^ ng - 1)) = mu &&& mv &&& (2 ^ ng - 1) := by
    apply Nat.eq_of_testBit_eq
    intro i
    simp only [Nat.testBit_and]
    cases mu.testBit i <;> cases mv.testBit i <;> cases (2 ^ ng - 1).testBit i <;> rfl
  have hle : mu &&& mv &&& (2 ^ ng - 1) < 2 ^ 64 :=
    lt_of_le_of_lt Nat.and_le_right
      (lt_of_lt_of_le (Nat.sub_lt (Nat.pos_pow_of_pos _ (by norm_num)) (by norm_num))
        (Nat.pow_le_pow_right (by norm_num) (by omega)))
  set b := Nat.log2 (mu &&& mv &&& (2 ^ ng - 1)) + 1 with hbdef
  have hb64 : b ≤ 64 := by
    have := (Nat.log2_lt h).mpr hle
    omega
  have hs : smear_chain ((mu &&& (2 ^ ng - 1)) &&& (mv &&& (2 ^ ng - 1))) = 2 ^ b - 1 := by
    rw [hc0]
    exact smear_chain_eq _ h hle
  have hb1 : 1 ≤ b := by omega
  have hpow : (2 : Nat) ^ b = 2 * 2 ^ (b - 1) := by
    conv_lhs => rw [show b = b - 1 + 1 by omega]
    rw [Nat.pow_succ, Nat.mul_comm]
  have hshift : (2 ^ b - 1) >>> 1 = 2 ^ (b - 1) - 1 := by
    rw [Nat.shiftRight_succ, Nat.shiftRight_zero, hpow]
    omega
  have hdiff : (2 ^ b - 1) - ((2 ^ b - 1) >>> 1) = 2 ^ (b - 1) := by
    rw [hshift, hpow]
    have hp : (1 : Nat) ≤ 2 ^ (b - 1) := Nat.one_le_two_pow
    omega
  have hsize : Nat.size ((2 : Nat) ^ (b - 1)) = b := by
    rw [Nat.size_pow]
    omega
  have hdlt : (2:Nat) ^ (b - 1) < 2 ^ 64 :=
    lt_of_lt_of_le (Nat.pow_lt_pow_right (by norm_num) (by omega))
      (Nat.pow_le_pow_right (by norm_num) (le_refl 64))
  simp only [hcg_masks, hm, u64_leading_zeros, hs, hdiff, u64_size_eq_size _ hdlt, hsize]
  have he : 2 ^ 64 + 63 - (64 - b) = 2 ^ 64 + (b - 1) := by omega
  rw [he, Nat.add_mod_left]
  exact Nat.mod_eq_of_lt (by omega)

/-- Below the wrap boundary the source's hcg agrees with the ideal form. -/
theorem hcg_masks_eq_ideal (ng mu mv : Nat) (hng : ng ≤ 63)
    (h : mu &&& mv &&& (2 ^ ng - 1) ≠ 0) :
    hcg_masks ng mu mv = hcg_ideal ng mu mv :=
  (hcg_masks_eq_log2 ng mu mv hng h).trans
    (hcg_ideal_eq_log2 ng mu mv (by omega) h).symm

/-- Below the wrap boundary, with bit 0 set in both masks, the source's hcg
bucket is in range. -/
theorem hcg_masks_lt (ng mu mv : Nat) (hng : ng ≤ 63) (h1 : 1 ≤ ng)
    (hu : mu % 2 = 1) (hv : mv % 2 = 1) :
    hcg_masks ng mu mv < ng := by
  rw [hcg_masks_eq_ideal ng mu mv hng (hcg_masked_ne_zero ng mu mv h1 hu hv)]
  exact hcg_ideal_lt ng mu mv (by omega) h1 hu hv

/-- At `num_groups = 64` the wrapped group mask is `0`: the intersection is
empty, `leading_zeros = 64`, and `63u64 - 64` wraps to `2 ^ 64 - 1` whatever
the two masks are (release profile; an overflow-checked build panics on the
shift).  The subsequent `hcg_edges`/`hcg_pairs` access is out of bounds. -/
theorem hcg_masks_64 (mu mv : Nat) : hcg_masks 64 mu mv = 2 ^ 64 - 1 := by
  have h1 : (2:Nat) ^ (64 % 64) - 1 = 0 := by norm_num
  simp only [hcg_masks, h1, Nat.and_zero]
  have h2 : smear_chain 0 = 0 := rfl
  rw [h2]
  have h3 : u64_leading_zeros (0 - 0 >>> 1) = 64 := by decide
  rw [h3]
  norm_num

/-- A zero first mask (a node cleared out of every group) likewise sends the
wrapped hcg out of range, at every `num_groups`. -/
theorem hcg_masks_zero_left (ng mv : Nat) : hcg_masks ng 0 mv = 2 ^ 64 - 1 := by
  simp only [hcg_masks, Nat.zero_and]
  have h2 : smear_chain 0 = 0 := rfl
  rw [h2]
  have h3 : u64_leading_zeros (0 - 0 >>> 1) = 64 := by decide
  rw [h3]
  norm_num

theorem lt_two_pow_of_high_bits_false (x k : Nat)
    (h : ∀ j, k ≤ j → x.testBit j = false) : x < 2 ^ k := by
  by_contra hcon
  push_neg at hcon
  have hx : x ≠ 0 := by
    have : (0 : Nat) < 2 ^ k := Nat.pos_pow_of_pos _ (by norm_num)
    omega
  have h1 : k ≤ Nat.log2 x := (Nat.le_log2 hx).mpr hcon
  have h2 := testBit_log2_self x hx
  rw [h _ h1] at h2
  exact Bool.false_ne_true h2

/-- `insert_zero_at` keeps the value within `num_groups + 1` bits. -/
theorem insert_zero_at_lt (val pos ng : Nat) (hv : val < 2 ^ ng)
    (hp : pos ≤ ng) (hng : ng ≤ 63) :
    insert_zero_at val pos ng < 2 ^ (ng + 1) := by
  apply lt_two_pow_of_high_bits_false
  intro j hj
  rw [insert_zero_at_testBit val pos ng hv hp hng j]
  have h1 : ¬ j < pos := by omega
  have h2 : j ≠ pos := by omega
  have h3 : ¬ j ≤ ng := by omega
  simp [h1, h2, h3]

/-- `remove_bit_at` keeps the value within `num_groups - 1` bits, for any
input below the wrap boundary. -/
theorem remove_bit_at_lt (val pos ng : Nat) (hp : pos < ng) (hng : ng ≤ 63) :
    remove_bit_at val pos ng < 2 ^ (ng - 1) := by
  apply lt_two_pow_of_high_bits_false
  intro j hj
  rw [remove_bit_at_testBit val pos ng hp hng j]
  have h1 : ¬ j < pos := by omega
  have h2 : ¬ j < ng - 1 := by omega
  simp [h1, h2]

/-- Undoing `add_group`: removing the freshly inserted zero bit gives back the
original mask (`undo_move` calls `remove_bit_at(·, g, num_groups)` after
`num_groups` was incremented). -/
theorem remove_insert_roundtrip (val pos ng : Nat) (hv : val < 2 ^ ng)
    (hp : pos ≤ ng) (hng : ng ≤ 62) :
    remove_bit_at (insert_zero_at val pos ng) pos (ng + 1) = val := by
  apply Nat.eq_of_testBit_eq
  intro i
  rw [remove_bit_at_testBit _ pos (ng + 1) (by omega) (by omega) i]
  rcases Nat.lt_trichotomy i pos with h1 | h1 | h1
  · rw [if_pos h1, insert_zero_at_testBit val pos ng hv hp (by omega) i, if_pos h1]
  · rcases h1 with rfl
    by_cases h2 : i < ng
    · rw [if_neg (lt_irrefl i), if_pos (by omega),
        insert_zero_at_testBit val i ng hv hp (by omega) (i + 1)]
      rw [if_neg (by omega), if_neg (by omega)]
      simp [show i + 1 ≤ ng by omega]
    · have hig : i = ng := by omega
      rw [if_neg (lt_irrefl i), if_neg (by omega)]
      rw [hig]
      exact (Nat.testBit_eq_false_of_lt hv).symm
  · by_cases h2 : i < ng
    · rw [if_neg (by omega), if_pos (by omega),
        insert_zero_at_testBit val pos ng hv hp (by omega) (i + 1)]
      rw [if_neg (by omega), if_neg (by omega)]
      simp [show i + 1 ≤ ng by omega]
    · rw [if_neg (by omega), if_neg (by omega)]
      exact (Nat.testBit_eq_false_of_lt
        (lt_of_lt_of_le hv (Nat.pow_le_pow_right (by norm_num) (by omega)))).symm

/-- Undoing `remove_group`: when bit `pos` was clear (the removed group was
empty) and the mask has no garbage above `num_groups`, re-inserting a zero at
`pos` restores the original mask (`undo_move` calls
`add_group`, i.e. `insert_zero_at(·, g, num_groups)` after the decrement). -/
theorem insert_remove_roundtrip (val pos ng : Nat) (hv : val < 2 ^ ng)
    (hp1 : 1 ≤ pos) (hp : pos < ng) (hng : ng ≤ 63) (hb : val.testBit pos = false) :
    insert_zero_at (remove_bit_at val pos ng) pos (ng - 1) = val := by
  have hrb : remove_bit_at val pos ng < 2 ^ (ng - 1) := remove_bit_at_lt val pos ng hp hng
  apply Nat.eq_of_testBit_eq
  intro i
  rw [insert_zero_at_testBit _ pos (ng - 1) hrb (by omega) (by omega) i]
  rcases Nat.lt_trichotomy i pos with h1 | h1 | h1
  · rw [if_pos h1, remove_bit_at_testBit val pos ng hp hng i, if_pos h1]
  · subst h1
    rw [if_neg (lt_irrefl i), if_pos rfl]
    exact hb.symm
  · by_cases h2 : i ≤ ng - 1
    · rw [if_neg (by omega), if_neg (by omega), if_pos h2,
        remove_bit_at_testBit val pos ng hp hng (i - 1)]
      rw [if_neg (by omega)]
      by_cases h3 : i - 1 < ng - 1
      · rw [if_pos h3]
        congr 1
        omega
      · rw [if_neg h3]
        exact (Nat.testBit_eq_false_of_lt
          (lt_of_lt_of_le hv (Nat.pow_le_pow_right (by norm_num) (by omega)))).symm
    · rw [if_neg (by omega), if_neg (by omega), if_neg h2]
      exact (Nat.testBit_eq_false_of_lt
        (lt_of_lt_of_le hv (Nat.pow_le_pow_right (by norm_num) (by omega)))).symm

/-! ## Claim C8 -/

/-- C8 counterexample: the claim asserts that the result of `insert_zero_at` has
no bits at positions `≥ num_groups` ("zero in, zero out").  At
`val = 0b1111, pos = 2, num_groups = 4` (input within the low 4 bits, `pos < 4`)
the result is `0b11011 = 27`, whose bit 4 is set — the shifted field occupies
`num_groups + 1` bits. -/
theorem C8_counterexample :
    15 < 2 ^ 4 ∧ 2 < 4 ∧ insert_zero_at 15 2 4 = 27 ∧ (insert_zero_at 15 2 4).testBit 4 = true := by
  refine ⟨by norm_num, by norm_num, by decide, by decide⟩

/-- C8 (amended): for `val` with no bits at positions `≥ num_groups` and
`pos < num_groups`, `insert_zero_at(val, pos, num_groups)` keeps the bits below
`pos`, clears bit `pos`, and shifts the bits of `val` at positions `≥ pos` left
by one within the low `num_groups` bits; the result has no bits at positions
`≥ num_groups + 1` (not `≥ num_groups`, as the original claim stated). -/
theorem C8_insert_zero_at_amended (val pos ng : Nat) (hv : val < 2 ^ ng)
    (hp : pos < ng) (hng : ng ≤ 63) :
    (∀ i, (insert_zero_at val pos ng).testBit i =
      if i < pos then val.testBit i
      else if i = pos then false
      else if i ≤ ng then val.testBit (i - 1)
      else false)
    ∧ insert_zero_at val pos ng < 2 ^ (ng + 1) :=
  ⟨insert_zero_at_testBit val pos ng hv (le_of_lt hp) hng,
   insert_zero_at_lt val pos ng hv (le_of_lt hp) hng⟩

/-- Witness for `C8_insert_zero_at_amended` at `val = 15, pos = 2, num_groups = 4`. -/
theorem C8_witness :
    (15 < 2 ^ 4 ∧ 2 < 4 ∧ (4 : Nat) ≤ 63)
    ∧ (insert_zero_at 15 2 4).testBit 3 = Nat.testBit 15 2
    ∧ insert_zero_at 15 2 4 < 2 ^ 5 := by
  have h := C8_insert_zero_at_amended 15 2 4 (by norm_num) (by norm_num) (by norm_num)
  refine ⟨⟨by norm_num, by norm_num, by norm_num⟩, ?_, h.2⟩
  rw [h.1 3]
  norm_num

theorem lt_pow_of_testBit_false (b g : Nat) (hb : b < 2 ^ (g + 1))
    (h : b.testBit g = false) : b < 2 ^ g := by
  by_contra hc
  push_neg at hc
  have h1 : b / 2 ^ g = 1 := by
    apply Nat.div_eq_of_lt_le
    · simpa using hc
    · rw [show (1 + 1) * 2 ^ g = 2 ^ (g + 1) by ring]
      exact hb
  rw [Nat.testBit_to_div_mod, h1] at h
  simp at h

theorem mod_pow_lt_of_testBit_false (c g : Nat) (h : c.testBit g = false) :
    c % 2 ^ (g + 1) < 2 ^ g := by
  apply lt_pow_of_testBit_false _ _ (Nat.mod_lt _ (by positivity))
  rw [Nat.testBit_mod_two_pow]
  simp [h]

theorem testBit_add_two_pow (m g r : Nat) (h : m.testBit g = false) :
    (m + 2 ^ g).testBit r = if r = g then true else m.testBit r := by
  have hq : m = 2 ^ (g + 1) * (m / 2 ^ (g + 1)) + m % 2 ^ (g + 1) :=
    (Nat.div_add_mod _ _).symm
  have hb : m % 2 ^ (g + 1) < 2 ^ g := mod_pow_lt_of_testBit_false m g h
  have hpow : 2 ^ (g + 1) = 2 ^ g + 2 ^ g := by ring
  have hsplit : m + 2 ^ g = 2 ^ (g + 1) * (m / 2 ^ (g + 1)) + (m % 2 ^ (g + 1) + 2 ^ g) := by
    omega
  have hrhs : m.testBit r = if r < g + 1 then (m % 2 ^ (g + 1)).testBit r
      else (m / 2 ^ (g + 1)).testBit (r - (g + 1)) := by
    conv_lhs => rw [hq]
    rw [Nat.testBit_mul_pow_two_add _ (Nat.mod_lt _ (by positivity)) r]
  rw [hsplit, Nat.testBit_mul_pow_two_add _ (show m % 2 ^ (g + 1) + 2 ^ g < 2 ^ (g + 1) by omega) r]
  rcases Nat.lt_trichotomy r g with h1 | h1 | h1
  · have e1 : r < g + 1 := by omega
    have e2 : ¬ r = g := by omega
    rw [if_pos e1, if_neg e2, hrhs, if_pos e1]
    have hsplit2 : m % 2 ^ (g + 1) + 2 ^ g = 2 ^ g * 1 + m % 2 ^ (g + 1) := by omega
    rw [hsplit2, Nat.testBit_mul_pow_two_add _ (show m % 2 ^ (g + 1) < 2 ^ g from hb) r,
      if_pos h1]
  · subst h1
    have e1 : r < r + 1 := by omega
    rw [if_pos e1, if_pos rfl, Nat.testBit_to_div_mod]
    have hd : (m % 2 ^ (r + 1) + 2 ^ r) / 2 ^ r = 1 :=
      Nat.div_eq_of_lt_le (by omega) (by omega)
    rw [hd]
    rfl
  · have e1 : ¬ r < g + 1 := by omega
    have e2 : ¬ r = g := by omega
    rw [if_neg e1, if_neg e2, hrhs, if_neg e1]

theorem testBit_sub_two_pow (m g r : Nat) (h : m.testBit g = true) :
    (m - 2 ^ g).testBit r = if r = g then false else m.testBit r := by
  have hbg : (m % 2 ^ (g + 1)).testBit g = true := by
    rw [Nat.testBit_mod_two_pow]
    simp [h]
  have hge : 2 ^ g ≤ m % 2 ^ (g + 1) := Nat.testBit_implies_ge hbg
  have hblt : m % 2 ^ (g + 1) < 2 ^ (g + 1) := Nat.mod_lt _ (by positivity)
  have hpow : 2 ^ (g + 1) = 2 ^ g + 2 ^ g := by ring
  have hq : m = 2 ^ (g + 1) * (m / 2 ^ (g + 1)) + m % 2 ^ (g + 1) :=
    (Nat.div_add_mod _ _).symm
  have hsplit : m - 2 ^ g
      = 2 ^ (g + 1) * (m / 2 ^ (g + 1)) + (m % 2 ^ (g + 1) - 2 ^ g) := by
    omega
  have hrhs : m.testBit r = if r < g + 1 then (m % 2 ^ (g + 1)).testBit r
      else (m / 2 ^ (g + 1)).testBit (r - (g + 1)) := by
    conv_lhs => rw [hq]
    rw [Nat.testBit_mul_pow_two_add _ hblt r]
  have hb2 : m % 2 ^ (g + 1) - 2 ^ g < 2 ^ g := by omega
  rw [hsplit, Nat.testBit_mul_pow_two_add _
    (show m % 2 ^ (g + 1) - 2 ^ g < 2 ^ (g + 1) by omega) r]
  rcases Nat.lt_trichotomy r g with h1 | h1 | h1
  · have e1 : r < g + 1 := by omega
    have e2 : ¬ r = g := by omega
    rw [if_pos e1, if_neg e2, hrhs, if_pos e1]
    have hfree : (m % 2 ^ (g + 1) - 2 ^ g).testBit g = false :=
      Nat.testBit_eq_false_of_lt hb2
    have := testBit_add_two_pow (m % 2 ^ (g + 1) - 2 ^ g) g r hfree
    rw [if_neg e2] at this
    rw [← this, show m % 2 ^ (g + 1) - 2 ^ g + 2 ^ g = m % 2 ^ (g + 1) by omega]
  · subst h1
    have e1 : r < r + 1 := by omega
    rw [if_pos e1, if_pos rfl]
    exact Nat.testBit_eq_false_of_lt hb2
  · have e1 : ¬ r < g + 1 := by omega
    have e2 : ¬ r = g := by omega
    rw [if_neg e1, if_neg e2, hrhs, if_neg e1]

theorem add_two_pow_lt (m g ng : Nat) (hm : m < 2 ^ ng) (hg : g < ng)
    (h : m.testBit g = false) : m + 2 ^ g < 2 ^ ng := by
  apply lt_two_pow_of_high_bits_false
  intro i hi
  rw [testBit_add_two_pow m g i h, if_neg (by omega)]
  exact Nat.testBit_eq_false_of_lt (lt_of_lt_of_le hm (Nat.pow_le_pow_right (by norm_num) hi))

/-! ## List indexing helpers -/

theorem getD_set_self (l : List Nat) (i v : Nat) (h : i < l.length) :
    (l.set i v).getD i 0 = v := by
  rw [List.getD_eq_getElem?_getD, List.getElem?_set]
  simp [h]

theorem getD_set_ne (l : List Nat) (i j v : Nat) (h : i ≠ j) :
    (l.set i v).getD j 0 = l.getD j 0 := by
  rw [List.getD_eq_getElem?_getD, List.getElem?_set, if_neg h, ← List.getD_eq_getElem?_getD]

theorem set_getD_self (l : List Nat) (u : Nat) (h : u < l.length) :
    l.set u (l.getD u 0) = l := by
  apply List.ext_getElem
  · simp
  · intro i h1 h2
    rw [List.getElem_set]
    split
    · next heq =>
      subst heq
      exact List.getD_eq_getElem l 0 h2
    · rfl

theorem list_eq_of_getD (l1 l2 : List Nat) (hlen : l1.length = l2.length)
    (h : ∀ r, l1.getD r 0 = l2.getD r 0) : l1 = l2 := by
  apply List.ext_getElem hlen
  intro i h1 h2
  have := h i
  rwa [List.getD_eq_getElem l1 0 h1, List.getD_eq_getElem l2 0 h2] at this

/-! ## Counter increments: `hcg_edges[h] += 1` etc. -/

/-- `l[i] += 1` on a counter vector. -/
def bump (l : List Nat) (i : Nat) : List Nat := l.set i (l.getD i 0 + 1)

/-- `l[i] -= 1` on a counter vector (`usize` subtraction; all uses below prove
the entry is positive, so the `Nat` truncation agrees with the source). -/
def dip (l : List Nat) (i : Nat) : List Nat := l.set i (l.getD i 0 - 1)

theorem bump_length (l : List Nat) (i : Nat) : (bump l i).length = l.length :=
  List.length_set ..

theorem dip_length (l : List Nat) (i : Nat) : (dip l i).length = l.length :=
  List.length_set ..

theorem bump_getD (l : List Nat) (i : Nat) (hi : i < l.length) (r : Nat) :
    (bump l i).getD r 0 = l.getD r 0 + (if i = r then 1 else 0) := by
  by_cases h : i = r
  · subst h
    rw [bump, getD_set_self _ _ _ hi, if_pos rfl]
  · rw [bump, getD_set_ne _ _ _ _ h, if_neg h]
    omega

theorem dip_getD (l : List Nat) (i : Nat) (hi : i < l.length) (r : Nat) :
    (dip l i).getD r 0 = l.getD r 0 - (if i = r then 1 else 0) := by
  by_cases h : i = r
  · subst h
    rw [dip, getD_set_self _ _ _ hi, if_pos rfl]
  · rw [dip, getD_set_ne _ _ _ _ h, if_neg h]
    omega

/-- Folding an increment-at-bucket step over a list counts occurrences per bucket:
the model of the `set_hcg_edges` / `set_hcg_pairs` loops in `init_groups`. -/
theorem foldl_bump_getD {α : Type} (L : List α) (f : α → Nat) (init : List Nat)
    (hlen : ∀ x ∈ L, f x < init.length) (r : Nat) :
    ((L.foldl (fun acc x => bump acc (f x)) init).getD r 0
      = init.getD r 0 + L.countP (fun x => decide (f x = r)))
    ∧ (L.foldl (fun acc x => bump acc (f x)) init).length = init.length := by
  induction L generalizing init with
  | nil => simp
  | cons a L ih =>
    have ha : f a < init.length := hlen a (List.mem_cons_self ..)
    have hlen2 : ∀ x ∈ L, f x < (bump init (f a)).length := by
      intro x hx
      rw [bump_length]
      exact hlen x (List.mem_cons_of_mem _ hx)
    have h2 := ih (bump init (f a)) hlen2
    rw [List.foldl_cons] at *
    refine ⟨?_, by rw [h2.2, bump_length]⟩
    rw [h2.1, bump_getD _ _ ha, List.countP_cons]
    by_cases h : f a = r
    · simp [h]
      omega
    · simp [h]

/-- The incremental relabelling loop of `update_hcg_props`: each element first
decrements its old bucket, then increments its new bucket.  If the starting
counters consist of a residue plus the old-bucket occurrence counts, the final
counters are the residue plus the new-bucket occurrence counts (and no
decrement underflows along the way, by the same invariant). -/
theorem foldl_dip_bump_getD {α : Type} (L : List α) (fOld fNew : α → Nat)
    (counts : List Nat) (res : Nat → Nat)
    (hlen : ∀ x ∈ L, fOld x < counts.length ∧ fNew x < counts.length)
    (hcnt : ∀ r, counts.getD r 0 = res r + L.countP (fun x => decide (fOld x = r))) :
    (∀ r, (L.foldl (fun acc x => bump (dip acc (fOld x)) (fNew x)) counts).getD r 0
      = res r + L.countP (fun x => decide (fNew x = r)))
    ∧ (L.foldl (fun acc x => bump (dip acc (fOld x)) (fNew x)) counts).length
      = counts.length := by
  induction L generalizing counts res with
  | nil =>
    refine ⟨fun r => ?_, rfl⟩
    have h1 := hcnt r
    simpa using h1
  | cons a L ih =>
    have ho : fOld a < counts.length := (hlen a (List.mem_cons_self ..)).1
    have hn : fNew a < counts.length := (hlen a (List.mem_cons_self ..)).2
    have hlacc : (bump (dip counts (fOld a)) (fNew a)).length = counts.length := by
      rw [bump_length, dip_length]
    have hgd : ∀ r, (bump (dip counts (fOld a)) (fNew a)).getD r 0
        = counts.getD r 0 - (if fOld a = r then 1 else 0)
          + (if fNew a = r then 1 else 0) := by
      intro r
      rw [bump_getD _ _ (by rwa [dip_length]) r, dip_getD _ _ ho r]
    have hcnt1 : ∀ r, (bump (dip counts (fOld a)) (fNew a)).getD r 0
        = (fun s => res s + (if fNew a = s then 1 else 0)) r
          + L.countP (fun x => decide (fOld x = r)) := by
      intro r
      have h1 := hcnt r
      rw [List.countP_cons] at h1
      rw [hgd r]
      simp only []
      by_cases h : fOld a = r
      · rw [if_pos (by simp [h])] at h1
        rw [if_pos h]
        by_cases h2 : fNew a = r
        · rw [if_pos h2]
          omega
        · rw [if_neg h2]
          omega
      · rw [if_neg (by simp [h])] at h1
        rw [if_neg h]
        by_cases h2 : fNew a = r
        · rw [if_pos h2]
          omega
        · rw [if_neg h2]
          omega
    have hlen1 : ∀ x ∈ L, fOld x < (bump (dip counts (fOld a)) (fNew a)).length
        ∧ fNew x < (bump (dip counts (fOld a)) (fNew a)).length := by
      intro x hx
      rw [hlacc]
      exact hlen x (List.mem_cons_of_mem _ hx)
    have h2 := ih (bump (dip counts (fOld a)) (fNew a)) _ hlen1 hcnt1
    rw [List.foldl_cons]
    refine ⟨?_, by rw [h2.2, hlacc]⟩
    intro r
    rw [h2.1 r, List.countP_cons]
    by_cases h : fNew a = r
    · rw [if_pos h, if_pos (by simp [h])]
      omega
    · rw [if_neg h, if_neg (by simp [h])]
      omega

/-! ## Data model (src/src/lib.rs:46-66)

The graph is the already-parsed network (GML reading is an external
collaborator).  Per the specification, node ids coincide with positions
`0..num_nodes`, so the model keys `groups` by position.  Roster entries are
`Int` (`i32` in the source, sentinel `-1`); `get2 t r c` is
`t[(r, c)]` on the row-indexed table. -/

structure Network where
  num_nodes : Nat
  edges : List (Nat × Nat)
deriving Repr, DecidableEq

structure HierarchicalModel where
  network : Network
  max_groups : Nat
  num_groups : Nat
  groups : List Nat
  nodes_in : List (List Int)
  nodes_out : List (List Int)
  group_size : List Nat
  hcg_edges : List Nat
  hcg_pairs : List Nat
deriving Repr, DecidableEq

def get2 (t : List (List Int)) (r c : Nat) : Int := (t.getD r []).getD c (-1)

def set2 (t : List (List Int)) (r c : Nat) (v : Int) : List (List Int) :=
  t.set r ((t.getD r []).set c v)

/-- `HierarchicalModel::hcg` (src/src/lib.rs:125-139). -/
def HierarchicalModel.hcg (s : HierarchicalModel) (u v : Nat) : Nat :=
  hcg_masks s.num_groups (s.groups.getD u 0) (s.groups.getD v 0)

/-- `HierarchicalModel::hcg_node` (src/src/lib.rs:142-156): same computation with
`old_state` in place of the first node's current mask. -/
def HierarchicalModel.hcg_node (s : HierarchicalModel) (old_state : Nat) (v : Nat) : Nat :=
  hcg_masks s.num_groups old_state (s.groups.getD v 0)

/-- The double node loop of `set_hcg_pairs` (src/src/lib.rs:196-204): all ordered
pairs from the node list, filtered to `source.id < target.id`. -/
def pair_list (n : Nat) : List (Nat × Nat) :=
  ((List.range n).product (List.range n)).filter fun p => decide (p.1 < p.2)

/-- Counters rebuilt from scratch: the `set_hcg_edges` loop of `init_groups`
(src/src/lib.rs:188-192). -/
def recount_edges (net : Network) (groups : List Nat) (ng : Nat) : List Nat :=
  net.edges.foldl
    (fun acc e => bump acc (hcg_masks ng (groups.getD e.1 0) (groups.getD e.2 0)))
    (List.replicate ng 0)

/-- Counters rebuilt from scratch: the `set_hcg_pairs` loop of `init_groups`
(src/src/lib.rs:196-204). -/
def recount_pairs (n : Nat) (groups : List Nat) (ng : Nat) : List Nat :=
  (pair_list n).foldl
    (fun acc p => bump acc (hcg_masks ng (groups.getD p.1 0) (groups.getD p.2 0)))
    (List.replicate ng 0)

/-- The spec-side recount of `hcg_edges`, over the wrap-free `hcg_ideal`
(`HCG(u,v)` as the spec defines it).  Below the wrap boundary it equals the
source recount `recount_edges` (`recount_edges_eq_ideal`); the data-structure
invariant is stated with it so that it also covers 64-group states, where the
source's own hcg no longer computes a bucket. -/
def recount_edges_ideal (net : Network) (groups : List Nat) (ng : Nat) : List Nat :=
  net.edges.foldl
    (fun acc e => bump acc (hcg_ideal ng (groups.getD e.1 0) (groups.getD e.2 0)))
    (List.replicate ng 0)

/-- The spec-side recount of `hcg_pairs`. -/
def recount_pairs_ideal (n : Nat) (groups : List Nat) (ng : Nat) : List Nat :=
  (pair_list n).foldl
    (fun acc p => bump acc (hcg_ideal ng (groups.getD p.1 0) (groups.getD p.2 0)))
    (List.replicate ng 0)

theorem foldl_bump_congr {α : Type} (L : List α) (f g : α → Nat) (init : List Nat)
    (h : ∀ x ∈ L, f x = g x) :
    L.foldl (fun acc x => bump acc (f x)) init
      = L.foldl (fun acc x => bump acc (g x)) init := by
  induction L generalizing init with
  | nil => rfl
  | cons a L ih =>
    rw [List.foldl_cons, List.foldl_cons, h a (List.mem_cons_self ..),
      ih _ (fun x hx => h x (List.mem_cons_of_mem _ hx))]

theorem edges_nil_of_small (net : Network)
    (hE : ∀ e ∈ net.edges, e.1 < net.num_nodes ∧ e.2 < net.num_nodes ∧ e.1 ≠ e.2)
    (hN : net.num_nodes ≤ 1) : net.edges = [] := by
  rcases h : net.edges with _ | ⟨e, t⟩
  · rfl
  · obtain ⟨h1, h2, h3⟩ := hE e (by rw [h]; exact List.mem_cons_self ..)
    omega



/-- `Move` (src/src/lib.rs:25-44, src/src/multi_group_model.rs:7-27). -/
inductive Move where
  | AddGroup (group : Nat)
  | RemoveGroup (group : Nat)
  | RemoveNodeFromGroup (group node idx : Nat) (old_state : Nat)
  | AddNodeToGroup (group node idx : Nat) (old_state : Nat)
deriving Repr, DecidableEq

/-- `HierarchicalModel::add_group` (src/src/lib.rs:209-226). -/
def HierarchicalModel.add_group (s : HierarchicalModel) (group : Nat) :
    HierarchicalModel × Move :=
  let num_nodes := s.network.num_nodes
  ({ s with
      nodes_in := s.nodes_in.insertIdx group (List.replicate num_nodes (-1)),
      nodes_out := s.nodes_out.insertIdx group ((List.range num_nodes).map Int.ofNat),
      group_size := s.group_size.insertIdx group 0,
      hcg_edges := s.hcg_edges.insertIdx group 0,
      hcg_pairs := s.hcg_pairs.insertIdx group 0,
      groups := s.groups.map (fun u => insert_zero_at u group s.num_groups),
      num_groups := s.num_groups + 1 },
   Move.AddGroup group)

/-- `HierarchicalModel::remove_group` (src/src/lib.rs:228-242). -/
def HierarchicalModel.remove_group (s : HierarchicalModel) (group : Nat) :
    HierarchicalModel × Move :=
  ({ s with
      groups := s.groups.map (fun u => remove_bit_at u group s.num_groups),
      nodes_in := s.nodes_in.eraseIdx group,
      nodes_out := s.nodes_out.eraseIdx group,
      hcg_edges := s.hcg_edges.eraseIdx group,
      hcg_pairs := s.hcg_pairs.eraseIdx group,
      group_size := s.group_size.eraseIdx group,
      num_groups := s.num_groups - 1 },
   Move.RemoveGroup group)

/-- `HierarchicalModel::remove_node_from_group_by_idx` (src/src/lib.rs:244-260).
`groups[node] -= 1 << group` is wrapping `u64` subtraction (`u64_sub`); on
every proved well-formed use bit `group` is set in the mask, so no wrap
fires. -/
def HierarchicalModel.remove_node_from_group_by_idx (s : HierarchicalModel)
    (group idx : Nat) : HierarchicalModel × Move :=
  let n_out := s.network.num_nodes - s.group_size.getD group 0
  let node := (get2 s.nodes_in group idx).toNat
  let nodes_in := set2 s.nodes_in group idx (get2 s.nodes_in group (s.group_size.getD group 0 - 1))
  let nodes_out := set2 s.nodes_out group n_out (Int.ofNat node)
  let old_state := s.groups.getD node 0
  ({ s with
      nodes_in := nodes_in,
      nodes_out := nodes_out,
      groups := s.groups.set node (u64_sub old_state (2 ^ group)),
      group_size := s.group_size.set group (s.group_size.getD group 0 - 1) },
   Move.RemoveNodeFromGroup group node idx old_state)

/-- `HierarchicalModel::add_node_to_group_by_idx` (src/src/lib.rs:262-278).
`groups[node] += 1 << group` is wrapping `u64` addition (`u64_add`); on every
proved well-formed use bit `group` is clear and the mask is below `2 ^ 64`,
so no wrap fires. -/
def HierarchicalModel.add_node_to_group_by_idx (s : HierarchicalModel)
    (group idx : Nat) : HierarchicalModel × Move :=
  let n_out := s.network.num_nodes - s.group_size.getD group 0
  let node := (get2 s.nodes_out group idx).toNat
  let nodes_out := set2 s.nodes_out group idx (get2 s.nodes_out group (n_out - 1))
  let nodes_in := set2 s.nodes_in group (s.group_size.getD group 0) (Int.ofNat node)
  let old_state := s.groups.getD node 0
  ({ s with
      nodes_in := nodes_in,
      nodes_out := nodes_out,
      groups := s.groups.set node (u64_add old_state (2 ^ group)),
      group_size := s.group_size.set group (s.group_size.getD group 0 + 1) },
   Move.AddNodeToGroup group node idx old_state)

/-- `HierarchicalModel::update_hcg_props` (src/src/lib.rs:318-339): for every
other node `v`, move the pair `(u, v)` from its old bucket to its new bucket;
for every edge with exactly one endpoint `u`, likewise. -/
def HierarchicalModel.update_hcg_props (s : HierarchicalModel) (u : Nat)
    (old_state : Nat) : HierarchicalModel :=
  let new_pairs :=
    ((List.range s.network.num_nodes).filter (fun v => decide (v ≠ u))).foldl
      (fun acc v => bump (dip acc (s.hcg_node old_state v)) (s.hcg u v))
      s.hcg_pairs
  let new_edges :=
    (s.network.edges.filter (fun e => xor (decide (e.1 = u)) (decide (e.2 = u)))).foldl
      (fun acc e =>
        let v := if e.1 = u then e.2 else e.1
        bump (dip acc (s.hcg_node old_state v)) (s.hcg u v))
      s.hcg_edges
  { s with hcg_pairs := new_pairs, hcg_edges := new_edges }

/-- The `Vec` bucket indices touched by one call to `update_hcg_props`
(src/src/lib.rs:322-337) are all in bounds.  An out-of-bounds `Vec` index
aborts the process, so a call returns only when this holds; it fails whenever
the wrapped hcg leaves `[0, num_groups)` (`num_groups = 64`, or a mask without
common bits). -/
@[reducible] def HierarchicalModel.update_ok (s : HierarchicalModel) (u : Nat)
    (old_state : Nat) : Prop :=
  (∀ v, v < s.network.num_nodes → v ≠ u →
    s.hcg_node old_state v < s.hcg_pairs.length ∧ s.hcg u v < s.hcg_pairs.length)
  ∧ (∀ e ∈ s.network.edges, xor (decide (e.1 = u)) (decide (e.2 = u)) = true →
    s.hcg_node old_state (if e.1 = u then e.2 else e.1) < s.hcg_edges.length
    ∧ s.hcg u (if e.1 = u then e.2 else e.1) < s.hcg_edges.length)


/-! ## Counting pairs that involve a fixed node -/

theorem hcg_masks_comm (ng a b : Nat) : hcg_masks ng a b = hcg_masks ng b a := by
  simp only [hcg_masks]
  rw [Nat.and_comm (a &&& (2 ^ (ng % 64) - 1)) (b &&& (2 ^ (ng % 64) - 1))]

theorem hcg_ideal_comm (ng a b : Nat) : hcg_ideal ng a b = hcg_ideal ng b a := by
  simp only [hcg_ideal]
  rw [Nat.and_comm (a &&& (2 ^ ng - 1)) (b &&& (2 ^ ng - 1))]

theorem mem_pair_list (n : Nat) (p : Nat × Nat) :
    p ∈ pair_list n ↔ p.1 < n ∧ p.2 < n ∧ p.1 < p.2 := by
  obtain ⟨a, b⟩ := p
  simp only [pair_list, List.mem_filter, List.product, List.mem_flatMap, List.mem_map,
    List.mem_range, decide_eq_true_eq, Prod.mk.injEq]
  constructor
  · rintro ⟨⟨x, hx, y, hy, rfl, rfl⟩, hab⟩
    exact ⟨hx, hy, hab⟩
  · rintro ⟨ha, hb, hab⟩
    exact ⟨⟨a, ha, b, hb, rfl, rfl⟩, hab⟩

theorem nodup_pair_list (n : Nat) : (pair_list n).Nodup :=
  ((List.nodup_range n).product (List.nodup_range n)).filter _

theorem countP_filter_split {α : Type} (l : List α) (q p : α → Bool) :
    l.countP p = (l.filter q).countP p + (l.filter (fun x => !q x)).countP p := by
  have hperm := List.filter_append_perm q l
  rw [← hperm.countP_eq p, List.countP_append]

theorem getD_replicate (ng r : Nat) : (List.replicate ng (0 : Nat)).getD r 0 = 0 := by
  rw [List.getD_eq_getElem?_getD]
  rcases Nat.lt_or_ge r ng with h | h
  · rw [List.getElem?_replicate, if_pos h]
    rfl
  · rw [List.getElem?_eq_none (by simpa using h)]
    rfl

/-- Pairs `(a, b)` with `a < b` and one endpoint `u` correspond to the other
endpoint `v ≠ u`; for a symmetric bucket function the per-bucket counts agree. -/
theorem countP_pairs_involving (n u : Nat) (hu : u < n) (f : Nat → Nat → Nat)
    (hsym : ∀ a b, f a b = f b a) (r : Nat) :
    ((pair_list n).filter (fun p => decide (p.1 = u) || decide (p.2 = u))).countP
        (fun p => decide (f p.1 p.2 = r))
      = ((List.range n).filter (fun v => decide (v ≠ u))).countP
        (fun v => decide (f u v = r)) := by
  rw [List.countP_eq_length_filter, List.countP_eq_length_filter,
    List.filter_filter, List.filter_filter,
    ← List.toFinset_card_of_nodup ((nodup_pair_list n).filter _),
    ← List.toFinset_card_of_nodup ((List.nodup_range n).filter _)]
  apply Finset.card_bij (fun p _ => p.1 + p.2 - u)
  · rintro ⟨a, b⟩ ha
    simp only [List.mem_toFinset, List.mem_filter, mem_pair_list, List.mem_range,
      Bool.and_eq_true, Bool.or_eq_true, decide_eq_true_eq] at ha ⊢
    obtain ⟨⟨han, hbn, hab⟩, hf, hor⟩ := ha
    rcases hor with h | h
    · subst h
      rw [show a + b - a = b by omega]
      exact ⟨by omega, hf, by omega⟩
    · subst h
      rw [show a + b - b = a by omega]
      exact ⟨by omega, by rw [hsym]; exact hf, by omega⟩
  · rintro ⟨a, b⟩ ha ⟨c, d⟩ hc himg
    simp only [List.mem_toFinset, List.mem_filter, mem_pair_list,
      Bool.and_eq_true, Bool.or_eq_true, decide_eq_true_eq] at ha hc
    simp only at himg
    obtain ⟨⟨han, hbn, hab⟩, -, hor1⟩ := ha
    obtain ⟨⟨hcn, hdn, hcd⟩, -, hor2⟩ := hc
    have : a = c ∧ b = d := by omega
    simp [this.1, this.2]
  · intro v hv
    simp only [List.mem_toFinset, List.mem_filter, List.mem_range,
      Bool.and_eq_true, decide_eq_true_eq] at hv
    obtain ⟨hvn, hf, hvu⟩ := hv
    rcases Nat.lt_or_ge v u with h | h
    · refine ⟨(v, u), ?_, by omega⟩
      simp only [List.mem_toFinset, List.mem_filter, mem_pair_list,
        Bool.and_eq_true, Bool.or_eq_true, decide_eq_true_eq]
      exact ⟨⟨hvn, hu, h⟩, by rw [hsym]; exact hf, Or.inr trivial⟩
    · have h2 : u < v := by omega
      refine ⟨(u, v), ?_, by omega⟩
      simp only [List.mem_toFinset, List.mem_filter, mem_pair_list,
        Bool.and_eq_true, Bool.or_eq_true, decide_eq_true_eq]
      exact ⟨⟨hu, hvn, h2⟩, hf, Or.inl trivial⟩

theorem getD_mem_of_lt (l : List Nat) (i d : Nat) (h : i < l.length) : l.getD i d ∈ l := by
  rw [List.getD_eq_getElem l d h]
  exact List.getElem_mem h

theorem pair_list_small (n : Nat) (hN : n ≤ 1) : pair_list n = [] := by
  rcases h : pair_list n with _ | ⟨p, t⟩
  · rfl
  · obtain ⟨h1, h2, h3⟩ := (mem_pair_list n p).mp (by rw [h]; exact List.mem_cons_self ..)
    omega

/-- Below the wrap boundary (or on a degenerate network) the source recount
agrees with the spec-side recount. -/

theorem recount_edges_eq_ideal (net : Network) (groups : List Nat) (ng : Nat)
    (hngN : ng ≤ 63 ∨ net.num_nodes ≤ 1) (h1 : 1 ≤ ng)
    (hE : ∀ e ∈ net.edges, e.1 < net.num_nodes ∧ e.2 < net.num_nodes ∧ e.1 ≠ e.2)
    (hbit : ∀ v, v < net.num_nodes → groups.getD v 0 % 2 = 1) :
    recount_edges net groups ng = recount_edges_ideal net groups ng := by
  rcases hngN with hng | hN
  · rw [recount_edges, recount_edges_ideal]
    apply foldl_bump_congr
    intro e he
    obtain ⟨he1, he2, _⟩ := hE e he
    exact hcg_masks_eq_ideal ng _ _ hng
      (hcg_masked_ne_zero ng _ _ h1 (hbit _ he1) (hbit _ he2))
  · rw [recount_edges, recount_edges_ideal, edges_nil_of_small net hE hN]
    rfl

theorem recount_pairs_eq_ideal (n : Nat) (groups : List Nat) (ng : Nat)
    (hngN : ng ≤ 63 ∨ n ≤ 1) (h1 : 1 ≤ ng)
    (hbit : ∀ v, v < n → groups.getD v 0 % 2 = 1) :
    recount_pairs n groups ng = recount_pairs_ideal n groups ng := by
  rcases hngN with hng | hN
  · rw [recount_pairs, recount_pairs_ideal]
    apply foldl_bump_congr
    intro p hp
    obtain ⟨hp1, hp2, _⟩ := (mem_pair_list n p).mp hp
    exact hcg_masks_eq_ideal ng _ _ hng
      (hcg_masked_ne_zero ng _ _ h1 (hbit _ hp1) (hbit _ hp2))
  · rw [recount_pairs, recount_pairs_ideal, pair_list_small n hN]
    rfl

/-- Below the wrap boundary, a consistent state keeps every touched bucket
index in bounds: the source's `update_hcg_props` cannot panic there. -/
theorem update_ok_of_le63 (s : HierarchicalModel) (u old : Nat)
    (hng1 : 1 ≤ s.num_groups) (hng63 : s.num_groups ≤ 63)
    (hu : u < s.network.num_nodes)
    (hlen : s.groups.length = s.network.num_nodes)
    (hbit : ∀ m ∈ s.groups, m % 2 = 1)
    (hold : old % 2 = 1)
    (hE : ∀ e ∈ s.network.edges,
      e.1 < s.network.num_nodes ∧ e.2 < s.network.num_nodes ∧ e.1 ≠ e.2)
    (hlp : s.num_groups ≤ s.hcg_pairs.length)
    (hle : s.num_groups ≤ s.hcg_edges.length) :
    s.update_ok u old := by
  have hmem : ∀ v, v < s.network.num_nodes → s.groups.getD v 0 % 2 = 1 :=
    fun v hv => hbit _ (getD_mem_of_lt _ _ _ (by omega))
  constructor
  · intro v hv hvne
    exact ⟨lt_of_lt_of_le (hcg_masks_lt _ _ _ hng63 hng1 hold (hmem v hv)) hlp,
      lt_of_lt_of_le (hcg_masks_lt _ _ _ hng63 hng1 (hmem u hu) (hmem v hv)) hlp⟩
  · intro e he hx
    have hee := hE e he
    have hvn : (if e.1 = u then e.2 else e.1) < s.network.num_nodes := by
      split
      · exact hee.2.1
      · exact hee.1
    exact ⟨lt_of_lt_of_le (hcg_masks_lt _ _ _ hng63 hng1 hold (hmem _ hvn)) hle,
      lt_of_lt_of_le (hcg_masks_lt _ _ _ hng63 hng1 (hmem u hu) (hmem _ hvn)) hle⟩

theorem foldl_bump_length {α : Type} (L : List α) (f : α → Nat) (init : List Nat) :
    (L.foldl (fun acc x => bump acc (f x)) init).length = init.length := by
  induction L generalizing init with
  | nil => rfl
  | cons a L ih =>
    rw [List.foldl_cons, ih, bump_length]

theorem recount_pairs_length (n : Nat) (g : List Nat) (ng : Nat) :
    (recount_pairs n g ng).length = ng := by
  rw [recount_pairs, foldl_bump_length, List.length_replicate]

theorem recount_edges_length (net : Network) (g : List Nat) (ng : Nat) :
    (recount_edges net g ng).length = ng := by
  rw [recount_edges, foldl_bump_length, List.length_replicate]

/-- Core of C1: if the counters match a from-scratch recount against the masks
with node `u` holding `old_state`, and `u` now holds any mask (bit 0 still set
everywhere), then the incremental update produces exactly the recount against
the current masks, and touches nothing but the two counter vectors. -/
theorem update_hcg_props_recount (s : HierarchicalModel) (u : Nat) (old_state : Nat)
    (hng1 : 1 ≤ s.num_groups) (hng63 : s.num_groups ≤ 63)
    (hu : u < s.network.num_nodes)
    (hlen : s.groups.length = s.network.num_nodes)
    (hbit : ∀ m ∈ s.groups, m % 2 = 1)
    (hold : old_state % 2 = 1)
    (hE : ∀ e ∈ s.network.edges,
      e.1 < s.network.num_nodes ∧ e.2 < s.network.num_nodes ∧ e.1 ≠ e.2)
    (hedges : s.hcg_edges
      = recount_edges s.network (s.groups.set u old_state) s.num_groups)
    (hpairs : s.hcg_pairs
      = recount_pairs s.network.num_nodes (s.groups.set u old_state) s.num_groups) :
    (s.update_hcg_props u old_state).hcg_pairs
        = recount_pairs s.network.num_nodes s.groups s.num_groups
    ∧ (s.update_hcg_props u old_state).hcg_edges
        = recount_edges s.network s.groups s.num_groups := by
  have hpre_u : (s.groups.set u old_state).getD u 0 = old_state :=
    getD_set_self _ _ _ (by omega)
  have hpre_ne : ∀ v, v ≠ u → (s.groups.set u old_state).getD v 0 = s.groups.getD v 0 :=
    fun v hv => getD_set_ne _ _ _ _ (fun h => hv h.symm)
  have hmem : ∀ v, v < s.network.num_nodes → s.groups.getD v 0 % 2 = 1 :=
    fun v hv => hbit _ (getD_mem_of_lt _ _ _ (by omega))
  have hpre_bit : ∀ v, v < s.network.num_nodes
      → (s.groups.set u old_state).getD v 0 % 2 = 1 := by
    intro v hv
    by_cases h : v = u
    · rw [h, hpre_u]
      exact hold
    · rw [hpre_ne v h]
      exact hmem v hv
  have hbound : ∀ a b : Nat, a % 2 = 1 → b % 2 = 1
      → hcg_masks s.num_groups a b < s.num_groups :=
    fun a b ha hb => hcg_masks_lt _ a b hng63 hng1 ha hb
  -- ### pairs
  have hpair_res := by
    refine foldl_dip_bump_getD
      ((List.range s.network.num_nodes).filter (fun v => decide (v ≠ u)))
      (fun v => s.hcg_node old_state v) (fun v => s.hcg u v) s.hcg_pairs
      (fun r => ((pair_list s.network.num_nodes).filter
        (fun p => !(decide (p.1 = u) || decide (p.2 = u)))).countP
        (fun p => decide (hcg_masks s.num_groups
          ((s.groups.set u old_state).getD p.1 0)
          ((s.groups.set u old_state).getD p.2 0) = r)))
      ?_ ?_
    · intro v hv
      rw [List.mem_filter, List.mem_range] at hv
      have hvn := hv.1
      have hplen : s.hcg_pairs.length = s.num_groups := by
        rw [hpairs, recount_pairs_length]
      rw [hplen]
      exact ⟨hbound _ _ hold (hmem v hvn), hbound _ _ (hmem u hu) (hmem v hvn)⟩
    · intro r
      rw [hpairs]
      have hb : ∀ p ∈ pair_list s.network.num_nodes,
          hcg_masks s.num_groups ((s.groups.set u old_state).getD p.1 0)
            ((s.groups.set u old_state).getD p.2 0)
          < (List.replicate s.num_groups (0:Nat)).length := by
        intro p hp
        rw [mem_pair_list] at hp
        rw [List.length_replicate]
        exact hbound _ _ (hpre_bit _ hp.1) (hpre_bit _ hp.2.1)
      rw [recount_pairs,
        (foldl_bump_getD (pair_list s.network.num_nodes) _ _ hb r).1, getD_replicate,
        countP_filter_split _ (fun p => decide (p.1 = u) || decide (p.2 = u)) _]
      have hbridge := countP_pairs_involving s.network.num_nodes u hu
        (fun a b => hcg_masks s.num_groups ((s.groups.set u old_state).getD a 0)
          ((s.groups.set u old_state).getD b 0))
        (fun a b => hcg_masks_comm ..) r
      rw [hbridge]
      have hcongr : ((List.range s.network.num_nodes).filter
            (fun v => decide (v ≠ u))).countP
            (fun v => decide (hcg_masks s.num_groups
              ((s.groups.set u old_state).getD u 0)
              ((s.groups.set u old_state).getD v 0) = r))
          = ((List.range s.network.num_nodes).filter
            (fun v => decide (v ≠ u))).countP
            (fun v => decide (s.hcg_node old_state v = r)) := by
        apply List.countP_congr
        intro v hv
        rw [List.mem_filter] at hv
        have hvne : v ≠ u := by simpa using hv.2
        rw [hpre_u, hpre_ne v hvne]
        rfl
      rw [hcongr]
      simp only []
      omega
  have hplen : s.hcg_pairs.length = s.num_groups := by
    rw [hpairs, recount_pairs_length]
  have helen : s.hcg_edges.length = s.num_groups := by
    rw [hedges, recount_edges_length]
  -- post-move recount for pairs, written through the same residue
  have hpost : ∀ r, (recount_pairs s.network.num_nodes s.groups s.num_groups).getD r 0
      = ((pair_list s.network.num_nodes).filter
          (fun p => !(decide (p.1 = u) || decide (p.2 = u)))).countP
          (fun p => decide (hcg_masks s.num_groups
            ((s.groups.set u old_state).getD p.1 0)
            ((s.groups.set u old_state).getD p.2 0) = r))
        + ((List.range s.network.num_nodes).filter (fun v => decide (v ≠ u))).countP
          (fun v => decide (s.hcg u v = r)) := by
    intro r
    have hb : ∀ p ∈ pair_list s.network.num_nodes,
        hcg_masks s.num_groups (s.groups.getD p.1 0) (s.groups.getD p.2 0)
        < (List.replicate s.num_groups (0:Nat)).length := by
      intro p hp
      rw [mem_pair_list] at hp
      rw [List.length_replicate]
      exact hbound _ _ (hmem _ hp.1) (hmem _ hp.2.1)
    rw [recount_pairs,
      (foldl_bump_getD (pair_list s.network.num_nodes) _ _ hb r).1, getD_replicate,
      countP_filter_split _ (fun p => decide (p.1 = u) || decide (p.2 = u)) _]
    have hbridge := countP_pairs_involving s.network.num_nodes u hu
      (fun a b => hcg_masks s.num_groups (s.groups.getD a 0) (s.groups.getD b 0))
      (fun a b => hcg_masks_comm ..) r
    rw [hbridge]
    have hcongr2 : ((pair_list s.network.num_nodes).filter
          (fun p => !(decide (p.1 = u) || decide (p.2 = u)))).countP
          (fun p => decide (hcg_masks s.num_groups
            (s.groups.getD p.1 0) (s.groups.getD p.2 0) = r))
        = ((pair_list s.network.num_nodes).filter
          (fun p => !(decide (p.1 = u) || decide (p.2 = u)))).countP
          (fun p => decide (hcg_masks s.num_groups
            ((s.groups.set u old_state).getD p.1 0)
            ((s.groups.set u old_state).getD p.2 0) = r)) := by
      apply List.countP_congr
      intro p hp
      rw [List.mem_filter] at hp
      have hne : p.1 ≠ u ∧ p.2 ≠ u := by
        have := hp.2
        simp at this
        exact this
      rw [hpre_ne _ hne.1, hpre_ne _ hne.2]
    rw [hcongr2]
    simp only [HierarchicalModel.hcg]
    omega
  refine ⟨?_, ?_⟩
  · -- hcg_pairs of the updated state
    show ((List.range s.network.num_nodes).filter (fun v => decide (v ≠ u))).foldl
        (fun acc v => bump (dip acc (s.hcg_node old_state v)) (s.hcg u v))
        s.hcg_pairs
      = recount_pairs s.network.num_nodes s.groups s.num_groups
    apply list_eq_of_getD
    · rw [hpair_res.2, hplen, recount_pairs_length]
    · intro r
      rw [hpair_res.1 r, hpost r]
  · -- hcg_edges of the updated state
    have hedge_res := by
      refine foldl_dip_bump_getD
        (s.network.edges.filter (fun e => xor (decide (e.1 = u)) (decide (e.2 = u))))
        (fun e => s.hcg_node old_state (if e.1 = u then e.2 else e.1))
        (fun e => s.hcg u (if e.1 = u then e.2 else e.1)) s.hcg_edges
        (fun r => (s.network.edges.filter
          (fun e => !(xor (decide (e.1 = u)) (decide (e.2 = u))))).countP
          (fun e => decide (hcg_masks s.num_groups
            ((s.groups.set u old_state).getD e.1 0)
            ((s.groups.set u old_state).getD e.2 0) = r)))
        ?_ ?_
      · intro e he
        rw [List.mem_filter] at he
        have hee := hE e he.1
        have hvn : (if e.1 = u then e.2 else e.1) < s.network.num_nodes := by
          split
          · exact hee.2.1
          · exact hee.1
        rw [helen]
        exact ⟨hbound _ _ hold (hmem _ hvn), hbound _ _ (hmem u hu) (hmem _ hvn)⟩
      · intro r
        rw [hedges]
        have hb : ∀ e ∈ s.network.edges,
            hcg_masks s.num_groups ((s.groups.set u old_state).getD e.1 0)
              ((s.groups.set u old_state).getD e.2 0)
            < (List.replicate s.num_groups (0:Nat)).length := by
          intro e he
          have hee := hE e he
          rw [List.length_replicate]
          exact hbound _ _ (hpre_bit _ hee.1) (hpre_bit _ hee.2.1)
        rw [recount_edges,
          (foldl_bump_getD s.network.edges _ _ hb r).1, getD_replicate,
          countP_filter_split _ (fun e => xor (decide (e.1 = u)) (decide (e.2 = u))) _]
        have hcongr3 : (s.network.edges.filter
              (fun e => xor (decide (e.1 = u)) (decide (e.2 = u)))).countP
              (fun e => decide (hcg_masks s.num_groups
                ((s.groups.set u old_state).getD e.1 0)
                ((s.groups.set u old_state).getD e.2 0) = r))
            = (s.network.edges.filter
              (fun e => xor (decide (e.1 = u)) (decide (e.2 = u)))).countP
              (fun e => decide (s.hcg_node old_state (if e.1 = u then e.2 else e.1) = r)) := by
          apply List.countP_congr
          intro e he
          rw [List.mem_filter] at he
          by_cases h1 : e.1 = u
          · have h2 : e.2 ≠ u := by
              have := he.2
              simp [h1] at this
              exact this
            rw [if_pos h1, h1, hpre_u, hpre_ne _ h2]
            rfl
          · have h2 : e.2 = u := by
              have := he.2
              simp [h1] at this
              exact this
            rw [if_neg h1, h2, hpre_u, hpre_ne _ h1]
            rw [hcg_masks_comm]
            rfl
        rw [hcongr3]
        simp only []
        omega
    have hpostE : ∀ r, (recount_edges s.network s.groups s.num_groups).getD r 0
        = (s.network.edges.filter
            (fun e => !(xor (decide (e.1 = u)) (decide (e.2 = u))))).countP
            (fun e => decide (hcg_masks s.num_groups
              ((s.groups.set u old_state).getD e.1 0)
              ((s.groups.set u old_state).getD e.2 0) = r))
          + (s.network.edges.filter
            (fun e => xor (decide (e.1 = u)) (decide (e.2 = u)))).countP
            (fun e => decide (s.hcg u (if e.1 = u then e.2 else e.1) = r)) := by
      intro r
      have hb : ∀ e ∈ s.network.edges,
          hcg_masks s.num_groups (s.groups.getD e.1 0) (s.groups.getD e.2 0)
          < (List.replicate s.num_groups (0:Nat)).length := by
        intro e he
        have hee := hE e he
        rw [List.length_replicate]
        exact hbound _ _ (hmem _ hee.1) (hmem _ hee.2.1)
      rw [recount_edges,
        (foldl_bump_getD s.network.edges _ _ hb r).1, getD_replicate,
        countP_filter_split _ (fun e => xor (decide (e.1 = u)) (decide (e.2 = u))) _]
      have hcongr4 : (s.network.edges.filter
            (fun e => xor (decide (e.1 = u)) (decide (e.2 = u)))).countP
            (fun e => decide (hcg_masks s.num_groups
              (s.groups.getD e.1 0) (s.groups.getD e.2 0) = r))
          = (s.network.edges.filter
            (fun e => xor (decide (e.1 = u)) (decide (e.2 = u)))).countP
            (fun e => decide (s.hcg u (if e.1 = u then e.2 else e.1) = r)) := by
        apply List.countP_congr
        intro e he
        rw [List.mem_filter] at he
        by_cases h1 : e.1 = u
        · rw [if_pos h1, h1]
          rfl
        · have h2 : e.2 = u := by
            have := he.2
            simp [h1] at this
            exact this
          rw [if_neg h1, h2]
          rw [hcg_masks_comm]
          rfl
      have hcongr5 : (s.network.edges.filter
            (fun e => !(xor (decide (e.1 = u)) (decide (e.2 = u))))).countP
            (fun e => decide (hcg_masks s.num_groups
              (s.groups.getD e.1 0) (s.groups.getD e.2 0) = r))
          = (s.network.edges.filter
            (fun e => !(xor (decide (e.1 = u)) (decide (e.2 = u))))).countP
            (fun e => decide (hcg_masks s.num_groups
              ((s.groups.set u old_state).getD e.1 0)
              ((s.groups.set u old_state).getD e.2 0) = r)) := by
        apply List.countP_congr
        intro e he
        rw [List.mem_filter] at he
        have hee := hE e he.1
        have hne : e.1 ≠ u ∧ e.2 ≠ u := by
          have h2 := he.2
          by_cases h1 : e.1 = u
          · exfalso
            by_cases h3 : e.2 = u
            · exact hee.2.2 (h1.trans h3.symm)
            · simp [h1, h3] at h2
          · by_cases h3 : e.2 = u
            · simp [h1, h3] at h2
            · exact ⟨h1, h3⟩
        rw [hpre_ne _ hne.1, hpre_ne _ hne.2]
      rw [hcongr4, hcongr5]
      omega
    show (s.network.edges.filter
          (fun e => xor (decide (e.1 = u)) (decide (e.2 = u)))).foldl
        (fun acc e =>
          let v := if e.1 = u then e.2 else e.1
          bump (dip acc (s.hcg_node old_state v)) (s.hcg u v))
        s.hcg_edges
      = recount_edges s.network s.groups s.num_groups
    apply list_eq_of_getD
    · rw [hedge_res.2, helen, recount_edges_length]
    · intro r
      rw [hedge_res.1 r, hpostE r]

/-- `update_hcg_props_recount` extended to degenerate networks: with at most
one node both loops of `update_hcg_props` and both recounts are empty, so the
equality holds at any `num_groups` (even 64, where a non-degenerate loop body
would panic inside `hcg`). -/
theorem update_hcg_props_recount_or (s : HierarchicalModel) (u : Nat) (old_state : Nat)
    (hng1 : 1 ≤ s.num_groups)
    (hngN : s.num_groups ≤ 63 ∨ s.network.num_nodes ≤ 1)
    (hu : u < s.network.num_nodes)
    (hlen : s.groups.length = s.network.num_nodes)
    (hbit : ∀ m ∈ s.groups, m % 2 = 1)
    (hold : old_state % 2 = 1)
    (hE : ∀ e ∈ s.network.edges,
      e.1 < s.network.num_nodes ∧ e.2 < s.network.num_nodes ∧ e.1 ≠ e.2)
    (hedges : s.hcg_edges
      = recount_edges s.network (s.groups.set u old_state) s.num_groups)
    (hpairs : s.hcg_pairs
      = recount_pairs s.network.num_nodes (s.groups.set u old_state) s.num_groups) :
    (s.update_hcg_props u old_state).hcg_pairs
        = recount_pairs s.network.num_nodes s.groups s.num_groups
    ∧ (s.update_hcg_props u old_state).hcg_edges
        = recount_edges s.network s.groups s.num_groups := by
  rcases hngN with hng63 | hN1
  · exact update_hcg_props_recount s u old_state hng1 hng63 hu hlen hbit hold hE
      hedges hpairs
  · have hNe : s.network.num_nodes = 1 := by omega
    have hu0 : u = 0 := by omega
    have hE0 : s.network.edges = [] := edges_nil_of_small s.network hE hN1
    have hfp : (List.range s.network.num_nodes).filter (fun v => decide (v ≠ u)) = [] := by
      rw [hNe, hu0]
      rfl
    have hfe : s.network.edges.filter
        (fun e => xor (decide (e.1 = u)) (decide (e.2 = u))) = [] := by
      rw [hE0]
      rfl
    have hrp : ∀ gs : List Nat,
        recount_pairs s.network.num_nodes gs s.num_groups
          = List.replicate s.num_groups 0 := by
      intro gs
      rw [recount_pairs, pair_list_small _ hN1]
      rfl
    have hre : ∀ gs : List Nat,
        recount_edges s.network gs s.num_groups = List.replicate s.num_groups 0 := by
      intro gs
      rw [recount_edges, hE0]
      rfl
    have hups : (s.update_hcg_props u old_state).hcg_pairs = s.hcg_pairs := by
      show ((List.range s.network.num_nodes).filter (fun v => decide (v ≠ u))).foldl
          (fun acc v => bump (dip acc (s.hcg_node old_state v)) (s.hcg u v))
          s.hcg_pairs = s.hcg_pairs
      rw [hfp]
      rfl
    have hupe : (s.update_hcg_props u old_state).hcg_edges = s.hcg_edges := by
      show (s.network.edges.filter
            (fun e => xor (decide (e.1 = u)) (decide (e.2 = u)))).foldl
          (fun acc e =>
            let v := if e.1 = u then e.2 else e.1
            bump (dip acc (s.hcg_node old_state v)) (s.hcg u v))
          s.hcg_edges = s.hcg_edges
      rw [hfe]
      rfl
    rw [hups, hupe, hpairs, hedges, hrp, hrp, hre, hre]
    exact ⟨rfl, rfl⟩

/-! ## Claim C1 -/

theorem toggled_parity_add (old g : Nat) (hg : 1 ≤ g) (h : old % 2 = 1) :
    (old + 2 ^ g) % 2 = 1 := by
  have hk : 2 ^ g = 2 * 2 ^ (g - 1) := by
    conv_lhs => rw [show g = g - 1 + 1 by omega]
    rw [Nat.pow_succ, Nat.mul_comm]
  omega

theorem toggled_parity_remove (old g : Nat) (hg : 1 ≤ g)
    (hb : Nat.testBit old g = true) (h : old % 2 = 1) :
    (old - 2 ^ g) % 2 = 1 := by
  have hge : 2 ^ g ≤ old := Nat.testBit_implies_ge hb
  have hk : 2 ^ g = 2 * 2 ^ (g - 1) := by
    conv_lhs => rw [show g = g - 1 + 1 by omega]
    rw [Nat.pow_succ, Nat.mul_comm]
  omega

/-- C1: from a consistent sampler state (bit 0 set in every mask, masks `u64`
values, counters equal to a from-scratch recount), a population move
(`add_node_to_group_by_idx` or `remove_node_from_group_by_idx` under its
preconditions: a valid group index and a roster slot holding a valid node
whose mask agrees with the roster side) followed by
`update_hcg_props(node, old_state)` leaves `hcg_edges` and `hcg_pairs` equal
to the counters recomputed from scratch against the post-move masks, and every
bucket index the update touches is in bounds, so the call completes.  The
`num_groups ≤ 63` bound covers exactly the calls that return: at
`num_groups = 64` the wrapped hcg (see `C7_counterexample`) makes
`update_hcg_props` abort on an out-of-bounds bucket before returning. -/
theorem C1_update_matches_recount (s : HierarchicalModel) (g idx : Nat)
    (hng1 : 1 ≤ s.num_groups) (hng63 : s.num_groups ≤ 63)
    (hlen : s.groups.length = s.network.num_nodes)
    (hbit : ∀ m ∈ s.groups, m % 2 = 1)
    (hbnd : ∀ m ∈ s.groups, m < 2 ^ 64)
    (hg1 : 1 ≤ g) (hgn : g < s.num_groups)
    (hE : ∀ e ∈ s.network.edges,
      e.1 < s.network.num_nodes ∧ e.2 < s.network.num_nodes ∧ e.1 ≠ e.2)
    (hedges : s.hcg_edges = recount_edges s.network s.groups s.num_groups)
    (hpairs : s.hcg_pairs = recount_pairs s.network.num_nodes s.groups s.num_groups) :
    (∀ node, node = (get2 s.nodes_out g idx).toNat
      → node < s.network.num_nodes
      → Nat.testBit (s.groups.getD node 0) g = false
      → ((s.add_node_to_group_by_idx g idx).1.update_hcg_props node
            (s.groups.getD node 0)).hcg_pairs
          = recount_pairs s.network.num_nodes
              (s.add_node_to_group_by_idx g idx).1.groups s.num_groups
        ∧ ((s.add_node_to_group_by_idx g idx).1.update_hcg_props node
            (s.groups.getD node 0)).hcg_edges
          = recount_edges s.network
              (s.add_node_to_group_by_idx g idx).1.groups s.num_groups
        ∧ (s.add_node_to_group_by_idx g idx).1.update_ok node (s.groups.getD node 0))
    ∧ (∀ node, node = (get2 s.nodes_in g idx).toNat
      → node < s.network.num_nodes
      → Nat.testBit (s.groups.getD node 0) g = true
      → ((s.remove_node_from_group_by_idx g idx).1.update_hcg_props node
            (s.groups.getD node 0)).hcg_pairs
          = recount_pairs s.network.num_nodes
              (s.remove_node_from_group_by_idx g idx).1.groups s.num_groups
        ∧ ((s.remove_node_from_group_by_idx g idx).1.update_hcg_props node
            (s.groups.getD node 0)).hcg_edges
          = recount_edges s.network
              (s.remove_node_from_group_by_idx g idx).1.groups s.num_groups
        ∧ (s.remove_node_from_group_by_idx g idx).1.update_ok node
            (s.groups.getD node 0)) := by
  constructor
  · intro node hnode hn hb
    have hmlt : s.groups.getD node 0 < 2 ^ 64 := hbnd _ (getD_mem_of_lt _ _ _ (by omega))
    have hadd : s.groups.getD node 0 + 2 ^ g < 2 ^ 64 :=
      add_two_pow_lt _ g 64 hmlt (by omega) hb
    have hs1g : (s.add_node_to_group_by_idx g idx).1.groups
        = s.groups.set node (s.groups.getD node 0 + 2 ^ g) := by
      rw [HierarchicalModel.add_node_to_group_by_idx, ← hnode, u64_add_eq _ _ hadd]
    have hrt : (s.add_node_to_group_by_idx g idx).1.groups.set node (s.groups.getD node 0)
        = s.groups := by
      rw [hs1g, List.set_set, set_getD_self _ _ (by omega)]
    have hbit1 : ∀ m ∈ (s.add_node_to_group_by_idx g idx).1.groups, m % 2 = 1 := by
      rw [hs1g]
      intro m hm
      rcases List.mem_or_eq_of_mem_set hm with h | h
      · exact hbit m h
      · rw [h]
        exact toggled_parity_add _ g hg1 (hbit _ (getD_mem_of_lt _ _ _ (by omega)))
    have h := update_hcg_props_recount (s.add_node_to_group_by_idx g idx).1 node
      (s.groups.getD node 0) hng1 hng63 hn (by rw [hs1g]; simpa using hlen) hbit1
      (hbit _ (getD_mem_of_lt _ _ _ (by omega)))
      hE (by rw [hrt]; exact hedges) (by rw [hrt]; exact hpairs)
    have hok : (s.add_node_to_group_by_idx g idx).1.update_ok node
        (s.groups.getD node 0) := by
      have hlp : (s.add_node_to_group_by_idx g idx).1.hcg_pairs.length = s.num_groups := by
        show s.hcg_pairs.length = s.num_groups
        rw [hpairs, recount_pairs_length]
      have hlee : (s.add_node_to_group_by_idx g idx).1.hcg_edges.length = s.num_groups := by
        show s.hcg_edges.length = s.num_groups
        rw [hedges, recount_edges_length]
      have hngeq : (s.add_node_to_group_by_idx g idx).1.num_groups = s.num_groups := rfl
      exact update_ok_of_le63 _ _ _ hng1 hng63 hn
        (by rw [hs1g, List.length_set]; exact hlen) hbit1
        (hbit _ (getD_mem_of_lt _ _ _ (by omega))) hE (by omega) (by omega)
    exact ⟨h.1, h.2, hok⟩
  · intro node hnode hn hb
    have hmlt : s.groups.getD node 0 < 2 ^ 64 := hbnd _ (getD_mem_of_lt _ _ _ (by omega))
    have hs1g : (s.remove_node_from_group_by_idx g idx).1.groups
        = s.groups.set node (s.groups.getD node 0 - 2 ^ g) := by
      rw [HierarchicalModel.remove_node_from_group_by_idx, ← hnode,
        u64_sub_eq _ _ (Nat.testBit_implies_ge hb) hmlt]
    have hrt : (s.remove_node_from_group_by_idx g idx).1.groups.set node (s.groups.getD node 0)
        = s.groups := by
      rw [hs1g, List.set_set, set_getD_self _ _ (by omega)]
    have hbit1 : ∀ m ∈ (s.remove_node_from_group_by_idx g idx).1.groups, m % 2 = 1 := by
      rw [hs1g]
      intro m hm
      rcases List.mem_or_eq_of_mem_set hm with h | h
      · exact hbit m h
      · rw [h]
        exact toggled_parity_remove _ g hg1 hb (hbit _ (getD_mem_of_lt _ _ _ (by omega)))
    have h := update_hcg_props_recount (s.remove_node_from_group_by_idx g idx).1 node
      (s.groups.getD node 0) hng1 hng63 hn (by rw [hs1g]; simpa using hlen) hbit1
      (hbit _ (getD_mem_of_lt _ _ _ (by omega)))
      hE (by rw [hrt]; exact hedges) (by rw [hrt]; exact hpairs)
    have hok : (s.remove_node_from_group_by_idx g idx).1.update_ok node
        (s.groups.getD node 0) := by
      have hlp : (s.remove_node_from_group_by_idx g idx).1.hcg_pairs.length
          = s.num_groups := by
        show s.hcg_pairs.length = s.num_groups
        rw [hpairs, recount_pairs_length]
      have hlee : (s.remove_node_from_group_by_idx g idx).1.hcg_edges.length
          = s.num_groups := by
        show s.hcg_edges.length = s.num_groups
        rw [hedges, recount_edges_length]
      have hngeq : (s.remove_node_from_group_by_idx g idx).1.num_groups
          = s.num_groups := rfl
      exact update_ok_of_le63 _ _ _ hng1 hng63 hn
        (by rw [hs1g, List.length_set]; exact hlen) hbit1
        (hbit _ (getD_mem_of_lt _ _ _ (by omega))) hE (by omega) (by omega)
    exact ⟨h.1, h.2, hok⟩

/-- A small consistent sampler state used by several witnesses: two nodes, one
edge, both nodes in both groups. -/
def two_node_example : HierarchicalModel :=
  { network := ⟨2, [(0, 1)]⟩
    max_groups := 64
    num_groups := 2
    groups := [3, 3]
    nodes_in := [[0, 1], [0, 1]]
    nodes_out := [[-1, -1], [-1, -1]]
    group_size := [2, 2]
    hcg_edges := [0, 1]
    hcg_pairs := [0, 1] }

/-- Witness for `C1_update_matches_recount`: removing node 0 from group 1 of
`two_node_example` and running the incremental update reproduces the recount. -/
theorem C1_witness :
    ((two_node_example.remove_node_from_group_by_idx 1 0).1.update_hcg_props 0
        (two_node_example.groups.getD 0 0)).hcg_pairs
      = recount_pairs two_node_example.network.num_nodes
          (two_node_example.remove_node_from_group_by_idx 1 0).1.groups two_node_example.num_groups
    ∧ ((two_node_example.remove_node_from_group_by_idx 1 0).1.update_hcg_props 0
        (two_node_example.groups.getD 0 0)).hcg_edges
      = recount_edges two_node_example.network
          (two_node_example.remove_node_from_group_by_idx 1 0).1.groups two_node_example.num_groups
    ∧ (two_node_example.remove_node_from_group_by_idx 1 0).1.update_ok 0
        (two_node_example.groups.getD 0 0) :=
  (C1_update_matches_recount two_node_example 1 0 (by decide) (by decide) (by decide)
    (by decide) (by decide) (by decide) (by decide) (by decide) (by decide)
    (by decide)).2 0 (by decide) (by decide) (by decide)

/-! ## Claim C7 -/

/-- C7, on `1 ≤ num_groups ≤ 63`: with bit 0 set in both masks, `hcg` (and
`hcg_node` with `old_state` in place of the first mask) returns the index of the
most significant set bit (`Nat.log2`) of `mask_u &&& mask_v &&& group_mask`
with `group_mask = 2 ^ num_groups - 1`; the masked intersection is nonzero and
the index is below `num_groups`, so indexing `hcg_edges`/`hcg_pairs` with it is
in bounds.  At `num_groups = 64` — which the spec supports and the sampler
reaches under the default `max_num_groups = 64` — the source's
`(1u64 << num_groups) - 1` overflows and the claim fails
(`C7_counterexample`). -/
theorem C7_hcg_highest_common_bit (s : HierarchicalModel) (u v : Nat) (old_state : Nat)
    (hng1 : 1 ≤ s.num_groups) (hng63 : s.num_groups ≤ 63)
    (hu : s.groups.getD u 0 % 2 = 1) (hv : s.groups.getD v 0 % 2 = 1)
    (hold : old_state % 2 = 1) :
    s.hcg u v
        = Nat.log2 (s.groups.getD u 0 &&& s.groups.getD v 0 &&& (2 ^ s.num_groups - 1))
    ∧ s.groups.getD u 0 &&& s.groups.getD v 0 &&& (2 ^ s.num_groups - 1) ≠ 0
    ∧ s.hcg u v < s.num_groups
    ∧ s.hcg_node old_state v
        = Nat.log2 (old_state &&& s.groups.getD v 0 &&& (2 ^ s.num_groups - 1))
    ∧ old_state &&& s.groups.getD v 0 &&& (2 ^ s.num_groups - 1) ≠ 0
    ∧ s.hcg_node old_state v < s.num_groups := by
  have h1 := hcg_masked_ne_zero s.num_groups _ _ hng1 hu hv
  have h2 := hcg_masked_ne_zero s.num_groups _ _ hng1 hold hv
  exact ⟨hcg_masks_eq_log2 _ _ _ hng63 h1, h1,
    hcg_masks_lt _ _ _ hng63 hng1 hu hv,
    hcg_masks_eq_log2 _ _ _ hng63 h2, h2,
    hcg_masks_lt _ _ _ hng63 hng1 hold hv⟩

/-- Witness for `C7_hcg_highest_common_bit` on `two_node_example` with
`old_state = 5`. -/
theorem C7_witness :
    two_node_example.hcg 0 1 < 2
    ∧ two_node_example.hcg_node 5 1 < 2
    ∧ two_node_example.hcg 0 1 = 1
    ∧ two_node_example.hcg_node 5 1 = 0 := by
  have h := C7_hcg_highest_common_bit two_node_example 0 1 5 (by decide) (by decide)
    (by decide) (by decide) (by decide)
  exact ⟨h.2.2.1, h.2.2.2.2.2, by decide, by decide⟩

/-- A two-node, one-edge state at the 64-group ceiling: bit 0 is set in both
masks and the counter vectors have the matching length 64.  Reached by the
sampler itself, since `uniform_groupsize` keeps adding groups while
`num_groups < max_groups` and `max_num_groups` defaults to 64. -/
def sixty_four_groups_example : HierarchicalModel :=
  { network := ⟨2, [(0, 1)]⟩
    max_groups := 64
    num_groups := 64
    groups := [3, 3]
    nodes_in := []
    nodes_out := []
    group_size := List.replicate 64 0
    hcg_edges := List.replicate 64 0
    hcg_pairs := List.replicate 64 0 }

/-- The `1u64 << 64` overflow: at `num_groups = 64`, on bit-0 masks, `hcg` and
`hcg_node` return the wrapped `63u64 - 64 = 2 ^ 64 - 1` (release profile;
debug builds panic on the shift itself) instead of an index below
`num_groups`, so the `hcg_edges[...]`/`hcg_pairs[...]` accesses that follow
are out of bounds and abort. -/
theorem C7_counterexample :
    (sixty_four_groups_example.groups.getD 0 0 % 2 = 1
      ∧ sixty_four_groups_example.groups.getD 1 0 % 2 = 1
      ∧ sixty_four_groups_example.num_groups = 64
      ∧ sixty_four_groups_example.hcg_pairs.length = 64)
    ∧ sixty_four_groups_example.hcg 0 1 = 2 ^ 64 - 1
    ∧ sixty_four_groups_example.hcg_node 3 1 = 2 ^ 64 - 1
    ∧ ¬ sixty_four_groups_example.hcg 0 1 < sixty_four_groups_example.num_groups := by
  refine ⟨⟨by decide, by decide, rfl, by decide⟩,
    hcg_masks_64 3 3, hcg_masks_64 3 3, ?_⟩
  rw [show sixty_four_groups_example.hcg 0 1 = hcg_masks 64 3 3 from rfl,
    hcg_masks_64]
  decide

/-! ## Log-likelihood (src/src/math.rs, src/src/lib.rs:341-345)

The source precomputes `lgamma(k + 1) = ln(k!)` into a table
(`math::precompute_ln_fact` / `math::ln_fact`); the model takes
`ln_fact k = Real.log k!` directly and evaluates the closed form over `ℝ`. -/

noncomputable def ln_fact (x : Nat) : ℝ := Real.log (Nat.factorial x)

/-- `HierarchicalModel::calc_loglike` (src/src/lib.rs:341-345): sum over the
zipped counter vectors of `ln_fact(e) + ln_fact(p - e) - ln_fact(p + 1)`. -/
noncomputable def HierarchicalModel.calc_loglike (s : HierarchicalModel) : ℝ :=
  ((s.hcg_edges.zip s.hcg_pairs).map
    (fun ep => ln_fact ep.1 + ln_fact (ep.2 - ep.1) - ln_fact (ep.2 + 1))).sum

theorem ln_fact_zero : ln_fact 0 = 0 := by
  rw [ln_fact, Nat.factorial_zero, Nat.cast_one, Real.log_one]

theorem ln_fact_one : ln_fact 1 = 0 := by
  rw [ln_fact, Nat.factorial_one, Nat.cast_one, Real.log_one]

/-- The contribution of an empty bucket: `ln(0!) + ln(0!) - ln(1!) = 0`. -/
theorem empty_bucket_contribution :
    ln_fact 0 + ln_fact (0 - 0) - ln_fact (0 + 1) = 0 := by
  show ln_fact 0 + ln_fact 0 - ln_fact 1 = 0
  rw [ln_fact_zero, ln_fact_one]
  ring

theorem zip_insertIdx (es ps : List Nat) (g : Nat) (a b : Nat)
    (hg1 : g ≤ es.length) (hg2 : g ≤ ps.length) :
    (es.insertIdx g a).zip (ps.insertIdx g b) = (es.zip ps).insertIdx g (a, b) := by
  induction g generalizing es ps with
  | zero =>
    rw [List.insertIdx_zero, List.insertIdx_zero, List.insertIdx_zero, List.zip_cons_cons]
  | succ g ih =>
    match es, ps with
    | e :: es2, p :: ps2 =>
      rw [List.insertIdx_succ_cons, List.insertIdx_succ_cons, List.zip_cons_cons,
        List.zip_cons_cons, List.insertIdx_succ_cons,
        ih es2 ps2 (by simpa using hg1) (by simpa using hg2)]

theorem zip_eraseIdx (es ps : List Nat) (g : Nat)
    (hg1 : g < es.length) (hg2 : g < ps.length) :
    (es.eraseIdx g).zip (ps.eraseIdx g) = (es.zip ps).eraseIdx g := by
  induction g generalizing es ps with
  | zero =>
    match es, ps with
    | e :: es2, p :: ps2 => rfl
  | succ g ih =>
    match es, ps with
    | e :: es2, p :: ps2 =>
      show ((e :: es2.eraseIdx g).zip (p :: ps2.eraseIdx g)) = _
      rw [List.zip_cons_cons]
      show _ = (e, p) :: (es2.zip ps2).eraseIdx g
      rw [ih es2 ps2 (by simpa using hg1) (by simpa using hg2)]

theorem sum_map_insertIdx {α : Type} (l : List α) (g : Nat) (x : α) (f : α → ℝ)
    (hg : g ≤ l.length) :
    ((l.insertIdx g x).map f).sum = f x + (l.map f).sum := by
  induction g generalizing l with
  | zero => rw [List.insertIdx_zero, List.map_cons, List.sum_cons]
  | succ g ih =>
    match l with
    | a :: l2 =>
      rw [List.insertIdx_succ_cons, List.map_cons, List.sum_cons,
        ih l2 (by simpa using hg), List.map_cons, List.sum_cons]
      ring

theorem sum_map_eraseIdx (l : List (Nat × Nat)) (g : Nat) (f : Nat × Nat → ℝ)
    (hg : g < l.length) :
    (l.map f).sum = f (l.getD g (0, 0)) + ((l.eraseIdx g).map f).sum := by
  induction g generalizing l with
  | zero =>
    match l with
    | a :: l2 =>
      rw [List.map_cons, List.sum_cons]
      rfl
  | succ g ih =>
    match l with
    | a :: l2 =>
      rw [List.map_cons, List.sum_cons, ih l2 (by simpa using hg)]
      show _ = f ((a :: l2).getD (g + 1) (0, 0)) + ((a :: l2.eraseIdx g).map f).sum
      rw [List.getD_cons_succ, List.map_cons, List.sum_cons]
      ring

theorem getD_zip (es ps : List Nat) (g : Nat) (hg1 : g < es.length) (hg2 : g < ps.length) :
    (es.zip ps).getD g (0, 0) = (es.getD g 0, ps.getD g 0) := by
  have hlen : g < (es.zip ps).length := by
    rw [List.length_zip]
    omega
  rw [List.getD_eq_getElem _ _ hlen, List.getElem_zip,
    List.getD_eq_getElem _ _ hg1, List.getD_eq_getElem _ _ hg2]

/-! ## Claim C5 -/

/-- C5: structural moves preserve the closed-form log-likelihood.  `add_group`
inserts a `0` entry at `g` into both `hcg_edges` and `hcg_pairs` and the new
bucket contributes `ln(0!) + ln(0!) - ln(1!) = 0`; `remove_group` with
`hcg_edges[g] = hcg_pairs[g] = 0` removes such a bucket. -/
theorem C5_structural_preserves_loglike (s : HierarchicalModel) (g : Nat)
    (hg1 : g ≤ s.hcg_edges.length) (hg2 : g ≤ s.hcg_pairs.length) :
    (s.add_group g).1.calc_loglike = s.calc_loglike
    ∧ (g < s.hcg_edges.length → g < s.hcg_pairs.length
      → s.hcg_edges.getD g 0 = 0 → s.hcg_pairs.getD g 0 = 0
      → (s.remove_group g).1.calc_loglike = s.calc_loglike) := by
  constructor
  · show ((((s.hcg_edges.insertIdx g 0).zip (s.hcg_pairs.insertIdx g 0)).map
      (fun ep => ln_fact ep.1 + ln_fact (ep.2 - ep.1) - ln_fact (ep.2 + 1))).sum)
      = s.calc_loglike
    rw [zip_insertIdx _ _ _ _ _ hg1 hg2,
      sum_map_insertIdx _ _ _ _ (by rw [List.length_zip]; omega)]
    rw [HierarchicalModel.calc_loglike]
    have h0 := empty_bucket_contribution
    simp only []
    rw [h0]
    ring
  · intro hl1 hl2 he hp
    show ((((s.hcg_edges.eraseIdx g).zip (s.hcg_pairs.eraseIdx g)).map
      (fun ep => ln_fact ep.1 + ln_fact (ep.2 - ep.1) - ln_fact (ep.2 + 1))).sum)
      = s.calc_loglike
    rw [zip_eraseIdx _ _ _ hl1 hl2, HierarchicalModel.calc_loglike,
      sum_map_eraseIdx (s.hcg_edges.zip s.hcg_pairs) g _ (by rw [List.length_zip]; omega),
      getD_zip _ _ _ hl1 hl2, he, hp]
    have h0 := empty_bucket_contribution
    simp only []
    rw [h0]
    ring

/-- Witness for `C5_structural_preserves_loglike`: adding then inspecting group 1
on `two_node_example`. -/
theorem C5_witness :
    ((2 : Nat) ≤ 2 ∧ (2 : Nat) ≤ 2)
    ∧ (two_node_example.add_group 1).1.calc_loglike = two_node_example.calc_loglike :=
  ⟨⟨le_refl 2, le_refl 2⟩,
   (C5_structural_preserves_loglike two_node_example 1 (by decide) (by decide)).1⟩

/-! ## MultiGroupModel (src/src/multi_group_model.rs)

A second revision of the move primitives, with `Node = u32`
(sentinel `Node::MAX`) and an explicit symmetric `undo_move`. -/

def node_max : Nat := 2 ^ 32 - 1

structure MultiGroupModel where
  max_groups : Nat
  num_groups : Nat
  num_nodes : Nat
  groups : List Nat
  nodes_in : List (List Nat)
  nodes_out : List (List Nat)
  group_size : List Nat
deriving Repr, DecidableEq

def get2n (t : List (List Nat)) (r c : Nat) : Nat := (t.getD r []).getD c node_max

def set2n (t : List (List Nat)) (r c : Nat) (v : Nat) : List (List Nat) :=
  t.set r ((t.getD r []).set c v)

/-- `MultiGroupModel::with_groups` (src/src/multi_group_model.rs:87-122): per
group `r`, scan the nodes in ascending order, filling the in-roster prefix with
members and the out-roster prefix with non-members; the rest stays `Node::MAX`. -/
def MultiGroupModel.with_groups (groups : List Nat) (num_groups max_groups : Nat) :
    MultiGroupModel :=
  let num_nodes := groups.length
  { max_groups := max_groups
    num_groups := num_groups
    num_nodes := num_nodes
    groups := groups
    nodes_in := (List.range num_groups).map (fun r =>
      let members := (List.range num_nodes).filter (fun u => (groups.getD u 0).testBit r)
      members ++ List.replicate (num_nodes - members.length) node_max)
    nodes_out := (List.range num_groups).map (fun r =>
      let outs := (List.range num_nodes).filter (fun u => !(groups.getD u 0).testBit r)
      outs ++ List.replicate (num_nodes - outs.length) node_max)
    group_size := (List.range num_groups).map (fun r =>
      ((List.range num_nodes).filter (fun u => (groups.getD u 0).testBit r)).length) }

/-- `MultiGroupModel::add_group` (src/src/multi_group_model.rs:136-151). -/
def MultiGroupModel.add_group (m : MultiGroupModel) (group : Nat) :
    MultiGroupModel × Move :=
  ({ m with
      nodes_in := m.nodes_in.insertIdx group (List.replicate m.num_nodes node_max),
      nodes_out := m.nodes_out.insertIdx group (List.range m.num_nodes),
      group_size := m.group_size.insertIdx group 0,
      groups := m.groups.map (fun u => insert_zero_at u group m.num_groups),
      num_groups := m.num_groups + 1 },
   Move.AddGroup group)

/-- `MultiGroupModel::remove_group` (src/src/multi_group_model.rs:153-165). -/
def MultiGroupModel.remove_group (m : MultiGroupModel) (group : Nat) :
    MultiGroupModel × Move :=
  ({ m with
      groups := m.groups.map (fun u => remove_bit_at u group m.num_groups),
      nodes_in := m.nodes_in.eraseIdx group,
      nodes_out := m.nodes_out.eraseIdx group,
      group_size := m.group_size.eraseIdx group,
      num_groups := m.num_groups - 1 },
   Move.RemoveGroup group)

/-- `MultiGroupModel::remove_node_from_group_by_idx`
(src/src/multi_group_model.rs:167-183). -/
def MultiGroupModel.remove_node_from_group_by_idx (m : MultiGroupModel)
    (group idx : Nat) : MultiGroupModel × Move :=
  let n_out := m.num_nodes - m.group_size.getD group 0
  let node := get2n m.nodes_in group idx
  let nodes_in := set2n m.nodes_in group idx (get2n m.nodes_in group (m.group_size.getD group 0 - 1))
  let nodes_out := set2n m.nodes_out group n_out node
  let old_state := m.groups.getD node 0
  ({ m with
      nodes_in := nodes_in,
      nodes_out := nodes_out,
      groups := m.groups.set node (u64_sub old_state (2 ^ group)),
      group_size := m.group_size.set group (m.group_size.getD group 0 - 1) },
   Move.RemoveNodeFromGroup group node idx old_state)

/-- `MultiGroupModel::add_node_to_group_by_idx`
(src/src/multi_group_model.rs:185-201). -/
def MultiGroupModel.add_node_to_group_by_idx (m : MultiGroupModel)
    (group idx : Nat) : MultiGroupModel × Move :=
  let n_out := m.num_nodes - m.group_size.getD group 0
  let node := get2n m.nodes_out group idx
  let nodes_out := set2n m.nodes_out group idx (get2n m.nodes_out group (n_out - 1))
  let nodes_in := set2n m.nodes_in group (m.group_size.getD group 0) node
  let old_state := m.groups.getD node 0
  ({ m with
      nodes_in := nodes_in,
      nodes_out := nodes_out,
      groups := m.groups.set node (u64_add old_state (2 ^ group)),
      group_size := m.group_size.set group (m.group_size.getD group 0 + 1) },
   Move.AddNodeToGroup group node idx old_state)

/-- `MultiGroupModel::undo_move` (src/src/multi_group_model.rs:205-233). -/
def MultiGroupModel.undo_move (m : MultiGroupModel) (mv : Move) : MultiGroupModel :=
  match mv with
  | Move.RemoveNodeFromGroup group node idx _ =>
      let new_size := m.group_size.getD group 0 + 1
      let n_out := m.num_nodes - new_size
      { m with
          group_size := m.group_size.set group new_size,
          nodes_out := set2n m.nodes_out group n_out node_max,
          nodes_in := set2n m.nodes_in group idx node,
          groups := m.groups.set node (u64_add (m.groups.getD node 0) (2 ^ group)) }
  | Move.RemoveGroup group => (m.add_group group).1
  | Move.AddGroup group => (m.remove_group group).1
  | Move.AddNodeToGroup group node idx _ =>
      let new_size := m.group_size.getD group 0 - 1
      { m with
          group_size := m.group_size.set group new_size,
          nodes_in := set2n m.nodes_in group new_size node_max,
          nodes_out := set2n m.nodes_out group idx node,
          groups := m.groups.set node (u64_sub (m.groups.getD node 0) (2 ^ group)) }

/-! ## Generic set/getD helpers for the roundtrip proofs -/

theorem getD_set_self_g {α : Type} (l : List α) (i : Nat) (v d : α) (h : i < l.length) :
    (l.set i v).getD i d = v := by
  rw [List.getD_eq_getElem?_getD, List.getElem?_set]
  simp [h]

theorem getD_set_ne_g {α : Type} (l : List α) (i j : Nat) (v d : α) (h : i ≠ j) :
    (l.set i v).getD j d = l.getD j d := by
  rw [List.getD_eq_getElem?_getD, List.getElem?_set, if_neg h, ← List.getD_eq_getElem?_getD]

theorem set_getD_self_g {α : Type} (l : List α) (u : Nat) (d : α) (h : u < l.length) :
    l.set u (l.getD u d) = l := by
  apply List.ext_getElem
  · simp
  · intro i h1 h2
    rw [List.getElem_set]
    split
    · next heq =>
      subst heq
      exact List.getD_eq_getElem l d h2
    · rfl

theorem set2n_oob (t : List (List Nat)) (r c v : Nat) (h : t.length ≤ r) :
    set2n t r c v = t := by
  rw [set2n, List.set_eq_of_length_le h]

theorem set2n_set2n (t : List (List Nat)) (r c : Nat) (v1 v2 : Nat) :
    set2n (set2n t r c v1) r c v2 = set2n t r c v2 := by
  by_cases h : r < t.length
  · rw [set2n, set2n, set2n, getD_set_self_g _ _ _ _ h, List.set_set, List.set_set]
  · have hle : t.length ≤ r := by omega
    rw [set2n_oob _ _ _ _ hle, set2n_oob _ _ _ _ hle]

theorem set2n_get2n_self (t : List (List Nat)) (r c : Nat) :
    set2n t r c (get2n t r c) = t := by
  by_cases h : r < t.length
  · rw [set2n, get2n]
    by_cases hc : c < (t.getD r []).length
    · rw [set_getD_self_g _ _ _ hc, set_getD_self_g _ _ _ h]
    · have h1 : (t.getD r []).set c ((t.getD r []).getD c node_max) = t.getD r [] :=
        List.set_eq_of_length_le (by omega)
      rw [h1, set_getD_self_g _ _ _ h]
  · rw [set2n_oob _ _ _ _ (by omega)]

theorem getD_set2n_self_row (t : List (List Nat)) (r c v : Nat) (h : r < t.length) :
    (set2n t r c v).getD r [] = (t.getD r []).set c v :=
  getD_set_self_g _ _ _ _ h

theorem getD_set2n_ne_row (t : List (List Nat)) (r r2 c v : Nat) (h : r ≠ r2) :
    (set2n t r c v).getD r2 [] = t.getD r2 [] :=
  getD_set_ne_g _ _ _ _ _ h

theorem set2n_length (t : List (List Nat)) (r c v : Nat) :
    (set2n t r c v).length = t.length := List.length_set ..

theorem take_set_of_le {α : Type} (l : List α) (i k : Nat) (v : α) (h : k ≤ i) :
    (l.set i v).take k = l.take k := by
  apply List.ext_getElem
  · simp
  · intro j h1 h2
    rw [List.getElem_take, List.getElem_take, List.getElem_set,
      if_neg (by simp at h1; omega)]

theorem insertIdx_eraseIdx_self {α : Type} (l : List α) (g : Nat) (x : α)
    (h : g < l.length) :
    (l.eraseIdx g).insertIdx g x = l.set g x := by
  induction g generalizing l with
  | zero =>
    match l with
    | a :: l2 => rfl
  | succ g ih =>
    match l with
    | a :: l2 =>
      show (a :: l2.eraseIdx g).insertIdx (g + 1) x = a :: l2.set g x
      rw [List.insertIdx_succ_cons, ih l2 (by simpa using h)]

theorem getD_lt64 (l : List Nat) (node : Nat) (hlt : ∀ x ∈ l, x < 2 ^ 64) :
    l.getD node 0 < 2 ^ 64 := by
  by_cases h : node < l.length
  · exact hlt _ (getD_mem_of_lt _ _ _ h)
  · rw [List.getD_eq_getElem?_getD, List.getElem?_eq_none (by omega)]
    norm_num

theorem set_toggle_add (l : List Nat) (node g : Nat) (hlt : ∀ x ∈ l, x < 2 ^ 64)
    (hgle : (2:Nat) ^ g ≤ 2 ^ 64) :
    (l.set node (u64_add (l.getD node 0) (2 ^ g))).set node
      (u64_sub ((l.set node (u64_add (l.getD node 0) (2 ^ g))).getD node 0) (2 ^ g))
      = l := by
  by_cases h : node < l.length
  · rw [getD_set_self _ _ _ h, List.set_set,
      u64_add_sub_cancel _ _ (getD_lt64 l node hlt) hgle, set_getD_self _ _ h]
  · have h1 : l.set node (u64_add (l.getD node 0) (2 ^ g)) = l :=
      List.set_eq_of_length_le (by omega)
    rw [h1, List.set_eq_of_length_le (by omega)]

theorem set_toggle_remove (l : List Nat) (node g : Nat) (hlt : ∀ x ∈ l, x < 2 ^ 64)
    (hgle : (2:Nat) ^ g ≤ 2 ^ 64) :
    (l.set node (u64_sub (l.getD node 0) (2 ^ g))).set node
      (u64_add ((l.set node (u64_sub (l.getD node 0) (2 ^ g))).getD node 0) (2 ^ g))
      = l := by
  by_cases h : node < l.length
  · rw [getD_set_self _ _ _ h, List.set_set,
      u64_sub_add_cancel _ _ (getD_lt64 l node hlt) hgle, set_getD_self _ _ h]
  · have h1 : l.set node (u64_sub (l.getD node 0) (2 ^ g)) = l :=
      List.set_eq_of_length_le (by omega)
    rw [h1, List.set_eq_of_length_le (by omega)]

theorem set_bump_dip (l : List Nat) (g : Nat) :
    (l.set g (l.getD g 0 + 1)).set g ((l.set g (l.getD g 0 + 1)).getD g 0 - 1) = l := by
  by_cases h : g < l.length
  · rw [getD_set_self _ _ _ h, List.set_set,
      show l.getD g 0 + 1 - 1 = l.getD g 0 by omega, set_getD_self _ _ h]
  · have h1 : l.set g (l.getD g 0 + 1) = l := List.set_eq_of_length_le (by omega)
    rw [h1, List.set_eq_of_length_le (by omega)]

theorem set_dip_bump (l : List Nat) (g : Nat) (hpos : 1 ≤ l.getD g 0) :
    (l.set g (l.getD g 0 - 1)).set g ((l.set g (l.getD g 0 - 1)).getD g 0 + 1) = l := by
  by_cases h : g < l.length
  · rw [getD_set_self _ _ _ h, List.set_set,
      show l.getD g 0 - 1 + 1 = l.getD g 0 by omega, set_getD_self _ _ h]
  · have h1 : l.set g (l.getD g 0 - 1) = l := List.set_eq_of_length_le (by omega)
    rw [h1, List.set_eq_of_length_le (by omega)]

/-! ## Apply-then-undo roundtrips for MultiGroupModel -/

theorem mgm_add_node_undo (m : MultiGroupModel) (g idx : Nat)
    (hlt : ∀ x ∈ m.groups, x < 2 ^ 64) (hg63 : g ≤ 63) :
    let t := (m.add_node_to_group_by_idx g idx).1.undo_move
      (m.add_node_to_group_by_idx g idx).2
    t.groups = m.groups
    ∧ t.num_groups = m.num_groups
    ∧ t.group_size = m.group_size
    ∧ t.nodes_out = m.nodes_out
    ∧ ∀ r, (t.nodes_in.getD r []).take (m.group_size.getD r 0)
        = (m.nodes_in.getD r []).take (m.group_size.getD r 0) := by
  intro t
  have hsz : t.group_size = m.group_size := by
    show (m.group_size.set g (m.group_size.getD g 0 + 1)).set g
      ((m.group_size.set g (m.group_size.getD g 0 + 1)).getD g 0 - 1) = m.group_size
    exact set_bump_dip m.group_size g
  have hgroups : t.groups = m.groups :=
    set_toggle_add m.groups _ g hlt (Nat.pow_le_pow_right (by norm_num) (by omega))
  have hout : t.nodes_out = m.nodes_out := by
    show set2n (set2n m.nodes_out g idx _) g idx (get2n m.nodes_out g idx) = m.nodes_out
    rw [set2n_set2n, set2n_get2n_self]
  refine ⟨hgroups, rfl, hsz, hout, ?_⟩
  intro r
  have hwrite : t.nodes_in = set2n m.nodes_in g (m.group_size.getD g 0) node_max := by
    show set2n (set2n m.nodes_in g (m.group_size.getD g 0) _) g
      ((m.group_size.set g (m.group_size.getD g 0 + 1)).getD g 0 - 1) node_max = _
    by_cases h : g < m.group_size.length
    · rw [getD_set_self_g _ _ _ _ h, show m.group_size.getD g 0 + 1 - 1
        = m.group_size.getD g 0 by omega, set2n_set2n]
    · rw [List.set_eq_of_length_le (by omega),
        show m.group_size.getD g 0 = 0 from by
          rw [List.getD_eq_getElem?_getD, List.getElem?_eq_none (by omega)]
          rfl]
      rw [show (0:Nat) + 1 - 1 = 0 from rfl, set2n_set2n]
  rw [hwrite]
  by_cases h : g = r
  · subst h
    by_cases h2 : g < m.nodes_in.length
    · rw [getD_set2n_self_row _ _ _ _ h2, take_set_of_le _ _ _ _ (le_refl _)]
    · rw [set2n_oob _ _ _ _ (by omega)]
  · rw [getD_set2n_ne_row _ _ _ _ _ h]

theorem mgm_remove_node_undo (m : MultiGroupModel) (g idx : Nat)
    (hlt : ∀ x ∈ m.groups, x < 2 ^ 64) (hg63 : g ≤ 63)
    (hpos : 1 ≤ m.group_size.getD g 0) :
    let t := (m.remove_node_from_group_by_idx g idx).1.undo_move
      (m.remove_node_from_group_by_idx g idx).2
    t.groups = m.groups
    ∧ t.num_groups = m.num_groups
    ∧ t.group_size = m.group_size
    ∧ t.nodes_in = m.nodes_in
    ∧ ∀ r, (t.nodes_out.getD r []).take (m.num_nodes - m.group_size.getD r 0)
        = (m.nodes_out.getD r []).take (m.num_nodes - m.group_size.getD r 0) := by
  intro t
  have hsz : t.group_size = m.group_size := by
    show (m.group_size.set g (m.group_size.getD g 0 - 1)).set g
      ((m.group_size.set g (m.group_size.getD g 0 - 1)).getD g 0 + 1) = m.group_size
    exact set_dip_bump m.group_size g hpos
  have hgroups : t.groups = m.groups :=
    set_toggle_remove m.groups _ g hlt (Nat.pow_le_pow_right (by norm_num) (by omega))
  have hin : t.nodes_in = m.nodes_in := by
    show set2n (set2n m.nodes_in g idx _) g idx (get2n m.nodes_in g idx) = m.nodes_in
    rw [set2n_set2n, set2n_get2n_self]
  refine ⟨hgroups, rfl, hsz, hin, ?_⟩
  intro r
  have hslot : (m.group_size.set g (m.group_size.getD g 0 - 1)).getD g 0 + 1
      = m.group_size.getD g 0 := by
    by_cases h : g < m.group_size.length
    · rw [getD_set_self_g _ _ _ _ h]
      omega
    · rw [List.getD_eq_getElem?_getD, List.getElem?_eq_none (by rw [List.length_set]; omega)]
      rw [List.getD_eq_getElem?_getD, List.getElem?_eq_none (by omega)] at hpos ⊢
      simp at hpos
  have hwrite : t.nodes_out = set2n m.nodes_out g
      (m.num_nodes - m.group_size.getD g 0) node_max := by
    show set2n (set2n m.nodes_out g (m.num_nodes - m.group_size.getD g 0) _) g
      (m.num_nodes - ((m.group_size.set g (m.group_size.getD g 0 - 1)).getD g 0 + 1))
      node_max = _
    rw [hslot, set2n_set2n]
  rw [hwrite]
  by_cases h : g = r
  · subst h
    by_cases h2 : g < m.nodes_out.length
    · rw [getD_set2n_self_row _ _ _ _ h2, take_set_of_le _ _ _ _ (le_refl _)]
    · rw [set2n_oob _ _ _ _ (by omega)]
  · rw [getD_set2n_ne_row _ _ _ _ _ h]

theorem mgm_add_group_undo (m : MultiGroupModel) (g : Nat)
    (hbounded : ∀ mk ∈ m.groups, mk < 2 ^ m.num_groups)
    (hg : g ≤ m.num_groups) (hng : m.num_groups ≤ 62) :
    let t := (m.add_group g).1.undo_move (m.add_group g).2
    t.groups = m.groups
    ∧ t.num_groups = m.num_groups
    ∧ t.group_size = m.group_size
    ∧ t.nodes_in = m.nodes_in
    ∧ t.nodes_out = m.nodes_out := by
  intro t
  refine ⟨?_, rfl, ?_, ?_, ?_⟩
  · show (m.groups.map (fun u => insert_zero_at u g m.num_groups)).map
      (fun u => remove_bit_at u g (m.num_groups + 1)) = m.groups
    rw [List.map_map]
    conv_rhs => rw [← List.map_id m.groups]
    apply List.map_congr_left
    intro mk hmk
    exact remove_insert_roundtrip mk g m.num_groups (hbounded mk hmk) hg hng
  · exact List.eraseIdx_insertIdx g m.group_size
  · exact List.eraseIdx_insertIdx g m.nodes_in
  · exact List.eraseIdx_insertIdx g m.nodes_out

theorem mgm_remove_group_undo (m : MultiGroupModel) (g : Nat)
    (hbounded : ∀ mk ∈ m.groups, mk < 2 ^ m.num_groups)
    (hempty : ∀ mk ∈ m.groups, mk.testBit g = false)
    (hg1 : 1 ≤ g) (hg : g < m.num_groups) (hng : m.num_groups ≤ 63)
    (hszg : m.group_size.getD g 0 = 0)
    (hin : m.nodes_in.length = m.num_groups)
    (hout : m.nodes_out.length = m.num_groups)
    (hsz : m.group_size.length = m.num_groups) :
    let t := (m.remove_group g).1.undo_move (m.remove_group g).2
    t.groups = m.groups
    ∧ t.num_groups = m.num_groups
    ∧ t.group_size = m.group_size
    ∧ (∀ r, (t.nodes_in.getD r []).take (m.group_size.getD r 0)
        = (m.nodes_in.getD r []).take (m.group_size.getD r 0))
    ∧ ∀ r x, (∀ y, y ∈ (m.nodes_out.getD g []).take m.num_nodes ↔ y < m.num_nodes)
      → (x ∈ (t.nodes_out.getD r []).take (m.num_nodes - m.group_size.getD r 0)
        ↔ x ∈ (m.nodes_out.getD r []).take (m.num_nodes - m.group_size.getD r 0)) := by
  intro t
  have hng2 : (m.remove_group g).1.num_groups = m.num_groups - 1 := rfl
  refine ⟨?_, ?_, ?_, ?_, ?_⟩
  · show (m.groups.map (fun u => remove_bit_at u g m.num_groups)).map
      (fun u => insert_zero_at u g (m.num_groups - 1)) = m.groups
    rw [List.map_map]
    conv_rhs => rw [← List.map_id m.groups]
    apply List.map_congr_left
    intro mk hmk
    exact insert_remove_roundtrip mk g m.num_groups (hbounded mk hmk) hg1 hg hng
      (hempty mk hmk)
  · show m.num_groups - 1 + 1 = m.num_groups
    omega
  · show (m.group_size.eraseIdx g).insertIdx g 0 = m.group_size
    rw [insertIdx_eraseIdx_self _ _ _ (by omega), ← hszg, set_getD_self _ _ (by omega)]
  · intro r
    show (((m.nodes_in.eraseIdx g).insertIdx g
      (List.replicate (m.remove_group g).1.num_nodes node_max)).getD r []).take
        (m.group_size.getD r 0) = _
    rw [insertIdx_eraseIdx_self _ _ _ (by omega)]
    by_cases h : g = r
    · subst h
      rw [getD_set_self_g _ _ _ _ (by omega), hszg]
      rfl
    · rw [getD_set_ne_g _ _ _ _ _ h]
  · intro r x hcover
    show (x ∈ (((m.nodes_out.eraseIdx g).insertIdx g
        (List.range (m.remove_group g).1.num_nodes)).getD r []).take
        (m.num_nodes - m.group_size.getD r 0)) ↔ _
    rw [insertIdx_eraseIdx_self _ _ _ (by omega)]
    by_cases h : g = r
    · subst h
      rw [getD_set_self_g _ _ _ _ (by omega), hszg, Nat.sub_zero]
      show x ∈ (List.range m.num_nodes).take m.num_nodes
        ↔ x ∈ (m.nodes_out.getD g []).take m.num_nodes
      rw [List.take_of_length_le (by rw [List.length_range]), List.mem_range]
      exact (hcover x).symm
    · rw [getD_set_ne_g _ _ _ _ _ h]

/-! ## Claim C4 -/

/-- C4 counterexample: the claim quantifies over every model state, but a state
whose mask has bits at positions `≥ num_groups` (constructible through
`with_groups`, which never validates them) is not restored: `remove_group`
discards the high bits and `undo_move` cannot bring them back.  Here
`with_groups [5] 2 64` (mask `0b101`, bit 2 garbage), `remove_group 1`
(preconditions hold: `1 ≤ 1 < 2`, `group_size[1] = 0`) then `undo_move` yields
mask `[1] ≠ [5]`. -/
theorem C4_counterexample :
    (1 ≤ (MultiGroupModel.with_groups [5] 2 64).num_groups
      ∧ 1 < (MultiGroupModel.with_groups [5] 2 64).num_groups
      ∧ (MultiGroupModel.with_groups [5] 2 64).group_size.getD 1 0 = 0)
    ∧ ((((MultiGroupModel.with_groups [5] 2 64).remove_group 1).1.undo_move
        ((MultiGroupModel.with_groups [5] 2 64).remove_group 1).2).groups
      ≠ (MultiGroupModel.with_groups [5] 2 64).groups) := by
  refine ⟨⟨by decide, by decide, by decide⟩, by decide⟩

/-- C4 (amended): for a model whose masks use only the low `num_groups` bits,
applying any of the four move primitives under its preconditions (a valid
group index for the population moves) and then `undo_move` restores `groups`,
`num_groups` and `group_size` exactly and the valid roster prefixes as sets
(for the population moves and `add_group` they are restored exactly; after
undoing `remove_group` the out-roster of the re-added group is regenerated in
ascending order, equal as a set).  In particular `add_group g` followed by
`remove_group g` is the identity on `groups`, `num_groups` and `group_size`.
The bound `num_groups ≤ 62` keeps every mask shift of the apply/undo pair
below the `u64` wrap: undoing `add_group` calls
`remove_bit_at(·, g, num_groups + 1)`, so already at `num_groups = 63` (and
for `remove_group` at 64) the `(1u64 << num_groups) - 1` group mask wraps to
`0` — a release build then zeroes every mask instead of restoring it, and a
debug build panics on the shift. -/
theorem C4_apply_undo_restores (m : MultiGroupModel)
    (hbounded : ∀ mk ∈ m.groups, mk < 2 ^ m.num_groups)
    (hng : m.num_groups ≤ 62)
    (hin : m.nodes_in.length = m.num_groups)
    (hout : m.nodes_out.length = m.num_groups)
    (hsz : m.group_size.length = m.num_groups) :
    (∀ g idx, g < m.num_groups →
      let t := (m.add_node_to_group_by_idx g idx).1.undo_move
        (m.add_node_to_group_by_idx g idx).2
      t.groups = m.groups ∧ t.num_groups = m.num_groups ∧ t.group_size = m.group_size
      ∧ t.nodes_out = m.nodes_out
      ∧ ∀ r, (t.nodes_in.getD r []).take (m.group_size.getD r 0)
          = (m.nodes_in.getD r []).take (m.group_size.getD r 0))
    ∧ (∀ g idx, g < m.num_groups
      → 2 ^ g ≤ m.groups.getD (get2n m.nodes_in g idx) 0
      → 1 ≤ m.group_size.getD g 0
      → let t := (m.remove_node_from_group_by_idx g idx).1.undo_move
          (m.remove_node_from_group_by_idx g idx).2
        t.groups = m.groups ∧ t.num_groups = m.num_groups ∧ t.group_size = m.group_size
        ∧ t.nodes_in = m.nodes_in
        ∧ ∀ r, (t.nodes_out.getD r []).take (m.num_nodes - m.group_size.getD r 0)
            = (m.nodes_out.getD r []).take (m.num_nodes - m.group_size.getD r 0))
    ∧ (∀ g, g ≤ m.num_groups
      → let t := (m.add_group g).1.undo_move (m.add_group g).2
        t.groups = m.groups ∧ t.num_groups = m.num_groups ∧ t.group_size = m.group_size
        ∧ t.nodes_in = m.nodes_in ∧ t.nodes_out = m.nodes_out)
    ∧ (∀ g, (∀ mk ∈ m.groups, mk.testBit g = false)
      → 1 ≤ g → g < m.num_groups → m.group_size.getD g 0 = 0
      → let t := (m.remove_group g).1.undo_move (m.remove_group g).2
        t.groups = m.groups ∧ t.num_groups = m.num_groups ∧ t.group_size = m.group_size
        ∧ (∀ r, (t.nodes_in.getD r []).take (m.group_size.getD r 0)
            = (m.nodes_in.getD r []).take (m.group_size.getD r 0))
        ∧ ∀ r x, (∀ y, y ∈ (m.nodes_out.getD g []).take m.num_nodes ↔ y < m.num_nodes)
          → (x ∈ (t.nodes_out.getD r []).take (m.num_nodes - m.group_size.getD r 0)
            ↔ x ∈ (m.nodes_out.getD r []).take (m.num_nodes - m.group_size.getD r 0)))
    ∧ (∀ g, g ≤ m.num_groups
      → ((m.add_group g).1.remove_group g).1.groups = m.groups
        ∧ ((m.add_group g).1.remove_group g).1.num_groups = m.num_groups
        ∧ ((m.add_group g).1.remove_group g).1.group_size = m.group_size) :=
 by
  have hlt64 : ∀ x ∈ m.groups, x < 2 ^ 64 := fun x hx =>
    lt_of_lt_of_le (hbounded x hx) (Nat.pow_le_pow_right (by norm_num) (by omega))
  exact ⟨fun g idx hgn => mgm_add_node_undo m g idx hlt64 (by omega),
   fun g idx hgn hb hpos => mgm_remove_node_undo m g idx hlt64 (by omega) hpos,
   fun g hg => mgm_add_group_undo m g hbounded hg hng,
   fun g hempty hg1 hg hszg =>
     mgm_remove_group_undo m g hbounded hempty hg1 hg (by omega) hszg hin hout hsz,
   fun g hg =>
     let h := mgm_add_group_undo m g hbounded hg hng
     ⟨h.1, h.2.1, h.2.2.1⟩⟩

/-- Witness for `C4_apply_undo_restores`: removing node 0 from group 1 of
`with_groups [3, 1] 2 64` and undoing restores the model. -/
theorem C4_witness :
    (((MultiGroupModel.with_groups [3, 1] 2 64).remove_node_from_group_by_idx 1 0).1.undo_move
        ((MultiGroupModel.with_groups [3, 1] 2 64).remove_node_from_group_by_idx 1 0).2).groups
      = (MultiGroupModel.with_groups [3, 1] 2 64).groups
    ∧ (((MultiGroupModel.with_groups [3, 1] 2 64).remove_node_from_group_by_idx 1 0).1.undo_move
        ((MultiGroupModel.with_groups [3, 1] 2 64).remove_node_from_group_by_idx 1 0).2).group_size
      = (MultiGroupModel.with_groups [3, 1] 2 64).group_size := by
  have h := (C4_apply_undo_restores (MultiGroupModel.with_groups [3, 1] 2 64)
    (by decide) (by decide) (by decide) (by decide) (by decide)).2.1 1 0
    (by decide) (by decide) (by decide)
  exact ⟨h.1, h.2.2.1⟩

/-! ## Claim C6: the proposal distribution (src/src/lib.rs:280-316) -/

/-- The random draws consumed by one call to `uniform_groupsize`:
`gen_bool(p_type2)`, `gen_range` for the group, `gen_bool(0.5)`, and
`gen_range` for the roster index. -/
structure ProposalDraws where
  structural_draw : Bool
  group_draw : Nat
  remove_draw : Bool
  idx_draw : Nat
deriving Repr, DecidableEq

/-- The Bernoulli parameter `p_type2 = 1 / (2 * num_groups * (num_nodes + 1))`
handed to `gen_bool` (src/src/lib.rs:282), as an exact rational. -/
def HierarchicalModel.p_type2 (s : HierarchicalModel) : ℚ :=
  1 / (2 * s.num_groups * (s.network.num_nodes + 1))

/-- `HierarchicalModel::uniform_groupsize` (src/src/lib.rs:280-316) with the
RNG outcomes supplied as `ProposalDraws`. -/
def HierarchicalModel.uniform_groupsize (s : HierarchicalModel) (d : ProposalDraws) :
    HierarchicalModel × Option Move :=
  let num_nodes := s.network.num_nodes
  if d.structural_draw then
    if s.num_groups = s.max_groups then (s, none)
    else
      let r := s.add_group d.group_draw
      (r.1, some r.2)
  else
    if s.num_groups = 1 then (s, none)
    else
      let rand_group := d.group_draw
      if d.remove_draw then
        if s.group_size.getD rand_group 0 = 0 then
          let r := s.remove_group rand_group
          (r.1, some r.2)
        else
          let r := s.remove_node_from_group_by_idx rand_group d.idx_draw
          (r.1, some r.2)
      else
        if s.group_size.getD rand_group 0 = num_nodes then (s, none)
        else
          let r := s.add_node_to_group_by_idx rand_group d.idx_draw
          (r.1, some r.2)

/-- One RNG request, carrying the parameters the caller passes to the RNG:
`gen_bool p` with its exact rational probability, or `gen_range [lo, hi)`
(half-open). -/
inductive DrawReq where
  | bernoulli : ℚ → DrawReq
  | range : Nat → Nat → DrawReq
deriving Repr, DecidableEq

/-- `HierarchicalModel::uniform_groupsize` again (src/src/lib.rs:280-316), now
with every RNG request recorded in call order, bounds included:
`gen_bool(p_type2)` (line 282), `gen_range(1..=num_groups)` (line 289),
`gen_range(1..num_groups)` (line 296), `gen_bool(0.5)` (line 298),
`gen_range(0..group_size[rand_group])` (line 303), `gen_range(0..n_out)`
(line 312).  An inclusive `a..=b` range is recorded as the half-open
`[a, b + 1)`.  `uniform_groupsize_traced_fst` ties this to
`uniform_groupsize`, the untraced form the step relation uses. -/
def HierarchicalModel.uniform_groupsize_traced (s : HierarchicalModel)
    (d : ProposalDraws) : (HierarchicalModel × Option Move) × List DrawReq :=
  let num_nodes := s.network.num_nodes
  if d.structural_draw then
    if s.num_groups = s.max_groups then ((s, none), [.bernoulli s.p_type2])
    else
      let r := s.add_group d.group_draw
      ((r.1, some r.2),
        [.bernoulli s.p_type2, .range 1 (s.num_groups + 1)])
  else
    if s.num_groups = 1 then ((s, none), [.bernoulli s.p_type2])
    else
      let rand_group := d.group_draw
      if d.remove_draw then
        if s.group_size.getD rand_group 0 = 0 then
          let r := s.remove_group rand_group
          ((r.1, some r.2),
            [.bernoulli s.p_type2, .range 1 s.num_groups, .bernoulli (1 / 2)])
        else
          let r := s.remove_node_from_group_by_idx rand_group d.idx_draw
          ((r.1, some r.2),
            [.bernoulli s.p_type2, .range 1 s.num_groups, .bernoulli (1 / 2),
             .range 0 (s.group_size.getD rand_group 0)])
      else
        if s.group_size.getD rand_group 0 = num_nodes then
          ((s, none),
            [.bernoulli s.p_type2, .range 1 s.num_groups, .bernoulli (1 / 2)])
        else
          let r := s.add_node_to_group_by_idx rand_group d.idx_draw
          ((r.1, some r.2),
            [.bernoulli s.p_type2, .range 1 s.num_groups, .bernoulli (1 / 2),
             .range 0 (num_nodes - s.group_size.getD rand_group 0)])

/-- The traced and untraced translations agree on the proposal they build. -/
theorem uniform_groupsize_traced_fst (s : HierarchicalModel) (d : ProposalDraws) :
    (s.uniform_groupsize_traced d).1 = s.uniform_groupsize d := by
  rw [HierarchicalModel.uniform_groupsize_traced, HierarchicalModel.uniform_groupsize]
  by_cases h1 : d.structural_draw
  · by_cases h2 : s.num_groups = s.max_groups <;>
      simp only [h1, h2, if_true, if_false] <;> rfl
  · by_cases h2 : s.num_groups = 1
    · simp only [h1, h2, if_true, if_false]
      rfl
    · by_cases h3 : d.remove_draw
      · by_cases h4 : s.group_size.getD d.group_draw 0 = 0 <;>
          simp only [h1, h2, h3, h4, if_true, if_false] <;> rfl
      · by_cases h4 : s.group_size.getD d.group_draw 0 = s.network.num_nodes <;>
          simp only [h1, h2, h3, h4, if_true, if_false] <;> rfl

/-- Modelled from the spec: `p_structural = 1 / (2 · G · (N + 1))` (§4.6). -/
def spec_p_structural (G N : Nat) : ℚ := 1 / (2 * G * (N + 1))

/-- Modelled from the spec's words: "uniformly from {a, …, b}", as the request
for the half-open range `[a, b + 1)`. -/
def uniformIncl (a b : Nat) : DrawReq := .range a (b + 1)

/-- Modelled from the spec (§4.6 "Proposal distribution"), word by word, with
each drawn quantity's support recorded: with probability `p_structural` a
structural move (no-op at `max_groups`, else `add_group(g)` with `g` uniform
in `{1, …, G}`); otherwise a population move (no-op when `G = 1`; `g` uniform
in `{1, …, G−1}`; with probability 0.5 a removal, which is `remove_group(g)`
when `group_size[g] = 0` and otherwise `remove_node_from_group_by_idx(g, idx)`
with `idx` uniform in `{0, …, group_size[g]−1}`; otherwise an addition, a
no-op when `group_size[g] = N` and otherwise
`add_node_to_group_by_idx(g, idx)` with `idx` uniform in
`{0, …, N − group_size[g] − 1}`). -/
def spec_proposal (s : HierarchicalModel) (d : ProposalDraws) :
    (HierarchicalModel × Option Move) × List DrawReq :=
  if d.structural_draw then
    if s.num_groups = s.max_groups then
      ((s, none), [.bernoulli (spec_p_structural s.num_groups s.network.num_nodes)])
    else
      (((s.add_group d.group_draw).1, some (Move.AddGroup d.group_draw)),
       [.bernoulli (spec_p_structural s.num_groups s.network.num_nodes),
        uniformIncl 1 s.num_groups])
  else if s.num_groups = 1 then
    ((s, none), [.bernoulli (spec_p_structural s.num_groups s.network.num_nodes)])
  else if d.remove_draw then
    if s.group_size.getD d.group_draw 0 = 0 then
      (((s.remove_group d.group_draw).1, some (Move.RemoveGroup d.group_draw)),
       [.bernoulli (spec_p_structural s.num_groups s.network.num_nodes),
        uniformIncl 1 (s.num_groups - 1), .bernoulli (1 / 2)])
    else
      (((s.remove_node_from_group_by_idx d.group_draw d.idx_draw).1,
        some (s.remove_node_from_group_by_idx d.group_draw d.idx_draw).2),
       [.bernoulli (spec_p_structural s.num_groups s.network.num_nodes),
        uniformIncl 1 (s.num_groups - 1), .bernoulli (1 / 2),
        uniformIncl 0 (s.group_size.getD d.group_draw 0 - 1)])
  else if s.group_size.getD d.group_draw 0 = s.network.num_nodes then
    ((s, none),
     [.bernoulli (spec_p_structural s.num_groups s.network.num_nodes),
      uniformIncl 1 (s.num_groups - 1), .bernoulli (1 / 2)])
  else
    (((s.add_node_to_group_by_idx d.group_draw d.idx_draw).1,
      some (s.add_node_to_group_by_idx d.group_draw d.idx_draw).2),
     [.bernoulli (spec_p_structural s.num_groups s.network.num_nodes),
      uniformIncl 1 (s.num_groups - 1), .bernoulli (1 / 2),
      uniformIncl 0 (s.network.num_nodes - s.group_size.getD d.group_draw 0 - 1)])

/-- C6: `uniform_groupsize` follows the spec's proposal distribution exactly,
RNG requests included: whenever at least one group exists and the drawn
group's size does not exceed the node count, the proposal built and the full
request sequence — Bernoulli parameters and uniform supports — coincide with
the spec's proposal tree, and the structural Bernoulli parameter is exactly
`1 / (2·G·(N+1))`.  In particular the supports match: `{1, …, G}` for the
structural group (`gen_range(1..=G)`, lib.rs:289), `{1, …, G−1}` for the
population group (`gen_range(1..G)`, lib.rs:296), `{0, …, size−1}` for a
removal index (`gen_range(0..size)`, lib.rs:303) and `{0, …, N−size−1}` for
an addition index (`gen_range(0..n_out)`, lib.rs:312).  Uniformity of
`gen_range`/`gen_bool` themselves is the `rand` collaborator contract. -/
theorem C6_uniform_groupsize_follows_spec (s : HierarchicalModel) (d : ProposalDraws)
    (hng : 1 ≤ s.num_groups)
    (hsz : s.group_size.getD d.group_draw 0 ≤ s.network.num_nodes) :
    s.uniform_groupsize_traced d = spec_proposal s d
    ∧ s.p_type2 = spec_p_structural s.num_groups s.network.num_nodes := by
  refine ⟨?_, rfl⟩
  rw [HierarchicalModel.uniform_groupsize_traced, spec_proposal]
  by_cases h1 : d.structural_draw
  · rw [if_pos h1, if_pos h1]
    by_cases h2 : s.num_groups = s.max_groups
    · rw [if_pos h2, if_pos h2]
      rfl
    · rw [if_neg h2, if_neg h2]
      rfl
  · rw [if_neg h1, if_neg h1]
    by_cases h2 : s.num_groups = 1
    · rw [if_pos h2, if_pos h2]
      rfl
    · rw [if_neg h2, if_neg h2]
      have hr : uniformIncl 1 (s.num_groups - 1) = DrawReq.range 1 s.num_groups := by
        rw [uniformIncl]
        congr 1
        omega
      by_cases h3 : d.remove_draw
      · rw [if_pos h3, if_pos h3]
        by_cases h4 : s.group_size.getD d.group_draw 0 = 0
        · rw [if_pos h4, if_pos h4, hr]
          rfl
        · rw [if_neg h4, if_neg h4, hr]
          have hi : uniformIncl 0 (s.group_size.getD d.group_draw 0 - 1)
              = DrawReq.range 0 (s.group_size.getD d.group_draw 0) := by
            rw [uniformIncl]
            congr 1
            omega
          rw [hi]
          rfl
      · rw [if_neg h3, if_neg h3]
        by_cases h4 : s.group_size.getD d.group_draw 0 = s.network.num_nodes
        · rw [if_pos h4, if_pos h4, hr]
          rfl
        · rw [if_neg h4, if_neg h4, hr]
          have hi : uniformIncl 0
                (s.network.num_nodes - s.group_size.getD d.group_draw 0 - 1)
              = DrawReq.range 0
                (s.network.num_nodes - s.group_size.getD d.group_draw 0) := by
            rw [uniformIncl]
            congr 1
            omega
          rw [hi]
          rfl

/-- Witness for `C6_uniform_groupsize_follows_spec` on `two_node_example` with
a removal draw for group 1: moves and recorded RNG requests coincide. -/
theorem C6_witness :
    two_node_example.uniform_groupsize_traced ⟨false, 1, true, 0⟩
      = spec_proposal two_node_example ⟨false, 1, true, 0⟩
    ∧ two_node_example.p_type2 = spec_p_structural 2 2 :=
  C6_uniform_groupsize_follows_spec two_node_example ⟨false, 1, true, 0⟩
    (by decide) (by decide)

/-! ## Parameters (src/src/parameters.rs) and construction (src/src/lib.rs:82-122)

`Parameters::load` is modelled on the key/value map obtained after line
splitting and trimming (the `split_once(':')` parse error is upstream of the
claims).  Paths are plain strings; `save_directory`'s default
(`env::current_dir`) is an I/O collaborator, modelled as the empty string. -/

/-- `HierarchicalModel::new` (src/src/lib.rs:82-99). -/
def HierarchicalModel.new (network : Network) (max_groups : Nat) : HierarchicalModel :=
  { network := network
    max_groups := max_groups
    num_groups := 2
    groups := List.replicate network.num_nodes 1
    group_size := [network.num_nodes, 0]
    hcg_edges := [network.edges.length, 0]
    hcg_pairs := [network.edges.length, 0]
    nodes_in := []
    nodes_out := [] }

/-- `HierarchicalModel::init_groups` (src/src/lib.rs:158-207): store the masks,
rebuild the rosters by an ascending scan per group, and recount both counter
vectors from scratch (`set_hcg_edges` / `set_hcg_pairs`).  Indexing
`group_matrix[u]` is total here (`getD`); the source panics when the supplied
config is shorter than the node list, a path no claim exercises. -/
def HierarchicalModel.init_groups (s : HierarchicalModel) (groups : List Nat)
    (num_groups : Nat) : HierarchicalModel :=
  let n := s.network.num_nodes
  { s with
    groups := groups
    num_groups := num_groups
    group_size := (List.range num_groups).map (fun r =>
      ((List.range n).filter (fun u => (groups.getD u 0).testBit r)).length)
    nodes_in := (List.range num_groups).map (fun r =>
      let members := (List.range n).filter (fun u => (groups.getD u 0).testBit r)
      members.map Int.ofNat ++ List.replicate (n - members.length) (-1))
    nodes_out := (List.range num_groups).map (fun r =>
      let outs := (List.range n).filter (fun u => !(groups.getD u 0).testBit r)
      outs.map Int.ofNat ++ List.replicate (n - outs.length) (-1))
    hcg_edges := recount_edges s.network groups num_groups
    hcg_pairs := recount_pairs n groups num_groups }

/-- Lines 355-367 of `get_groups`: the state after the proposal's counter
update.  Structural moves skip `update_hcg_props`. -/
def HierarchicalModel.apply_update (s : HierarchicalModel) (mv : Move) :
    HierarchicalModel :=
  match mv with
  | .AddGroup _ => s
  | .RemoveGroup _ => s
  | .AddNodeToGroup _ node _ old_state => s.update_hcg_props node old_state
  | .RemoveNodeFromGroup _ node _ old_state => s.update_hcg_props node old_state

/-- Lines 355-367 of `get_groups`: the proposed log-likelihood.  Structural
moves keep the stored value (`new_loglike = self.log_like`). -/
noncomputable def step_newL (oldL : ℝ) (s1 : HierarchicalModel) (mv : Move) : ℝ :=
  match mv with
  | .AddGroup _ => oldL
  | .RemoveGroup _ => oldL
  | .AddNodeToGroup _ _ _ _ => (s1.apply_update mv).calc_loglike
  | .RemoveNodeFromGroup _ _ _ _ => (s1.apply_update mv).calc_loglike

/-- The inline rollback of `get_groups` (src/src/lib.rs:375-402), statement for
statement.  The `usize`/`u64` subtractions are `Nat`-truncated; the rollback
theorems below show each one is in range on every reachable rejection. -/
def HierarchicalModel.revert_move (s : HierarchicalModel) (mv : Move) :
    HierarchicalModel :=
  let num_nodes := s.network.num_nodes
  match mv with
  | .RemoveNodeFromGroup group node idx _ =>
    let gs := s.group_size.set group (s.group_size.getD group 0 + 1)
    let n_out := num_nodes - gs.getD group 0
    { s with
        group_size := gs,
        nodes_out := set2 s.nodes_out group n_out (-1),
        nodes_in := set2 s.nodes_in group idx (Int.ofNat node),
        groups := s.groups.set node (u64_add (s.groups.getD node 0) (2 ^ group)) }
  | .RemoveGroup group => (s.add_group group).1
  | .AddGroup group => (s.remove_group group).1
  | .AddNodeToGroup group node idx _ =>
    let gs := s.group_size.set group (s.group_size.getD group 0 - 1)
    { s with
        group_size := gs,
        nodes_in := set2 s.nodes_in group (gs.getD group 0) (-1),
        nodes_out := set2 s.nodes_out group idx (Int.ofNat node),
        groups := s.groups.set node (u64_sub (s.groups.getD node 0) (2 ^ group)) }

/-- The sampler state: the model plus the stored `log_like`
(src/src/lib.rs:60). -/
structure SamplerState where
  hm : HierarchicalModel
  log_like : ℝ

open Classical in
/-- The tail of `get_groups` after `uniform_groupsize` returned (the source
keeps mutating `self`; the proposal result is passed explicitly here): compute
the new log-likelihood, accept when `alpha = exp(new - old) ≥ 1` or the
`gen_bool(alpha)` draw succeeds, otherwise roll back in place and overwrite the
counters with the pre-step snapshots truncated to the post-rollback
`num_groups` (src/src/lib.rs:355-405). -/
noncomputable def get_groups_after (s : SamplerState)
    (pr : HierarchicalModel × Option Move) (accept_draw : Bool) : SamplerState :=
  match pr with
  | (_, none) => s
  | (s1, some mv) =>
    let new_loglike := step_newL s.log_like s1 mv
    if 1 ≤ Real.exp (new_loglike - s.log_like) ∨ accept_draw = true then
      ⟨s1.apply_update mv, new_loglike⟩
    else
      let s3 := (s1.apply_update mv).revert_move mv
      ⟨{ s3 with hcg_edges := s.hm.hcg_edges.take s3.num_groups,
                 hcg_pairs := s.hm.hcg_pairs.take s3.num_groups }, s.log_like⟩

/-- `HierarchicalModel::get_groups` (src/src/lib.rs:347-406): snapshot the
counters (the snapshots are read off `s.hm` in `get_groups_after`), propose via
`uniform_groupsize`, then accept or roll back. -/
noncomputable def SamplerState.get_groups (s : SamplerState) (d : ProposalDraws)
    (accept_draw : Bool) : SamplerState :=
  get_groups_after s (s.hm.uniform_groupsize d) accept_draw

/-- The in-range guarantees of the `gen_range` calls inside
`uniform_groupsize` (src/src/lib.rs:289,296,303,312), along each branch
actually taken. -/
def HierarchicalModel.draws_ok (s : HierarchicalModel) (d : ProposalDraws) : Prop :=
  if d.structural_draw then
    s.num_groups = s.max_groups ∨ (1 ≤ d.group_draw ∧ d.group_draw ≤ s.num_groups)
  else
    s.num_groups = 1
    ∨ (1 ≤ d.group_draw ∧ d.group_draw < s.num_groups
        ∧ (if d.remove_draw then
            s.group_size.getD d.group_draw 0 = 0
            ∨ d.idx_draw < s.group_size.getD d.group_draw 0
          else
            s.group_size.getD d.group_draw 0 = s.network.num_nodes
            ∨ d.idx_draw < s.network.num_nodes - s.group_size.getD d.group_draw 0))

/-- The completion guard of one proposal: `update_hcg_props` returns only when
every bucket index it touches is in bounds (`update_ok`); a call that trips the
guard aborts the process on the out-of-bounds `Vec` access instead of
producing a successor state (cf. C7).  Structural moves never index a counter
by hcg. -/
@[reducible] def step_ok (s1 : HierarchicalModel) (mv : Move) : Prop :=
  match mv with
  | Move.AddGroup _ => True
  | Move.RemoveGroup _ => True
  | Move.AddNodeToGroup _ node _ old_state => s1.update_ok node old_state
  | Move.RemoveNodeFromGroup _ node _ old_state => s1.update_ok node old_state

/-- One Monte-Carlo step: some admissible draws produce the successor, and the
proposal passes the completion guard — exactly the calls of the source that
return instead of aborting. -/
def SamplerStep (s t : SamplerState) : Prop :=
  ∃ d accept_draw, s.hm.draws_ok d
    ∧ (∀ s1 mv, s.hm.uniform_groupsize d = (s1, some mv) → step_ok s1 mv)
    ∧ t = s.get_groups d accept_draw

/-- States reachable from `init` by a sequence of `get_groups` calls. -/
def ReachableFrom (init s : SamplerState) : Prop :=
  Relation.ReflTransGen SamplerStep init s

/-! ## The data-structure invariant -/

/-- The valid prefix of a roster row lists exactly the nodes satisfying `P`:
soundness, completeness and distinctness (cf. the comments on
`nodes_in` / `nodes_out`, src/src/lib.rs:52-58). -/
@[reducible] def rosterOk (row : List Int) (len N : Nat) (P : Nat → Bool) : Prop :=
  (∀ i, i < len → ∃ u, u < N ∧ row.getD i (-1) = Int.ofNat u ∧ P u = true)
  ∧ (∀ u, u < N → P u = true → ∃ i, i < len ∧ row.getD i (-1) = Int.ofNat u)
  ∧ (∀ i, i < len → ∀ j, j < len → row.getD i (-1) = row.getD j (-1) → i = j)

/-- Well-formedness of a sampler state: the shape and coherence invariants the
sampler maintains.  `edges_ok` / `pairs_ok` tie the incrementally maintained
counters to a from-scratch recount; `net_nodup` says each undirected edge is
listed once (no self-loops by `net_ok`). -/
structure HierarchicalModel.WF (s : HierarchicalModel) : Prop where
  net_ok : ∀ e ∈ s.network.edges,
    e.1 < s.network.num_nodes ∧ e.2 < s.network.num_nodes ∧ e.1 ≠ e.2
  net_nodup : (s.network.edges.map (fun e => (min e.1 e.2, max e.1 e.2))).Nodup
  ng_pos : 1 ≤ s.num_groups
  ng_le : s.num_groups ≤ s.max_groups
  max64 : s.max_groups ≤ 64
  len_groups : s.groups.length = s.network.num_nodes
  bit0 : ∀ m ∈ s.groups, m % 2 = 1
  bounded : ∀ m ∈ s.groups, m < 2 ^ s.num_groups
  len_gs : s.group_size.length = s.num_groups
  len_e : s.hcg_edges.length = s.num_groups
  len_p : s.hcg_pairs.length = s.num_groups
  len_in : s.nodes_in.length = s.num_groups
  len_out : s.nodes_out.length = s.num_groups
  rowlen_in : ∀ row ∈ s.nodes_in, row.length = s.network.num_nodes
  rowlen_out : ∀ row ∈ s.nodes_out, row.length = s.network.num_nodes
  size_le : ∀ r, r < s.num_groups → s.group_size.getD r 0 ≤ s.network.num_nodes
  in_ok : ∀ r, r < s.num_groups →
    rosterOk (s.nodes_in.getD r []) (s.group_size.getD r 0) s.network.num_nodes
      (fun u => (s.groups.getD u 0).testBit r)
  out_ok : ∀ r, r < s.num_groups →
    rosterOk (s.nodes_out.getD r []) (s.network.num_nodes - s.group_size.getD r 0)
      s.network.num_nodes (fun u => !(s.groups.getD u 0).testBit r)
  edges_ok : s.hcg_edges = recount_edges_ideal s.network s.groups s.num_groups
  pairs_ok : s.hcg_pairs
    = recount_pairs_ideal s.network.num_nodes s.groups s.num_groups

/-- The residual invariant for states the release build reaches after a
`remove_group` at `num_groups = 64` wipes every mask (`remove_bit_at_64`):
the structural bookkeeping, the counter totals and the per-bucket domination
survive even though the masks are gone.  On a degenerate network
(`num_nodes ≤ 1`) the masks are unconstrained instead: there every counter is
zero and `update_hcg_props` touches nothing. -/
structure HierarchicalModel.WeakWF (s : HierarchicalModel) : Prop where
  net_ok : ∀ e ∈ s.network.edges,
    e.1 < s.network.num_nodes ∧ e.2 < s.network.num_nodes ∧ e.1 ≠ e.2
  ng_pos : 1 ≤ s.num_groups
  ng_le : s.num_groups ≤ s.max_groups
  max64 : s.max_groups ≤ 64
  len_groups : s.groups.length = s.network.num_nodes
  dead : s.network.num_nodes ≤ 1 ∨ ∀ m ∈ s.groups, m = 0
  len_gs : s.group_size.length = s.num_groups
  len_e : s.hcg_edges.length = s.num_groups
  len_p : s.hcg_pairs.length = s.num_groups
  sum_e : s.hcg_edges.sum = s.network.edges.length
  sum_p : s.hcg_pairs.sum = s.network.num_nodes * (s.network.num_nodes - 1) / 2
  bucket_le : ∀ r, r < s.num_groups → s.hcg_edges.getD r 0 ≤ s.hcg_pairs.getD r 0
  empty_zero : ∀ r, r < s.num_groups → s.group_size.getD r 0 = 0 →
    s.hcg_edges.getD r 0 = 0 ∧ s.hcg_pairs.getD r 0 = 0

/-- The reachable-state invariant: either fully well-formed, or the weak
residue left behind by the 64-group mask wipe. -/
def HierarchicalModel.Inv (s : HierarchicalModel) : Prop := s.WF ∨ s.WeakWF

/-- Exhaustive description of `uniform_groupsize` under the draw contract. -/
theorem uniform_groupsize_cases (s : HierarchicalModel) (d : ProposalDraws)
    (hd : s.draws_ok d) :
    s.uniform_groupsize d = (s, none)
    ∨ (∃ g, s.num_groups ≠ s.max_groups ∧ 1 ≤ g ∧ g ≤ s.num_groups
        ∧ s.uniform_groupsize d = ((s.add_group g).1, some (Move.AddGroup g)))
    ∨ (∃ g, s.num_groups ≠ 1 ∧ 1 ≤ g ∧ g < s.num_groups
        ∧ s.group_size.getD g 0 = 0
        ∧ s.uniform_groupsize d = ((s.remove_group g).1, some (Move.RemoveGroup g)))
    ∨ (∃ g idx, s.num_groups ≠ 1 ∧ 1 ≤ g ∧ g < s.num_groups
        ∧ s.group_size.getD g 0 ≠ 0 ∧ idx < s.group_size.getD g 0
        ∧ s.uniform_groupsize d
          = ((s.remove_node_from_group_by_idx g idx).1,
             some (s.remove_node_from_group_by_idx g idx).2))
    ∨ (∃ g idx, s.num_groups ≠ 1 ∧ 1 ≤ g ∧ g < s.num_groups
        ∧ s.group_size.getD g 0 ≠ s.network.num_nodes
        ∧ idx < s.network.num_nodes - s.group_size.getD g 0
        ∧ s.uniform_groupsize d
          = ((s.add_node_to_group_by_idx g idx).1,
             some (s.add_node_to_group_by_idx g idx).2)) := by
  rw [HierarchicalModel.draws_ok] at hd
  rw [HierarchicalModel.uniform_groupsize]
  by_cases h1 : d.structural_draw
  · rw [if_pos h1] at hd
    simp only [h1, if_true]
    by_cases h2 : s.num_groups = s.max_groups
    · rw [if_pos h2]
      exact Or.inl rfl
    · rw [if_neg h2]
      rcases hd with h | h
      · exact absurd h h2
      · exact Or.inr (Or.inl ⟨d.group_draw, h2, h.1, h.2, rfl⟩)
  · rw [if_neg h1] at hd
    simp only [h1, if_false]
    by_cases h2 : s.num_groups = 1
    · rw [if_pos h2]
      exact Or.inl rfl
    · rw [if_neg h2]
      rcases hd with h | ⟨hg1, hg2, h⟩
      · exact absurd h h2
      by_cases h3 : d.remove_draw
      · rw [if_pos h3] at h ⊢
        by_cases h4 : s.group_size.getD d.group_draw 0 = 0
        · rw [if_pos h4]
          exact Or.inr (Or.inr (Or.inl ⟨d.group_draw, h2, hg1, hg2, h4, rfl⟩))
        · rw [if_neg h4]
          rcases h with h | h
          · exact absurd h h4
          · exact Or.inr (Or.inr (Or.inr (Or.inl
              ⟨d.group_draw, d.idx_draw, h2, hg1, hg2, h4, h, rfl⟩)))
      · rw [if_neg h3] at h ⊢
        by_cases h4 : s.group_size.getD d.group_draw 0 = s.network.num_nodes
        · rw [if_pos h4]
          exact Or.inl rfl
        · rw [if_neg h4]
          rcases h with h | h
          · exact absurd h h4
          · exact Or.inr (Or.inr (Or.inr (Or.inr
              ⟨d.group_draw, d.idx_draw, h2, hg1, hg2, h4, h, rfl⟩)))
/-! ## Bit-index arithmetic for the structural moves -/

theorem testBit_div_pow (n k i : Nat) : (n / 2 ^ k).testBit i = n.testBit (k + i) := by
  rw [Nat.testBit_to_div_mod, Nat.testBit_to_div_mod, Nat.div_div_eq_div_mul, ← pow_add]

/-- Arithmetic form of `insert_zero_at`: split at bit `pos` and shift the high
part up by one. -/
theorem insert_zero_at_decomp (c g ng : Nat) (hc : c < 2 ^ ng) (hg : g ≤ ng)
    (hng : ng ≤ 63) :
    insert_zero_at c g ng = 2 ^ (g + 1) * (c / 2 ^ g) + c % 2 ^ g := by
  apply Nat.eq_of_testBit_eq
  intro i
  have hmod : c % 2 ^ g < 2 ^ (g + 1) :=
    lt_of_lt_of_le (Nat.mod_lt _ (by positivity)) (Nat.pow_le_pow_right (by norm_num) (by omega))
  rw [insert_zero_at_testBit c g ng hc hg hng i, Nat.testBit_mul_pow_two_add _ hmod i]
  rcases Nat.lt_trichotomy i g with h1 | h1 | h1
  · have e1 : i < g + 1 := by omega
    rw [if_pos h1, if_pos e1, Nat.testBit_mod_two_pow]
    simp [h1]
  · subst h1
    have e1 : i < i + 1 := by omega
    rw [if_neg (lt_irrefl i), if_pos rfl, if_pos e1, Nat.testBit_mod_two_pow]
    simp
  · have e1 : ¬ i < g := by omega
    have e2 : ¬ i = g := by omega
    have e3 : ¬ i < g + 1 := by omega
    rw [if_neg e1, if_neg e2, if_neg e3, testBit_div_pow]
    by_cases h2 : i ≤ ng
    · rw [if_pos h2]
      congr 1
      omega
    · rw [if_neg h2]
      have : c.testBit (g + (i - (g + 1))) = false :=
        Nat.testBit_eq_false_of_lt
          (lt_of_lt_of_le hc (Nat.pow_le_pow_right (by norm_num) (by omega)))
      rw [this]

/-- Arithmetic form of `remove_bit_at`: drop bit `pos` and shift the high part
down by one. -/
theorem remove_bit_at_decomp (c g ng : Nat) (hc : c < 2 ^ ng) (hg : g < ng)
    (hng : ng ≤ 63) :
    remove_bit_at c g ng = 2 ^ g * (c / 2 ^ (g + 1)) + c % 2 ^ g := by
  apply Nat.eq_of_testBit_eq
  intro i
  have hmod : c % 2 ^ g < 2 ^ g := Nat.mod_lt _ (by positivity)
  rw [remove_bit_at_testBit c g ng hg hng i, Nat.testBit_mul_pow_two_add _ hmod i]
  rcases Nat.lt_or_ge i g with h1 | h1
  · rw [if_pos h1, if_pos h1, Nat.testBit_mod_two_pow]
    simp [h1]
  · have e1 : ¬ i < g := by omega
    rw [if_neg e1, if_neg e1, testBit_div_pow]
    by_cases h2 : i < ng - 1
    · rw [if_pos h2]
      congr 1
      omega
    · rw [if_neg h2]
      have : c.testBit (g + 1 + (i - g)) = false :=
        Nat.testBit_eq_false_of_lt
          (lt_of_lt_of_le hc (Nat.pow_le_pow_right (by norm_num) (by omega)))
      rw [this]

theorem log2_eq_of_le_of_lt (k x : Nat) (h1 : 2 ^ k ≤ x) (h2 : x < 2 ^ (k + 1)) :
    Nat.log2 x = k := by
  rw [Nat.log2_eq_log_two]
  exact Nat.log_eq_of_pow_le_of_lt_pow h1 h2

/-- `log2` of a split value `2^k·q + b` with `q ≠ 0`, `b < 2^k`. -/
theorem log2_mul_pow_add (q k b : Nat) (hq : q ≠ 0) (hb : b < 2 ^ k) :
    Nat.log2 (2 ^ k * q + b) = k + Nat.log2 q := by
  apply log2_eq_of_le_of_lt
  · calc 2 ^ (k + Nat.log2 q) = 2 ^ k * 2 ^ Nat.log2 q := by ring
    _ ≤ 2 ^ k * q := by
        have := Nat.pow_log_le_self 2 hq
        rw [Nat.log2_eq_log_two]
        exact Nat.mul_le_mul_left _ this
    _ ≤ 2 ^ k * q + b := Nat.le_add_right _ _
  · have hq2 : q + 1 ≤ 2 ^ (Nat.log2 q + 1) := by
      have := Nat.lt_pow_succ_log_self (show 1 < 2 by norm_num) q
      rw [Nat.log2_eq_log_two]
      omega
    calc 2 ^ k * q + b < 2 ^ k * q + 2 ^ k := by omega
    _ = 2 ^ k * (q + 1) := by ring
    _ ≤ 2 ^ k * 2 ^ (Nat.log2 q + 1) := Nat.mul_le_mul_left _ hq2
    _ = 2 ^ (k + Nat.log2 q + 1) := by ring

theorem log2_insert_zero_at (c g ng : Nat) (hc : c ≠ 0) (hcb : c < 2 ^ ng)
    (hg : g ≤ ng) (hng : ng ≤ 63) :
    Nat.log2 (insert_zero_at c g ng)
      = if Nat.log2 c < g then Nat.log2 c else Nat.log2 c + 1 := by
  rw [insert_zero_at_decomp c g ng hcb hg hng]
  by_cases hq : c / 2 ^ g = 0
  · have hlt : c < 2 ^ g := (Nat.div_eq_zero_iff (by positivity)).mp hq
    rw [hq, Nat.mul_zero, Nat.zero_add, Nat.mod_eq_of_lt hlt,
      if_pos ((Nat.log2_lt hc).mpr hlt)]
  · have hd : c = 2 ^ g * (c / 2 ^ g) + c % 2 ^ g := (Nat.div_add_mod c (2 ^ g)).symm
    have hmod : c % 2 ^ g < 2 ^ g := Nat.mod_lt _ (by positivity)
    have h1 : Nat.log2 c = g + Nat.log2 (c / 2 ^ g) := by
      conv_lhs => rw [hd]
      exact log2_mul_pow_add _ _ _ hq hmod
    have h2 : Nat.log2 (2 ^ (g + 1) * (c / 2 ^ g) + c % 2 ^ g)
        = g + 1 + Nat.log2 (c / 2 ^ g) :=
      log2_mul_pow_add _ _ _ hq (lt_of_lt_of_le hmod (Nat.pow_le_pow_right (by norm_num) (by omega)))
    rw [h2, if_neg (by omega)]
    omega

theorem log2_remove_bit_at (c g ng : Nat) (hc : c ≠ 0) (hcb : c < 2 ^ ng)
    (hg : g < ng) (hng : ng ≤ 63) (hbit : c.testBit g = false) :
    Nat.log2 c ≠ g
    ∧ Nat.log2 (remove_bit_at c g ng)
      = if Nat.log2 c < g then Nat.log2 c else Nat.log2 c - 1 := by
  have hne : Nat.log2 c ≠ g := by
    intro h
    have := testBit_log2_self c hc
    rw [h, hbit] at this
    exact Bool.false_ne_true this
  refine ⟨hne, ?_⟩
  rw [remove_bit_at_decomp c g ng hcb hg hng]
  have hmodg : c % 2 ^ (g + 1) < 2 ^ g := mod_pow_lt_of_testBit_false c g hbit
  have hmm : c % 2 ^ (g + 1) % 2 ^ g = c % 2 ^ g := by
    rw [Nat.mod_mod_of_dvd _ (pow_dvd_pow 2 (by omega))]
  by_cases hq : c / 2 ^ (g + 1) = 0
  · have hlt : c < 2 ^ (g + 1) := (Nat.div_eq_zero_iff (by positivity)).mp hq
    have hltg : c < 2 ^ g := lt_pow_of_testBit_false _ _ hlt hbit
    rw [hq, Nat.mul_zero, Nat.zero_add, Nat.mod_eq_of_lt hltg,
      if_pos ((Nat.log2_lt hc).mpr hltg)]
  · have hd : c = 2 ^ (g + 1) * (c / 2 ^ (g + 1)) + c % 2 ^ (g + 1) :=
      (Nat.div_add_mod c (2 ^ (g + 1))).symm
    have h1 : Nat.log2 c = g + 1 + Nat.log2 (c / 2 ^ (g + 1)) := by
      conv_lhs => rw [hd]
      exact log2_mul_pow_add _ _ _ hq
        (lt_of_lt_of_le hmodg (Nat.pow_le_pow_right (by norm_num) (by omega)))
    have h2 : Nat.log2 (2 ^ g * (c / 2 ^ (g + 1)) + c % 2 ^ g)
        = g + Nat.log2 (c / 2 ^ (g + 1)) :=
      log2_mul_pow_add _ _ _ hq (Nat.mod_lt _ (by positivity))
    rw [h2, if_neg (by omega)]
    omega

/-- `insert_zero_at` commutes with bitwise intersection. -/
theorem insert_zero_at_and (a b g ng : Nat) (ha : a < 2 ^ ng) (hb : b < 2 ^ ng)
    (hg : g ≤ ng) (hng : ng ≤ 63) :
    insert_zero_at a g ng &&& insert_zero_at b g ng = insert_zero_at (a &&& b) g ng := by
  apply Nat.eq_of_testBit_eq
  intro i
  rw [Nat.testBit_and, insert_zero_at_testBit a g ng ha hg hng i,
    insert_zero_at_testBit b g ng hb hg hng i,
    insert_zero_at_testBit (a &&& b) g ng (lt_of_le_of_lt Nat.and_le_left ha) hg hng i]
  rcases Nat.lt_trichotomy i g with h1 | h1 | h1
  · rw [if_pos h1, if_pos h1, if_pos h1, Nat.testBit_and]
  · subst h1
    rw [if_neg (lt_irrefl i), if_neg (lt_irrefl i), if_neg (lt_irrefl i),
      if_pos rfl, if_pos rfl, if_pos rfl]
    simp
  · have e1 : ¬ i < g := by omega
    have e2 : ¬ i = g := by omega
    rw [if_neg e1, if_neg e1, if_neg e1, if_neg e2, if_neg e2, if_neg e2]
    by_cases h2 : i ≤ ng
    · rw [if_pos h2, if_pos h2, if_pos h2, Nat.testBit_and]
    · rw [if_neg h2, if_neg h2, if_neg h2]
      simp

/-- `remove_bit_at` commutes with bitwise intersection. -/
theorem remove_bit_at_and (a b g ng : Nat) (hg : g < ng) (hng : ng ≤ 63) :
    remove_bit_at a g ng &&& remove_bit_at b g ng = remove_bit_at (a &&& b) g ng := by
  apply Nat.eq_of_testBit_eq
  intro i
  rw [Nat.testBit_and, remove_bit_at_testBit a g ng hg hng i,
    remove_bit_at_testBit b g ng hg hng i, remove_bit_at_testBit (a &&& b) g ng hg hng i]
  rcases Nat.lt_or_ge i g with h1 | h1
  · rw [if_pos h1, if_pos h1, if_pos h1, Nat.testBit_and]
  · have e1 : ¬ i < g := by omega
    rw [if_neg e1, if_neg e1, if_neg e1]
    by_cases h2 : i < ng - 1
    · rw [if_pos h2, if_pos h2, if_pos h2, Nat.testBit_and]
    · rw [if_neg h2, if_neg h2, if_neg h2]
      simp

theorem and_mod_two (a b : Nat) (hpa : a % 2 = 1) (hpb : b % 2 = 1) :
    (a &&& b) % 2 = 1 ∧ a &&& b ≠ 0 := by
  have h : (a &&& b).testBit 0 = true := by
    rw [Nat.testBit_and, Nat.testBit_zero, Nat.testBit_zero]
    simp [hpa, hpb]
  rw [Nat.testBit_zero] at h
  refine ⟨by simpa using h, ?_⟩
  intro h0
  rw [h0] at h
  simp at h

theorem insert_zero_at_parity (a g ng : Nat) (ha : a < 2 ^ ng) (hpa : a % 2 = 1)
    (hg1 : 1 ≤ g) (hg : g ≤ ng) (hng : ng ≤ 63) :
    insert_zero_at a g ng % 2 = 1 := by
  have h := insert_zero_at_testBit a g ng ha hg hng 0
  rw [if_pos (by omega), Nat.testBit_zero, Nat.testBit_zero] at h
  simp [hpa] at h
  exact h

theorem remove_bit_at_parity (a g ng : Nat) (hpa : a % 2 = 1)
    (hg1 : 1 ≤ g) (hg : g < ng) (hng : ng ≤ 63) :
    remove_bit_at a g ng % 2 = 1 := by
  have h := remove_bit_at_testBit a g ng hg hng 0
  rw [if_pos (by omega), Nat.testBit_zero, Nat.testBit_zero] at h
  simp [hpa] at h
  exact h

/-- Bucket reindexing under `add_group`: inserting a zero bit at `g` into both
masks shifts the highest-common-group index past `g` up by one. -/
theorem hcg_ideal_insert (ng a b g : Nat) (hpa : a % 2 = 1) (hpb : b % 2 = 1)
    (ha : a < 2 ^ ng) (hb : b < 2 ^ ng) (hg1 : 1 ≤ g) (hg : g ≤ ng)
    (hng : ng + 1 ≤ 64) :
    hcg_ideal (ng + 1) (insert_zero_at a g ng) (insert_zero_at b g ng)
      = if hcg_ideal ng a b < g then hcg_ideal ng a b
        else hcg_ideal ng a b + 1 := by
  have hab := and_mod_two a b hpa hpb
  have habs : a &&& b < 2 ^ ng := lt_of_le_of_lt Nat.and_le_left ha
  have h1 : hcg_ideal ng a b = Nat.log2 (a &&& b) := by
    rw [hcg_ideal_eq_log2 ng a b (by omega) (by rw [and_mask_of_lt _ _ habs]; exact hab.2),
      and_mask_of_lt _ _ habs]
  have hia : insert_zero_at a g ng % 2 = 1 := insert_zero_at_parity a g ng ha hpa hg1 hg (by omega)
  have hib : insert_zero_at b g ng % 2 = 1 := insert_zero_at_parity b g ng hb hpb hg1 hg (by omega)
  have hii := and_mod_two _ _ hia hib
  have hand : insert_zero_at a g ng &&& insert_zero_at b g ng
      = insert_zero_at (a &&& b) g ng := insert_zero_at_and a b g ng ha hb hg (by omega)
  have hibnd : insert_zero_at (a &&& b) g ng < 2 ^ (ng + 1) :=
    insert_zero_at_lt _ _ _ habs hg (by omega)
  have h2 : hcg_ideal (ng + 1) (insert_zero_at a g ng) (insert_zero_at b g ng)
      = Nat.log2 (insert_zero_at (a &&& b) g ng) := by
    rw [hcg_ideal_eq_log2 (ng + 1) _ _ (by omega)
        (by rw [hand, and_mask_of_lt _ _ hibnd]
            rw [hand] at hii
            exact hii.2),
      hand, and_mask_of_lt _ _ hibnd]
  rw [h1, h2, log2_insert_zero_at (a &&& b) g ng hab.2 habs hg (by omega)]

/-- Bucket reindexing under `remove_group` of a group `g` no mask occupies:
the highest-common-group index is never `g`, and indices past `g` move down by
one. -/
theorem hcg_ideal_remove (ng a b g : Nat) (hpa : a % 2 = 1) (hpb : b % 2 = 1)
    (ha : a < 2 ^ ng) (hb : b < 2 ^ ng) (hg1 : 1 ≤ g) (hg : g < ng)
    (hng : ng ≤ 63) (hba : a.testBit g = false) (hbb : b.testBit g = false) :
    hcg_ideal ng a b ≠ g
    ∧ hcg_ideal (ng - 1) (remove_bit_at a g ng) (remove_bit_at b g ng)
      = if hcg_ideal ng a b < g then hcg_ideal ng a b
        else hcg_ideal ng a b - 1 := by
  have hab := and_mod_two a b hpa hpb
  have habs : a &&& b < 2 ^ ng := lt_of_le_of_lt Nat.and_le_left ha
  have h1 : hcg_ideal ng a b = Nat.log2 (a &&& b) := by
    rw [hcg_ideal_eq_log2 ng a b (by omega) (by rw [and_mask_of_lt _ _ habs]; exact hab.2),
      and_mask_of_lt _ _ habs]
  have habg : (a &&& b).testBit g = false := by
    rw [Nat.testBit_and, hba, hbb]
    rfl
  have hra : remove_bit_at a g ng % 2 = 1 := remove_bit_at_parity a g ng hpa hg1 hg hng
  have hrb : remove_bit_at b g ng % 2 = 1 := remove_bit_at_parity b g ng hpb hg1 hg hng
  have hrr := and_mod_two _ _ hra hrb
  have hand : remove_bit_at a g ng &&& remove_bit_at b g ng
      = remove_bit_at (a &&& b) g ng := remove_bit_at_and a b g ng hg hng
  have hrbnd : remove_bit_at (a &&& b) g ng < 2 ^ (ng - 1) :=
    remove_bit_at_lt _ _ _ hg hng
  have h2 : hcg_ideal (ng - 1) (remove_bit_at a g ng) (remove_bit_at b g ng)
      = Nat.log2 (remove_bit_at (a &&& b) g ng) := by
    rw [hcg_ideal_eq_log2 (ng - 1) _ _ (by omega)
        (by rw [hand, and_mask_of_lt _ _ hrbnd]
            rw [hand] at hrr
            exact hrr.2),
      hand, and_mask_of_lt _ _ hrbnd]
  have h3 := log2_remove_bit_at (a &&& b) g ng hab.2 habs hg hng habg
  exact ⟨by rw [h1]; exact h3.1, by rw [h1, h2, h3.2]⟩
/-! ## Counter vectors under `insert` / `erase` -/

theorem getD_insertIdx_zero (l : List Nat) (g r : Nat) (hg : g ≤ l.length) :
    (l.insertIdx g 0).getD r 0 =
      if r < g then l.getD r 0 else if r = g then 0 else l.getD (r - 1) 0 := by
  rcases Nat.lt_trichotomy r g with h1 | h1 | h1
  · rw [if_pos h1]
    have hr : r < l.length := by omega
    have hr2 : r < (l.insertIdx g 0).length := by
      rw [List.length_insertIdx _ _ hg]
      omega
    rw [List.getD_eq_getElem _ _ hr, List.getD_eq_getElem _ _ hr2,
      List.getElem_insertIdx_of_lt l 0 g r h1 hr]
  · subst h1
    have hr2 : r < (l.insertIdx r 0).length := by
      rw [List.length_insertIdx _ _ hg]
      omega
    rw [if_neg (lt_irrefl r), if_pos rfl, List.getD_eq_getElem _ _ hr2,
      List.getElem_insertIdx_self l 0 r hg]
  · have e1 : ¬ r < g := by omega
    have e2 : ¬ r = g := by omega
    rw [if_neg e1, if_neg e2]
    by_cases h2 : r - 1 < l.length
    · have hk : g + (r - 1 - g) < l.length := by omega
      have hr2 : g + (r - 1 - g) + 1 < (l.insertIdx g 0).length := by
        rw [List.length_insertIdx _ _ hg]
        omega
      have hD1 : (l.insertIdx g 0).getD (g + (r - 1 - g) + 1) 0
          = l.getD (g + (r - 1 - g)) 0 := by
        rw [List.getD_eq_getElem _ _ hr2, List.getD_eq_getElem _ _ hk,
          List.getElem_insertIdx_add_succ l 0 g (r - 1 - g) hk]
      have hidx : g + (r - 1 - g) + 1 = r := by omega
      have hidx2 : g + (r - 1 - g) = r - 1 := by omega
      rw [hidx, hidx2] at hD1
      exact hD1
    · rw [List.getD_eq_default l 0 (show l.length ≤ r - 1 by omega),
        List.getD_eq_default (l.insertIdx g 0) 0
          (by rw [List.length_insertIdx _ _ hg]; omega)]

theorem getD_eraseIdx_zero (l : List Nat) (g r : Nat) :
    (l.eraseIdx g).getD r 0 = if r < g then l.getD r 0 else l.getD (r + 1) 0 := by
  rw [List.getD_eq_getElem?_getD, List.getElem?_eraseIdx]
  by_cases h : r < g
  · rw [if_pos h, if_pos h, ← List.getD_eq_getElem?_getD]
  · rw [if_neg h, if_neg h, ← List.getD_eq_getElem?_getD]

/-- Reindexing a per-bucket count under insertion of a fresh empty bucket at
`g`. -/
theorem counts_insert_reindex {α : Type} (L : List α) (f f2 : α → Nat) (ng g : Nat)
    (hg : g ≤ ng)
    (hlt : ∀ x ∈ L, f x < ng)
    (hre : ∀ x ∈ L, f2 x = if f x < g then f x else f x + 1) :
    L.foldl (fun acc x => bump acc (f2 x)) (List.replicate (ng + 1) 0)
      = (L.foldl (fun acc x => bump acc (f x)) (List.replicate ng 0)).insertIdx g 0 := by
  have hlt2 : ∀ x ∈ L, f2 x < (List.replicate (ng + 1) 0 : List Nat).length := by
    intro x hx
    rw [List.length_replicate, hre x hx]
    have := hlt x hx
    by_cases h : f x < g
    · rw [if_pos h]
      omega
    · rw [if_neg h]
      omega
  have hlt1 : ∀ x ∈ L, f x < (List.replicate ng 0 : List Nat).length := by
    intro x hx
    rw [List.length_replicate]
    exact hlt x hx
  have hlen1 : (L.foldl (fun acc x => bump acc (f x)) (List.replicate ng 0)).length = ng := by
    rw [foldl_bump_length, List.length_replicate]
  apply list_eq_of_getD
  · rw [(foldl_bump_getD L f2 _ hlt2 0).2, List.length_replicate,
      List.length_insertIdx _ _ (by rw [hlen1]; exact hg), hlen1]
  intro r
  rw [(foldl_bump_getD L f2 _ hlt2 r).1, getD_replicate,
    getD_insertIdx_zero _ g r (by rw [hlen1]; exact hg)]
  by_cases h1 : r < g
  · rw [if_pos h1, (foldl_bump_getD L f _ hlt1 r).1, getD_replicate]
    congr 1
    rw [List.countP_eq_length_filter, List.countP_eq_length_filter]
    congr 1
    apply List.filter_congr
    intro x hx
    rw [hre x hx]
    by_cases h : f x < g
    · rw [if_pos h]
    · rw [if_neg h]
      have e1 : ¬ (f x + 1 = r) := by omega
      have e2 : ¬ (f x = r) := by omega
      simp [e1, e2]
  · by_cases h2 : r = g
    · have e1 : ¬ r < g := by omega
      rw [if_neg e1, if_pos h2, Nat.zero_add, List.countP_eq_zero]
      intro x hx
      rw [hre x hx]
      by_cases h : f x < g
      · rw [if_pos h]
        simp
        omega
      · rw [if_neg h]
        simp
        omega
    · rw [if_neg h1, if_neg h2, (foldl_bump_getD L f _ hlt1 (r - 1)).1, getD_replicate]
      congr 1
      rw [List.countP_eq_length_filter, List.countP_eq_length_filter]
      congr 1
      apply List.filter_congr
      intro x hx
      rw [hre x hx]
      by_cases h : f x < g
      · rw [if_pos h]
        have e1 : ¬ (f x = r) := by omega
        have e2 : ¬ (f x = r - 1) := by omega
        simp [e1, e2]
      · rw [if_neg h]
        have : (f x + 1 = r) ↔ (f x = r - 1) := by omega
        simp [this]

/-- Reindexing a per-bucket count under deletion of a bucket `g` no element
occupies. -/
theorem counts_erase_reindex {α : Type} (L : List α) (f f2 : α → Nat) (ng g : Nat)
    (hg : g < ng)
    (hlt : ∀ x ∈ L, f x < ng ∧ f x ≠ g)
    (hre : ∀ x ∈ L, f2 x = if f x < g then f x else f x - 1) :
    L.foldl (fun acc x => bump acc (f2 x)) (List.replicate (ng - 1) 0)
      = (L.foldl (fun acc x => bump acc (f x)) (List.replicate ng 0)).eraseIdx g := by
  have hlt2 : ∀ x ∈ L, f2 x < (List.replicate (ng - 1) 0 : List Nat).length := by
    intro x hx
    rw [List.length_replicate, hre x hx]
    have := hlt x hx
    by_cases h : f x < g
    · rw [if_pos h]
      omega
    · rw [if_neg h]
      omega
  have hlt1 : ∀ x ∈ L, f x < (List.replicate ng 0 : List Nat).length := by
    intro x hx
    rw [List.length_replicate]
    exact (hlt x hx).1
  have hlen1 : (L.foldl (fun acc x => bump acc (f x)) (List.replicate ng 0)).length = ng := by
    rw [foldl_bump_length, List.length_replicate]
  apply list_eq_of_getD
  · rw [(foldl_bump_getD L f2 _ hlt2 0).2, List.length_replicate, List.length_eraseIdx,
      hlen1, if_pos hg]
  intro r
  rw [(foldl_bump_getD L f2 _ hlt2 r).1, getD_replicate, getD_eraseIdx_zero]
  by_cases h1 : r < g
  · rw [if_pos h1, (foldl_bump_getD L f _ hlt1 r).1, getD_replicate]
    congr 1
    rw [List.countP_eq_length_filter, List.countP_eq_length_filter]
    congr 1
    apply List.filter_congr
    intro x hx
    rw [hre x hx]
    have hfx := hlt x hx
    by_cases h : f x < g
    · rw [if_pos h]
    · rw [if_neg h]
      have e1 : ¬ (f x - 1 = r) := by omega
      have e2 : ¬ (f x = r) := by omega
      simp [e1, e2]
  · rw [if_neg h1, (foldl_bump_getD L f _ hlt1 (r + 1)).1, getD_replicate]
    congr 1
    rw [List.countP_eq_length_filter, List.countP_eq_length_filter]
    congr 1
    apply List.filter_congr
    intro x hx
    rw [hre x hx]
    have hfx := hlt x hx
    by_cases h : f x < g
    · rw [if_pos h]
      have e1 : ¬ (f x = r) := by omega
      have e2 : ¬ (f x = r + 1) := by omega
      simp [e1, e2]
    · rw [if_neg h]
      have : (f x - 1 = r) ↔ (f x = r + 1) := by omega
      simp [this]
/-! ## Recounts under the structural moves -/

theorem getD_map_insert (groups : List Nat) (g ng u : Nat) (hu : u < groups.length) :
    (groups.map (fun m => insert_zero_at m g ng)).getD u 0
      = insert_zero_at (groups.getD u 0) g ng := by
  rw [List.getD_eq_getElem _ _ (by simpa using hu), List.getElem_map,
    List.getD_eq_getElem _ _ hu]

theorem getD_map_remove (groups : List Nat) (g ng u : Nat) (hu : u < groups.length) :
    (groups.map (fun m => remove_bit_at m g ng)).getD u 0
      = remove_bit_at (groups.getD u 0) g ng := by
  rw [List.getD_eq_getElem _ _ (by simpa using hu), List.getElem_map,
    List.getD_eq_getElem _ _ hu]

theorem recount_edges_insert (net : Network) (groups : List Nat) (ng g : Nat)
    (hlen : groups.length = net.num_nodes)
    (hbit : ∀ m ∈ groups, m % 2 = 1) (hbnd : ∀ m ∈ groups, m < 2 ^ ng)
    (hE : ∀ e ∈ net.edges, e.1 < net.num_nodes ∧ e.2 < net.num_nodes ∧ e.1 ≠ e.2)
    (hg1 : 1 ≤ g) (hg : g ≤ ng) (hng : ng + 1 ≤ 64) :
    recount_edges_ideal net (groups.map (fun m => insert_zero_at m g ng)) (ng + 1)
      = (recount_edges_ideal net groups ng).insertIdx g 0 := by
  rw [recount_edges_ideal, recount_edges_ideal]
  apply counts_insert_reindex _ _ _ ng g hg
  · intro e he
    obtain ⟨h1, h2, _⟩ := hE e he
    exact hcg_ideal_lt ng _ _ (by omega) (by omega)
      (hbit _ (getD_mem_of_lt _ _ _ (by omega))) (hbit _ (getD_mem_of_lt _ _ _ (by omega)))
  · intro e he
    obtain ⟨h1, h2, _⟩ := hE e he
    rw [getD_map_insert _ _ _ _ (by omega), getD_map_insert _ _ _ _ (by omega)]
    exact hcg_ideal_insert ng _ _ g
      (hbit _ (getD_mem_of_lt _ _ _ (by omega))) (hbit _ (getD_mem_of_lt _ _ _ (by omega)))
      (hbnd _ (getD_mem_of_lt _ _ _ (by omega))) (hbnd _ (getD_mem_of_lt _ _ _ (by omega)))
      hg1 hg hng

theorem recount_pairs_insert (n : Nat) (groups : List Nat) (ng g : Nat)
    (hlen : groups.length = n)
    (hbit : ∀ m ∈ groups, m % 2 = 1) (hbnd : ∀ m ∈ groups, m < 2 ^ ng)
    (hg1 : 1 ≤ g) (hg : g ≤ ng) (hng : ng + 1 ≤ 64) :
    recount_pairs_ideal n (groups.map (fun m => insert_zero_at m g ng)) (ng + 1)
      = (recount_pairs_ideal n groups ng).insertIdx g 0 := by
  rw [recount_pairs_ideal, recount_pairs_ideal]
  apply counts_insert_reindex _ _ _ ng g hg
  · intro p hp
    obtain ⟨h1, h2, _⟩ := (mem_pair_list n p).mp hp
    exact hcg_ideal_lt ng _ _ (by omega) (by omega)
      (hbit _ (getD_mem_of_lt _ _ _ (by omega))) (hbit _ (getD_mem_of_lt _ _ _ (by omega)))
  · intro p hp
    obtain ⟨h1, h2, _⟩ := (mem_pair_list n p).mp hp
    rw [getD_map_insert _ _ _ _ (by omega), getD_map_insert _ _ _ _ (by omega)]
    exact hcg_ideal_insert ng _ _ g
      (hbit _ (getD_mem_of_lt _ _ _ (by omega))) (hbit _ (getD_mem_of_lt _ _ _ (by omega)))
      (hbnd _ (getD_mem_of_lt _ _ _ (by omega))) (hbnd _ (getD_mem_of_lt _ _ _ (by omega)))
      hg1 hg hng

theorem recount_edges_erase (net : Network) (groups : List Nat) (ng g : Nat)
    (hlen : groups.length = net.num_nodes)
    (hbit : ∀ m ∈ groups, m % 2 = 1) (hbnd : ∀ m ∈ groups, m < 2 ^ ng)
    (hfree : ∀ m ∈ groups, m.testBit g = false)
    (hE : ∀ e ∈ net.edges, e.1 < net.num_nodes ∧ e.2 < net.num_nodes ∧ e.1 ≠ e.2)
    (hg1 : 1 ≤ g) (hg : g < ng) (hng : ng ≤ 63) :
    recount_edges_ideal net (groups.map (fun m => remove_bit_at m g ng)) (ng - 1)
      = (recount_edges_ideal net groups ng).eraseIdx g := by
  rw [recount_edges_ideal, recount_edges_ideal]
  apply counts_erase_reindex _ _ _ ng g hg
  · intro e he
    obtain ⟨h1, h2, _⟩ := hE e he
    refine ⟨hcg_ideal_lt ng _ _ (by omega) (by omega)
      (hbit _ (getD_mem_of_lt _ _ _ (by omega))) (hbit _ (getD_mem_of_lt _ _ _ (by omega))), ?_⟩
    exact (hcg_ideal_remove ng _ _ g
      (hbit _ (getD_mem_of_lt _ _ _ (by omega))) (hbit _ (getD_mem_of_lt _ _ _ (by omega)))
      (hbnd _ (getD_mem_of_lt _ _ _ (by omega))) (hbnd _ (getD_mem_of_lt _ _ _ (by omega)))
      hg1 hg hng
      (hfree _ (getD_mem_of_lt _ _ _ (by omega))) (hfree _ (getD_mem_of_lt _ _ _ (by omega)))).1
  · intro e he
    obtain ⟨h1, h2, _⟩ := hE e he
    rw [getD_map_remove _ _ _ _ (by omega), getD_map_remove _ _ _ _ (by omega)]
    exact (hcg_ideal_remove ng _ _ g
      (hbit _ (getD_mem_of_lt _ _ _ (by omega))) (hbit _ (getD_mem_of_lt _ _ _ (by omega)))
      (hbnd _ (getD_mem_of_lt _ _ _ (by omega))) (hbnd _ (getD_mem_of_lt _ _ _ (by omega)))
      hg1 hg hng
      (hfree _ (getD_mem_of_lt _ _ _ (by omega))) (hfree _ (getD_mem_of_lt _ _ _ (by omega)))).2

theorem recount_pairs_erase (n : Nat) (groups : List Nat) (ng g : Nat)
    (hlen : groups.length = n)
    (hbit : ∀ m ∈ groups, m % 2 = 1) (hbnd : ∀ m ∈ groups, m < 2 ^ ng)
    (hfree : ∀ m ∈ groups, m.testBit g = false)
    (hg1 : 1 ≤ g) (hg : g < ng) (hng : ng ≤ 63) :
    recount_pairs_ideal n (groups.map (fun m => remove_bit_at m g ng)) (ng - 1)
      = (recount_pairs_ideal n groups ng).eraseIdx g := by
  rw [recount_pairs_ideal, recount_pairs_ideal]
  apply counts_erase_reindex _ _ _ ng g hg
  · intro p hp
    obtain ⟨h1, h2, _⟩ := (mem_pair_list n p).mp hp
    refine ⟨hcg_ideal_lt ng _ _ (by omega) (by omega)
      (hbit _ (getD_mem_of_lt _ _ _ (by omega))) (hbit _ (getD_mem_of_lt _ _ _ (by omega))), ?_⟩
    exact (hcg_ideal_remove ng _ _ g
      (hbit _ (getD_mem_of_lt _ _ _ (by omega))) (hbit _ (getD_mem_of_lt _ _ _ (by omega)))
      (hbnd _ (getD_mem_of_lt _ _ _ (by omega))) (hbnd _ (getD_mem_of_lt _ _ _ (by omega)))
      hg1 hg hng
      (hfree _ (getD_mem_of_lt _ _ _ (by omega))) (hfree _ (getD_mem_of_lt _ _ _ (by omega)))).1
  · intro p hp
    obtain ⟨h1, h2, _⟩ := (mem_pair_list n p).mp hp
    rw [getD_map_remove _ _ _ _ (by omega), getD_map_remove _ _ _ _ (by omega)]
    exact (hcg_ideal_remove ng _ _ g
      (hbit _ (getD_mem_of_lt _ _ _ (by omega))) (hbit _ (getD_mem_of_lt _ _ _ (by omega)))
      (hbnd _ (getD_mem_of_lt _ _ _ (by omega))) (hbnd _ (getD_mem_of_lt _ _ _ (by omega)))
      hg1 hg hng
      (hfree _ (getD_mem_of_lt _ _ _ (by omega))) (hfree _ (getD_mem_of_lt _ _ _ (by omega)))).2
/-! ## Roster-prefix lemmas -/

theorem rosterOk_congr (row : List Int) (len N : Nat) (P Q : Nat → Bool)
    (h : rosterOk row len N P) (hpq : ∀ u, u < N → P u = Q u) :
    rosterOk row len N Q := by
  obtain ⟨hs, hc, hi⟩ := h
  refine ⟨?_, ?_, hi⟩
  · intro i hilt
    obtain ⟨u, hu, he, hp⟩ := hs i hilt
    exact ⟨u, hu, he, by rw [← hpq u hu]; exact hp⟩
  · intro u hu hq
    exact hc u hu (by rw [hpq u hu]; exact hq)

theorem rosterOk_of_prefix (row row2 : List Int) (len N : Nat) (P : Nat → Bool)
    (h : rosterOk row len N P)
    (hpre : ∀ i, i < len → row2.getD i (-1) = row.getD i (-1)) :
    rosterOk row2 len N P := by
  obtain ⟨hs, hc, hi⟩ := h
  refine ⟨?_, ?_, ?_⟩
  · intro i hilt
    rw [hpre i hilt]
    exact hs i hilt
  · intro u hu hq
    obtain ⟨i, hilt, he⟩ := hc u hu hq
    exact ⟨i, hilt, by rw [hpre i hilt]; exact he⟩
  · intro i hilt j hjlt he
    rw [hpre i hilt, hpre j hjlt] at he
    exact hi i hilt j hjlt he

/-- Appending a new member at the end of the valid prefix. -/
theorem rosterOk_push (row : List Int) (len N node : Nat) (P Q : Nat → Bool)
    (h : rosterOk row len N P) (hlen : len < row.length)
    (hnode : node < N) (hP : P node = false)
    (hQ : ∀ u, u < N → Q u = (P u || decide (u = node))) :
    rosterOk (row.set len (Int.ofNat node)) (len + 1) N Q := by
  obtain ⟨hs, hc, hi⟩ := h
  have hget : ∀ i, i ≠ len → (row.set len (Int.ofNat node)).getD i (-1) = row.getD i (-1) :=
    fun i hne => getD_set_ne_g _ _ _ _ _ (fun he => hne he.symm)
  have hgetl : (row.set len (Int.ofNat node)).getD len (-1) = Int.ofNat node :=
    getD_set_self_g _ _ _ _ hlen
  refine ⟨?_, ?_, ?_⟩
  · intro i hilt
    by_cases hie : i = len
    · subst hie
      rw [hgetl]
      refine ⟨node, hnode, rfl, ?_⟩
      rw [hQ node hnode, hP]
      simp
    · rw [hget i hie]
      obtain ⟨u, hu, he, hp⟩ := hs i (by omega)
      refine ⟨u, hu, he, ?_⟩
      rw [hQ u hu, hp]
      simp
  · intro u hu hq
    rw [hQ u hu] at hq
    rcases Bool.or_eq_true_iff.mp hq with hq | hq
    · obtain ⟨i, hilt, he⟩ := hc u hu hq
      exact ⟨i, by omega, by rw [hget i (by omega)]; exact he⟩
    · have : u = node := of_decide_eq_true hq
      subst this
      exact ⟨len, by omega, hgetl⟩
  · intro i hilt j hjlt he
    by_cases hie : i = len
    · by_cases hje : j = len
      · omega
      · subst hie
        rw [hgetl, hget j hje] at he
        obtain ⟨u, hu, he2, hp⟩ := hs j (by omega)
        rw [he2] at he
        have : node = u := Int.ofNat.inj he
        subst this
        rw [hp] at hP
        exact absurd hP (by simp)
    · by_cases hje : j = len
      · subst hje
        rw [hget i hie, hgetl] at he
        obtain ⟨u, hu, he2, hp⟩ := hs i (by omega)
        rw [he2] at he
        have : u = node := Int.ofNat.inj he
        subst this
        rw [hp] at hP
        exact absurd hP (by simp)
      · rw [hget i hie, hget j hje] at he
        exact hi i (by omega) j (by omega) he

/-- Removing the member at `idx` by swapping the last valid entry into it. -/
theorem rosterOk_swapdel (row : List Int) (len N node idx : Nat) (P Q : Nat → Bool)
    (h : rosterOk row len N P) (hidx : idx < len)
    (hnode : row.getD idx (-1) = Int.ofNat node)
    (hQ : ∀ u, u < N → Q u = (P u && ! decide (u = node))) :
    rosterOk (row.set idx (row.getD (len - 1) (-1))) (len - 1) N Q := by
  obtain ⟨hs, hc, hi⟩ := h
  have hnN : node < N := by
    obtain ⟨u, hu, he, hp⟩ := hs idx hidx
    rw [hnode] at he
    have : node = u := Int.ofNat.inj he
    subst this
    exact hu
  have hPnode : P node = true := by
    obtain ⟨u, hu, he, hp⟩ := hs idx hidx
    rw [hnode] at he
    have : node = u := Int.ofNat.inj he
    subst this
    exact hp
  have hget : ∀ i, i ≠ idx
      → (row.set idx (row.getD (len - 1) (-1))).getD i (-1) = row.getD i (-1) :=
    fun i hne => getD_set_ne_g _ _ _ _ _ (fun he => hne he.symm)
  have hgeti : idx < row.length → (row.set idx (row.getD (len - 1) (-1))).getD idx (-1)
      = row.getD (len - 1) (-1) :=
    fun hl => getD_set_self_g _ _ _ _ hl
  by_cases hrl : idx < row.length
  case neg =>
    -- `idx < len` but the row is shorter: the prefix entry is the default `-1`,
    -- contradicting soundness.
    obtain ⟨u, hu, he, hp⟩ := hs idx hidx
    rw [List.getD_eq_default _ _ (by omega)] at he
    rw [Int.ofNat_eq_natCast] at he
    omega
  refine ⟨?_, ?_, ?_⟩
  · intro i hilt
    by_cases hie : i = idx
    · subst hie
      rw [hgeti hrl]
      obtain ⟨u, hu, he, hp⟩ := hs (len - 1) (by omega)
      refine ⟨u, hu, he, ?_⟩
      rw [hQ u hu, hp]
      have : ¬ u = node := by
        intro heq
        subst heq
        rw [← hnode] at he
        have := hi i hidx (len - 1) (by omega) he.symm
        omega
      simp [this]
    · rw [hget i hie]
      obtain ⟨u, hu, he, hp⟩ := hs i (by omega)
      refine ⟨u, hu, he, ?_⟩
      rw [hQ u hu, hp]
      have : ¬ u = node := by
        intro heq
        subst heq
        rw [← hnode] at he
        have := hi i (by omega) idx hidx he
        omega
      simp [this]
  · intro u hu hq
    rw [hQ u hu] at hq
    have hqp : P u = true ∧ u ≠ node := by
      rcases hb : P u with _ | _
      · rw [hb] at hq
        simp at hq
      · rcases hd : decide (u = node) with _ | _
        · exact ⟨rfl, of_decide_eq_false hd⟩
        · rw [hb, hd] at hq
          simp at hq
    obtain ⟨i, hilt, he⟩ := hc u hu hqp.1
    have hine : i ≠ idx := by
      intro heq
      subst heq
      rw [hnode] at he
      exact hqp.2 (Int.ofNat.inj he).symm
    by_cases hil : i = len - 1
    · subst hil
      refine ⟨idx, by omega, ?_⟩
      rw [hgeti hrl]
      exact he
    · exact ⟨i, by omega, by rw [hget i hine]; exact he⟩
  · intro i hilt j hjlt he
    by_cases hie : i = idx
    · by_cases hje : j = idx
      · omega
      · subst hie
        rw [hgeti hrl, hget j hje] at he
        have := hi (len - 1) (by omega) j (by omega) he
        omega
    · by_cases hje : j = idx
      · subst hje
        rw [hget i hie, hgeti hrl] at he
        have := hi i (by omega) (len - 1) (by omega) he
        omega
      · rw [hget i hie, hget j hje] at he
        exact hi i (by omega) j (by omega) he
/-! ## Construction establishes the invariant -/

theorem getD_map_range_nat (ng r : Nat) (f : Nat → Nat) (h : r < ng) :
    ((List.range ng).map f).getD r 0 = f r := by
  rw [List.getD_eq_getElem _ _ (by simpa using h), List.getElem_map, List.getElem_range]

theorem getD_map_range_row (ng r : Nat) (f : Nat → List Int) (h : r < ng) :
    ((List.range ng).map f).getD r [] = f r := by
  rw [List.getD_eq_getElem _ _ (by simpa using h), List.getElem_map, List.getElem_range]

/-- The ascending-scan roster row built by `init_groups` satisfies the prefix
invariant. -/
theorem rosterOk_canonical (n : Nat) (P : Nat → Bool) :
    rosterOk (((List.range n).filter P).map Int.ofNat
        ++ List.replicate (n - ((List.range n).filter P).length) (-1))
      ((List.range n).filter P).length n P := by
  set members := (List.range n).filter P with hm
  have hnd : members.Nodup := (List.nodup_range n).filter P
  have hgd : ∀ i, i < members.length →
      ((members.map Int.ofNat ++ List.replicate (n - members.length) (-1)).getD i (-1)
        = (members.map Int.ofNat).getD i (-1)) := by
    intro i hi
    exact List.getD_append _ _ _ _ (by simpa using hi)
  refine ⟨?_, ?_, ?_⟩
  · intro i hi
    have hi2 : i < (members.map Int.ofNat).length := by simpa using hi
    rw [hgd i hi, List.getD_eq_getElem _ _ hi2, List.getElem_map]
    refine ⟨members[i], ?_, rfl, ?_⟩
    · have h3 : members[i] ∈ members :=
        List.getElem_mem (show i < members.length by simpa using hi)
      exact List.mem_range.mp (List.mem_filter.mp h3).1
    · have h3 : members[i] ∈ members :=
        List.getElem_mem (show i < members.length by simpa using hi)
      exact (List.mem_filter.mp h3).2
  · intro u hu hp
    have hmem : u ∈ members := by
      rw [hm, List.mem_filter, List.mem_range]
      exact ⟨hu, hp⟩
    obtain ⟨i, hi, he⟩ := List.mem_iff_getElem.mp hmem
    refine ⟨i, hi, ?_⟩
    rw [hgd i hi, List.getD_eq_getElem _ _ (by simpa using hi), List.getElem_map, he]
  · intro i hi j hj he
    rw [hgd i hi, hgd j hj, List.getD_eq_getElem _ _ (by simpa using hi),
      List.getD_eq_getElem _ _ (by simpa using hj), List.getElem_map, List.getElem_map] at he
    have := Int.ofNat.inj he
    exact (hnd.getElem_inj_iff).mp this

theorem canonical_row_length (n : Nat) (P : Nat → Bool) :
    (((List.range n).filter P).map Int.ofNat
        ++ List.replicate (n - ((List.range n).filter P).length) (-1)).length = n := by
  have hle : ((List.range n).filter P).length ≤ n := by
    have := List.length_filter_le P (List.range n)
    simpa using this
  simp
  omega

/-- `init_groups` on well-shaped inputs establishes every invariant. -/
theorem init_groups_WF (net : Network) (mg ng : Nat) (masks : List Nat)
    (hnet : ∀ e ∈ net.edges,
      e.1 < net.num_nodes ∧ e.2 < net.num_nodes ∧ e.1 ≠ e.2)
    (hnodup : (net.edges.map (fun e => (min e.1 e.2, max e.1 e.2))).Nodup)
    (hml : masks.length = net.num_nodes)
    (hbit : ∀ m ∈ masks, m % 2 = 1)
    (hbnd : ∀ m ∈ masks, m < 2 ^ ng)
    (h1 : 1 ≤ ng) (h2 : ng ≤ mg) (h3 : mg ≤ 64)
    (hngN : ng ≤ 63 ∨ net.num_nodes ≤ 1) :
    ((HierarchicalModel.new net mg).init_groups masks ng).WF := by
  have hstate : (HierarchicalModel.new net mg).init_groups masks ng
      = { network := net, max_groups := mg, num_groups := ng, groups := masks,
          group_size := (List.range ng).map (fun r =>
            ((List.range net.num_nodes).filter
              (fun u => (masks.getD u 0).testBit r)).length),
          nodes_in := (List.range ng).map (fun r =>
            (((List.range net.num_nodes).filter
                (fun u => (masks.getD u 0).testBit r)).map Int.ofNat)
              ++ List.replicate (net.num_nodes -
                  ((List.range net.num_nodes).filter
                    (fun u => (masks.getD u 0).testBit r)).length) (-1)),
          nodes_out := (List.range ng).map (fun r =>
            (((List.range net.num_nodes).filter
                (fun u => !(masks.getD u 0).testBit r)).map Int.ofNat)
              ++ List.replicate (net.num_nodes -
                  ((List.range net.num_nodes).filter
                    (fun u => !(masks.getD u 0).testBit r)).length) (-1)),
          hcg_edges := recount_edges net masks ng,
          hcg_pairs := recount_pairs net.num_nodes masks ng } := rfl
  rw [hstate]
  have hsum : ∀ (P : Nat → Bool),
      ((List.range net.num_nodes).filter P).length
        + ((List.range net.num_nodes).filter (fun u => ! P u)).length
        = net.num_nodes := by
    intro P
    have := (@List.length_eq_length_filter_add _ (List.range net.num_nodes) P).symm
    simpa using this
  refine ⟨hnet, hnodup, h1, h2, h3, hml, hbit, hbnd, ?_, ?_, ?_, ?_, ?_, ?_, ?_, ?_, ?_, ?_,
    ?_, ?_⟩
  · simp
  · rw [recount_edges_length]
  · rw [recount_pairs_length]
  · simp
  · simp
  · intro row hrow
    rw [List.mem_map] at hrow
    obtain ⟨r, _, he⟩ := hrow
    rw [← he]
    exact canonical_row_length _ _
  · intro row hrow
    rw [List.mem_map] at hrow
    obtain ⟨r, _, he⟩ := hrow
    rw [← he]
    exact canonical_row_length _ _
  · intro r hr
    rw [getD_map_range_nat _ _ _ hr]
    have := List.length_filter_le (fun u => (masks.getD u 0).testBit r)
      (List.range net.num_nodes)
    simpa using this
  · intro r hr
    rw [getD_map_range_row _ _ _ hr, getD_map_range_nat _ _ _ hr]
    exact rosterOk_canonical net.num_nodes _
  · intro r hr
    rw [getD_map_range_row _ _ _ hr, getD_map_range_nat _ _ _ hr]
    have hs := hsum (fun u => (masks.getD u 0).testBit r)
    have hcan := rosterOk_canonical net.num_nodes (fun u => !(masks.getD u 0).testBit r)
    have hlen : ((List.range net.num_nodes).filter
        (fun u => !(masks.getD u 0).testBit r)).length
      = net.num_nodes - ((List.range net.num_nodes).filter
          (fun u => (masks.getD u 0).testBit r)).length := by
      omega
    rw [← hlen]
    exact hcan
  · exact recount_edges_eq_ideal net masks ng hngN h1 hnet
      (fun v hv => hbit _ (getD_mem_of_lt _ _ _ (by omega)))
  · exact recount_pairs_eq_ideal net.num_nodes masks ng hngN h1
      (fun v hv => hbit _ (getD_mem_of_lt _ _ _ (by omega)))
/-! ## `set2` / `get2` toolkit (roster tables over `Int`) -/

theorem set2_oob (t : List (List Int)) (r c : Nat) (v : Int) (h : t.length ≤ r) :
    set2 t r c v = t := by
  rw [set2, List.set_eq_of_length_le h]

theorem set2_set2 (t : List (List Int)) (r c : Nat) (v1 v2 : Int) :
    set2 (set2 t r c v1) r c v2 = set2 t r c v2 := by
  by_cases h : r < t.length
  · rw [set2, set2, set2, List.set_set]
    congr 1
    rw [getD_set_self_g _ _ _ _ h, List.set_set]
  · have h1 := set2_oob t r c v1 (by omega)
    have h2 := set2_oob t r c v2 (by omega)
    rw [h1, h2]

theorem set2_get2_self (t : List (List Int)) (r c : Nat) :
    set2 t r c (get2 t r c) = t := by
  by_cases h : r < t.length
  · rw [set2, get2]
    by_cases h2 : c < (t.getD r []).length
    · rw [set_getD_self_g _ _ _ h2, set_getD_self_g _ _ _ h]
    · rw [show (t.getD r []).set c ((t.getD r []).getD c (-1)) = t.getD r []
          from List.set_eq_of_length_le (by omega), set_getD_self_g _ _ _ h]
  · exact set2_oob _ _ _ _ (by omega)

theorem set2_length (t : List (List Int)) (r c : Nat) (v : Int) :
    (set2 t r c v).length = t.length := by
  rw [set2, List.length_set]

theorem getD_set2_self_row (t : List (List Int)) (r c : Nat) (v : Int)
    (h : r < t.length) :
    (set2 t r c v).getD r [] = (t.getD r []).set c v :=
  getD_set_self_g _ _ _ _ h

theorem getD_set2_ne_row (t : List (List Int)) (r r2 c : Nat) (v : Int) (h : r ≠ r2) :
    (set2 t r c v).getD r2 [] = t.getD r2 [] :=
  getD_set_ne_g _ _ _ _ _ h

theorem set2_row_length (t : List (List Int)) (r c : Nat) (v : Int) (r2 : Nat) :
    ((set2 t r c v).getD r2 []).length = (t.getD r2 []).length := by
  by_cases h : r = r2
  · subst h
    by_cases h2 : r < t.length
    · rw [getD_set2_self_row _ _ _ _ h2, List.length_set]
    · rw [set2_oob _ _ _ _ (by omega)]
  · rw [getD_set2_ne_row _ _ _ _ _ h]

theorem getD_row_set_ne (row : List Int) (c c2 : Nat) (v : Int) (h : c ≠ c2) :
    (row.set c v).getD c2 (-1) = row.getD c2 (-1) :=
  getD_set_ne_g _ _ _ _ _ h

/-! ## Exact rollback of rejected population moves -/

theorem update_hcg_props_skeleton (s : HierarchicalModel) (u old : Nat) :
    (s.update_hcg_props u old).network = s.network
    ∧ (s.update_hcg_props u old).max_groups = s.max_groups
    ∧ (s.update_hcg_props u old).num_groups = s.num_groups
    ∧ (s.update_hcg_props u old).groups = s.groups
    ∧ (s.update_hcg_props u old).group_size = s.group_size
    ∧ (s.update_hcg_props u old).nodes_in = s.nodes_in
    ∧ (s.update_hcg_props u old).nodes_out = s.nodes_out :=
  ⟨rfl, rfl, rfl, rfl, rfl, rfl, rfl⟩

/-- A rejected `remove_node_from_group_by_idx` is rolled back exactly: all
scalar state returns to the pre-move value, `nodes_in` is restored verbatim,
and `nodes_out` differs only in the scratch cell just beyond its valid
prefix. -/
theorem rollback_remove_node (s : HierarchicalModel) (hwf : s.WF) (g idx : Nat)
    (hg1 : 1 ≤ g) (hg : g < s.num_groups)
    (hidx : idx < s.group_size.getD g 0) :
    ∀ node old_state,
      node = (get2 s.nodes_in g idx).toNat
      → old_state = s.groups.getD node 0
      → (((s.remove_node_from_group_by_idx g idx).1.update_hcg_props node
            old_state).revert_move
          (Move.RemoveNodeFromGroup g node idx old_state)).groups = s.groups
        ∧ (((s.remove_node_from_group_by_idx g idx).1.update_hcg_props node
            old_state).revert_move
          (Move.RemoveNodeFromGroup g node idx old_state)).group_size = s.group_size
        ∧ (((s.remove_node_from_group_by_idx g idx).1.update_hcg_props node
            old_state).revert_move
          (Move.RemoveNodeFromGroup g node idx old_state)).nodes_in = s.nodes_in
        ∧ (((s.remove_node_from_group_by_idx g idx).1.update_hcg_props node
            old_state).revert_move
          (Move.RemoveNodeFromGroup g node idx old_state)).nodes_out
          = set2 s.nodes_out g
              (s.network.num_nodes - s.group_size.getD g 0) (-1)
        ∧ (((s.remove_node_from_group_by_idx g idx).1.update_hcg_props node
            old_state).revert_move
          (Move.RemoveNodeFromGroup g node idx old_state)).num_groups = s.num_groups
        ∧ (((s.remove_node_from_group_by_idx g idx).1.update_hcg_props node
            old_state).revert_move
          (Move.RemoveNodeFromGroup g node idx old_state)).network = s.network
        ∧ (((s.remove_node_from_group_by_idx g idx).1.update_hcg_props node
            old_state).revert_move
          (Move.RemoveNodeFromGroup g node idx old_state)).max_groups
          = s.max_groups := by
  intro node old_state hnode hold
  obtain ⟨u, huN, hue, hub⟩ := (hwf.in_ok g hg).1 idx hidx
  have hnodeu : node = u := by
    rw [hnode, get2, hue]
    rfl
  subst hnodeu
  have hbitg : (s.groups.getD node 0).testBit g = true := hub
  have hge : 2 ^ g ≤ s.groups.getD node 0 := Nat.testBit_implies_ge hbitg
  have hlenG : node < s.groups.length := by
    rw [hwf.len_groups]
    exact huN
  have hlenS : g < s.group_size.length := by
    rw [hwf.len_gs]
    exact hg
  -- the components of the moved state
  have hm : s.remove_node_from_group_by_idx g idx
      = ({ s with
            nodes_in := set2 s.nodes_in g idx
              (get2 s.nodes_in g (s.group_size.getD g 0 - 1)),
            nodes_out := set2 s.nodes_out g
              (s.network.num_nodes - s.group_size.getD g 0) (Int.ofNat node),
            groups := s.groups.set node (u64_sub (s.groups.getD node 0) (2 ^ g)),
            group_size := s.group_size.set g (s.group_size.getD g 0 - 1) },
         Move.RemoveNodeFromGroup g node idx (s.groups.getD node 0)) := by
    rw [HierarchicalModel.remove_node_from_group_by_idx]
    rw [← hnode]
  have hgs : (s.group_size.set g (s.group_size.getD g 0 - 1)).set g
      ((s.group_size.set g (s.group_size.getD g 0 - 1)).getD g 0 + 1) = s.group_size := by
    rw [getD_set_self_g _ _ _ _ hlenS, List.set_set]
    have h9 : s.group_size.getD g 0 - 1 + 1 = s.group_size.getD g 0 := by omega
    rw [h9, set_getD_self_g _ _ _ hlenS]
  rw [hm, HierarchicalModel.update_hcg_props, HierarchicalModel.revert_move]
  simp only []
  refine ⟨?_, ?_, ?_, ?_, trivial, trivial, trivial⟩
  · -- groups
    rw [getD_set_self _ _ _ hlenG, List.set_set]
    have hng64 : s.num_groups ≤ 64 := le_trans hwf.ng_le hwf.max64
    have hmlt : s.groups.getD node 0 < 2 ^ 64 :=
      lt_of_lt_of_le (hwf.bounded _ (getD_mem_of_lt _ _ _ hlenG))
        (Nat.pow_le_pow_right (by norm_num) hng64)
    have h9 : u64_add (u64_sub (s.groups.getD node 0) (2 ^ g)) (2 ^ g)
        = s.groups.getD node 0 :=
      u64_sub_add_cancel _ _ hmlt (Nat.pow_le_pow_right (by norm_num) (by omega))
    rw [h9, set_getD_self _ _ hlenG]
  · -- group_size
    exact hgs
  · -- nodes_in
    rw [set2_set2, ← hue, ← get2, set2_get2_self]
  · -- nodes_out
    rw [hgs, set2_set2]

/-- A rejected `add_node_to_group_by_idx` is rolled back exactly: all scalar
state returns to the pre-move value, `nodes_out` is restored verbatim, and
`nodes_in` differs only in the scratch cell just beyond its valid prefix. -/
theorem rollback_add_node (s : HierarchicalModel) (hwf : s.WF) (g idx : Nat)
    (hg1 : 1 ≤ g) (hg : g < s.num_groups)
    (hsz : s.group_size.getD g 0 ≠ s.network.num_nodes)
    (hidx : idx < s.network.num_nodes - s.group_size.getD g 0) :
    ∀ node old_state,
      node = (get2 s.nodes_out g idx).toNat
      → old_state = s.groups.getD node 0
      → (((s.add_node_to_group_by_idx g idx).1.update_hcg_props node
            old_state).revert_move
          (Move.AddNodeToGroup g node idx old_state)).groups = s.groups
        ∧ (((s.add_node_to_group_by_idx g idx).1.update_hcg_props node
            old_state).revert_move
          (Move.AddNodeToGroup g node idx old_state)).group_size = s.group_size
        ∧ (((s.add_node_to_group_by_idx g idx).1.update_hcg_props node
            old_state).revert_move
          (Move.AddNodeToGroup g node idx old_state)).nodes_out = s.nodes_out
        ∧ (((s.add_node_to_group_by_idx g idx).1.update_hcg_props node
            old_state).revert_move
          (Move.AddNodeToGroup g node idx old_state)).nodes_in
          = set2 s.nodes_in g (s.group_size.getD g 0) (-1)
        ∧ (((s.add_node_to_group_by_idx g idx).1.update_hcg_props node
            old_state).revert_move
          (Move.AddNodeToGroup g node idx old_state)).num_groups = s.num_groups
        ∧ (((s.add_node_to_group_by_idx g idx).1.update_hcg_props node
            old_state).revert_move
          (Move.AddNodeToGroup g node idx old_state)).network = s.network
        ∧ (((s.add_node_to_group_by_idx g idx).1.update_hcg_props node
            old_state).revert_move
          (Move.AddNodeToGroup g node idx old_state)).max_groups = s.max_groups := by
  intro node old_state hnode hold
  obtain ⟨u, huN, hue, hub⟩ := (hwf.out_ok g hg).1 idx hidx
  have hnodeu : node = u := by
    rw [hnode, get2, hue]
    rfl
  subst hnodeu
  have hlenG : node < s.groups.length := by
    rw [hwf.len_groups]
    exact huN
  have hlenS : g < s.group_size.length := by
    rw [hwf.len_gs]
    exact hg
  have hm : s.add_node_to_group_by_idx g idx
      = ({ s with
            nodes_in := set2 s.nodes_in g (s.group_size.getD g 0) (Int.ofNat node),
            nodes_out := set2 s.nodes_out g idx
              (get2 s.nodes_out g (s.network.num_nodes - s.group_size.getD g 0 - 1)),
            groups := s.groups.set node (u64_add (s.groups.getD node 0) (2 ^ g)),
            group_size := s.group_size.set g (s.group_size.getD g 0 + 1) },
         Move.AddNodeToGroup g node idx (s.groups.getD node 0)) := by
    rw [HierarchicalModel.add_node_to_group_by_idx]
    rw [← hnode]
  have hgs : (s.group_size.set g (s.group_size.getD g 0 + 1)).set g
      ((s.group_size.set g (s.group_size.getD g 0 + 1)).getD g 0 - 1) = s.group_size := by
    rw [getD_set_self_g _ _ _ _ hlenS, List.set_set]
    have h9 : s.group_size.getD g 0 + 1 - 1 = s.group_size.getD g 0 := by omega
    rw [h9, set_getD_self_g _ _ _ hlenS]
  rw [hm, HierarchicalModel.update_hcg_props, HierarchicalModel.revert_move]
  simp only []
  refine ⟨?_, ?_, ?_, ?_, trivial, trivial, trivial⟩
  · -- groups
    rw [getD_set_self _ _ _ hlenG, List.set_set]
    have hng64 : s.num_groups ≤ 64 := le_trans hwf.ng_le hwf.max64
    have hmlt : s.groups.getD node 0 < 2 ^ 64 :=
      lt_of_lt_of_le (hwf.bounded _ (getD_mem_of_lt _ _ _ hlenG))
        (Nat.pow_le_pow_right (by norm_num) hng64)
    have h9 : u64_sub (u64_add (s.groups.getD node 0) (2 ^ g)) (2 ^ g)
        = s.groups.getD node 0 :=
      u64_add_sub_cancel _ _ hmlt (Nat.pow_le_pow_right (by norm_num) (by omega))
    rw [h9, set_getD_self _ _ hlenG]
  · -- group_size
    exact hgs
  · -- nodes_out
    rw [set2_set2, ← hue, ← get2, set2_get2_self]
  · -- nodes_in
    rw [hgs, set2_set2]
/-! ## Invariant transfer and generic index lemmas -/

theorem getD_mem_of_lt_g {α : Type} (l : List α) (i : Nat) (d : α) (h : i < l.length) :
    l.getD i d ∈ l := by
  rw [List.getD_eq_getElem l d h]
  exact List.getElem_mem h

theorem getD_insertIdx_g {α : Type} (l : List α) (g r : Nat) (x d : α)
    (hg : g ≤ l.length) :
    (l.insertIdx g x).getD r d =
      if r < g then l.getD r d else if r = g then x else l.getD (r - 1) d := by
  rcases Nat.lt_trichotomy r g with h1 | h1 | h1
  · rw [if_pos h1]
    have hr : r < l.length := by omega
    have hr2 : r < (l.insertIdx g x).length := by
      rw [List.length_insertIdx _ _ hg]
      omega
    rw [List.getD_eq_getElem _ _ hr, List.getD_eq_getElem _ _ hr2,
      List.getElem_insertIdx_of_lt l x g r h1 hr]
  · subst h1
    have hr2 : r < (l.insertIdx r x).length := by
      rw [List.length_insertIdx _ _ hg]
      omega
    rw [if_neg (lt_irrefl r), if_pos rfl, List.getD_eq_getElem _ _ hr2,
      List.getElem_insertIdx_self l x r hg]
  · have e1 : ¬ r < g := by omega
    have e2 : ¬ r = g := by omega
    rw [if_neg e1, if_neg e2]
    by_cases h2 : r - 1 < l.length
    · have hk : g + (r - 1 - g) < l.length := by omega
      have hr2 : g + (r - 1 - g) + 1 < (l.insertIdx g x).length := by
        rw [List.length_insertIdx _ _ hg]
        omega
      have hD1 : (l.insertIdx g x).getD (g + (r - 1 - g) + 1) d
          = l.getD (g + (r - 1 - g)) d := by
        rw [List.getD_eq_getElem _ _ hr2, List.getD_eq_getElem _ _ hk,
          List.getElem_insertIdx_add_succ l x g (r - 1 - g) hk]
      have hidx : g + (r - 1 - g) + 1 = r := by omega
      have hidx2 : g + (r - 1 - g) = r - 1 := by omega
      rw [hidx, hidx2] at hD1
      exact hD1
    · rw [List.getD_eq_default l d (show l.length ≤ r - 1 by omega),
        List.getD_eq_default (l.insertIdx g x) d
          (by rw [List.length_insertIdx _ _ hg]; omega)]

theorem getD_eraseIdx_g {α : Type} (l : List α) (g r : Nat) (d : α) :
    (l.eraseIdx g).getD r d = if r < g then l.getD r d else l.getD (r + 1) d := by
  rw [List.getD_eq_getElem?_getD, List.getElem?_eraseIdx]
  by_cases h : r < g
  · rw [if_pos h, if_pos h, ← List.getD_eq_getElem?_getD]
  · rw [if_neg h, if_neg h, ← List.getD_eq_getElem?_getD]

theorem getD_map_range_int (n i : Nat) (h : i < n) :
    (((List.range n).map Int.ofNat)).getD i (-1) = Int.ofNat i := by
  rw [List.getD_eq_getElem _ _ (by simpa using h), List.getElem_map, List.getElem_range]

/-- Transfer of the invariant to a state with identical scalar data, counters,
and roster prefixes. -/
theorem WF_transfer (s t : HierarchicalModel)
    (hnet : t.network = s.network) (hmax : t.max_groups = s.max_groups)
    (hng : t.num_groups = s.num_groups)
    (hgroups : t.groups = s.groups) (hgs : t.group_size = s.group_size)
    (he : t.hcg_edges = s.hcg_edges) (hp : t.hcg_pairs = s.hcg_pairs)
    (hinlen : t.nodes_in.length = s.nodes_in.length)
    (houtlen : t.nodes_out.length = s.nodes_out.length)
    (hinrow : ∀ r, (t.nodes_in.getD r []).length = (s.nodes_in.getD r []).length)
    (houtrow : ∀ r, (t.nodes_out.getD r []).length = (s.nodes_out.getD r []).length)
    (hinpre : ∀ r, r < s.num_groups → ∀ i, i < s.group_size.getD r 0 →
      (t.nodes_in.getD r []).getD i (-1) = (s.nodes_in.getD r []).getD i (-1))
    (houtpre : ∀ r, r < s.num_groups →
      ∀ i, i < s.network.num_nodes - s.group_size.getD r 0 →
      (t.nodes_out.getD r []).getD i (-1) = (s.nodes_out.getD r []).getD i (-1))
    (hwf : s.WF) : t.WF := by
  refine ⟨?_, ?_, ?_, ?_, ?_, ?_, ?_, ?_, ?_, ?_, ?_, ?_, ?_, ?_, ?_, ?_, ?_, ?_, ?_, ?_⟩
  · rw [hnet]
    exact hwf.net_ok
  · rw [hnet]
    exact hwf.net_nodup
  · rw [hng]
    exact hwf.ng_pos
  · rw [hng, hmax]
    exact hwf.ng_le
  · rw [hmax]
    exact hwf.max64
  · rw [hgroups, hnet]
    exact hwf.len_groups
  · rw [hgroups]
    exact hwf.bit0
  · rw [hgroups, hng]
    exact hwf.bounded
  · rw [hgs, hng]
    exact hwf.len_gs
  · rw [he, hng]
    exact hwf.len_e
  · rw [hp, hng]
    exact hwf.len_p
  · rw [hinlen, hng]
    exact hwf.len_in
  · rw [houtlen, hng]
    exact hwf.len_out
  · intro row hrow
    rw [hnet]
    have hl : t.nodes_in.length = s.num_groups := by
      rw [hinlen]
      exact hwf.len_in
    obtain ⟨r, hr, he2⟩ := List.mem_iff_getElem.mp hrow
    have : row = t.nodes_in.getD r [] := by
      rw [List.getD_eq_getElem _ _ hr, he2]
    rw [this, hinrow r]
    exact hwf.rowlen_in _ (getD_mem_of_lt_g _ _ _ (by omega))
  · intro row hrow
    rw [hnet]
    have hl : t.nodes_out.length = s.num_groups := by
      rw [houtlen]
      exact hwf.len_out
    obtain ⟨r, hr, he2⟩ := List.mem_iff_getElem.mp hrow
    have : row = t.nodes_out.getD r [] := by
      rw [List.getD_eq_getElem _ _ hr, he2]
    rw [this, houtrow r]
    exact hwf.rowlen_out _ (getD_mem_of_lt_g _ _ _ (by omega))
  · intro r hr
    rw [hng] at hr
    rw [hgs, hnet]
    exact hwf.size_le r hr
  · intro r hr
    rw [hng] at hr
    rw [hgs, hnet, hgroups]
    exact rosterOk_of_prefix _ _ _ _ _ (hwf.in_ok r hr) (hinpre r hr)
  · intro r hr
    rw [hng] at hr
    rw [hgs, hnet, hgroups]
    exact rosterOk_of_prefix _ _ _ _ _ (hwf.out_ok r hr) (houtpre r hr)
  · rw [he, hnet, hgroups, hng]
    exact hwf.edges_ok
  · rw [hp, hnet, hgroups, hng]
    exact hwf.pairs_ok
/-! ## Toggling a single mask bit -/


/-! ## Invariant preservation: accepted population moves -/

theorem WF_add_node (s : HierarchicalModel) (hwf : s.WF) (g idx : Nat)
    (hngN : s.num_groups ≤ 63 ∨ s.network.num_nodes ≤ 1)
    (hg1 : 1 ≤ g) (hg : g < s.num_groups)
    (hsz : s.group_size.getD g 0 ≠ s.network.num_nodes)
    (hidx : idx < s.network.num_nodes - s.group_size.getD g 0) :
    ∀ node old_state, node = (get2 s.nodes_out g idx).toNat
      → old_state = s.groups.getD node 0
      → ((s.add_node_to_group_by_idx g idx).1.update_hcg_props node old_state).WF := by
  intro node old_state hnode hold
  subst hold
  obtain ⟨u, huN, hue, hub⟩ := (hwf.out_ok g hg).1 idx hidx
  have hnodeu : node = u := by
    rw [hnode, get2, hue]
    rfl
  subst hnodeu
  simp only [Bool.not_eq_true'] at hub
  have hbitg : (s.groups.getD node 0).testBit g = false := hub
  have hlenG : node < s.groups.length := by
    rw [hwf.len_groups]
    exact huN
  have hlenS : g < s.group_size.length := by
    rw [hwf.len_gs]
    exact hg
  have hlenI : g < s.nodes_in.length := by
    rw [hwf.len_in]
    exact hg
  have hlenO : g < s.nodes_out.length := by
    rw [hwf.len_out]
    exact hg
  have hszle : s.group_size.getD g 0 ≤ s.network.num_nodes := hwf.size_le g hg
  have hrowI : (s.nodes_in.getD g []).length = s.network.num_nodes :=
    hwf.rowlen_in _ (getD_mem_of_lt_g _ _ _ hlenI)
  -- the moved state, component by component
  have hng64 : s.num_groups ≤ 64 := le_trans hwf.ng_le hwf.max64
  have hmlt : s.groups.getD node 0 < 2 ^ 64 :=
    lt_of_lt_of_le (hwf.bounded _ (getD_mem_of_lt _ _ _ hlenG))
      (Nat.pow_le_pow_right (by norm_num) hng64)
  have hadd : s.groups.getD node 0 + 2 ^ g < 2 ^ 64 :=
    add_two_pow_lt _ g 64 hmlt (by omega) hbitg
  have hs1g : (s.add_node_to_group_by_idx g idx).1.groups
      = s.groups.set node (s.groups.getD node 0 + 2 ^ g) := by
    rw [HierarchicalModel.add_node_to_group_by_idx, ← hnode, u64_add_eq _ _ hadd]
  have hs1gs : (s.add_node_to_group_by_idx g idx).1.group_size
      = s.group_size.set g (s.group_size.getD g 0 + 1) := rfl
  have hs1in : (s.add_node_to_group_by_idx g idx).1.nodes_in
      = set2 s.nodes_in g (s.group_size.getD g 0) (Int.ofNat node) := by
    rw [HierarchicalModel.add_node_to_group_by_idx, ← hnode]
  have hs1out : (s.add_node_to_group_by_idx g idx).1.nodes_out
      = set2 s.nodes_out g idx
          (get2 s.nodes_out g (s.network.num_nodes - s.group_size.getD g 0 - 1)) := rfl
  have hbit1 : ∀ m ∈ (s.add_node_to_group_by_idx g idx).1.groups, m % 2 = 1 := by
    rw [hs1g]
    intro m hmem
    rcases List.mem_or_eq_of_mem_set hmem with h2 | h2
    · exact hwf.bit0 m h2
    · rw [h2]
      exact toggled_parity_add _ g hg1 (hwf.bit0 _ (getD_mem_of_lt _ _ _ hlenG))
  have hbnd1 : ∀ m ∈ (s.add_node_to_group_by_idx g idx).1.groups,
      m < 2 ^ s.num_groups := by
    rw [hs1g]
    intro m hmem
    rcases List.mem_or_eq_of_mem_set hmem with h2 | h2
    · exact hwf.bounded m h2
    · rw [h2]
      exact add_two_pow_lt _ g _ (hwf.bounded _ (getD_mem_of_lt _ _ _ hlenG)) hg hbitg
  have hrt : (s.add_node_to_group_by_idx g idx).1.groups.set node (s.groups.getD node 0)
      = s.groups := by
    rw [hs1g, List.set_set, set_getD_self _ _ hlenG]
  have hmem0 : ∀ v, v < s.network.num_nodes → s.groups.getD v 0 % 2 = 1 := by
    intro v hv
    exact hwf.bit0 _ (getD_mem_of_lt _ _ _ (by rw [hwf.len_groups]; omega))
  have hedges0 : s.hcg_edges = recount_edges s.network s.groups s.num_groups := by
    rw [hwf.edges_ok, recount_edges_eq_ideal s.network s.groups s.num_groups hngN
      hwf.ng_pos hwf.net_ok hmem0]
  have hpairs0 : s.hcg_pairs
      = recount_pairs s.network.num_nodes s.groups s.num_groups := by
    rw [hwf.pairs_ok, recount_pairs_eq_ideal s.network.num_nodes s.groups s.num_groups
      hngN hwf.ng_pos hmem0]
  have hrec := update_hcg_props_recount_or (s.add_node_to_group_by_idx g idx).1 node
    (s.groups.getD node 0) hwf.ng_pos hngN huN
    (by rw [hs1g, List.length_set]; exact hwf.len_groups) hbit1
    (hwf.bit0 _ (getD_mem_of_lt _ _ _ hlenG))
    hwf.net_ok (by rw [hrt]; exact hedges0) (by rw [hrt]; exact hpairs0)
  -- abbreviations for the final state
  have hsk := update_hcg_props_skeleton (s.add_node_to_group_by_idx g idx).1 node
    (s.groups.getD node 0)
  have htg := hsk.2.2.2.1.trans hs1g
  have htgs := hsk.2.2.2.2.1.trans hs1gs
  have htin := hsk.2.2.2.2.2.1.trans hs1in
  have htout := hsk.2.2.2.2.2.2.trans hs1out
  have htnet : ((s.add_node_to_group_by_idx g idx).1.update_hcg_props node
      (s.groups.getD node 0)).network = s.network := hsk.1
  have htmax : ((s.add_node_to_group_by_idx g idx).1.update_hcg_props node
      (s.groups.getD node 0)).max_groups = s.max_groups := hsk.2.1
  have htng : ((s.add_node_to_group_by_idx g idx).1.update_hcg_props node
      (s.groups.getD node 0)).num_groups = s.num_groups := hsk.2.2.1
  refine ⟨?_, ?_, ?_, ?_, ?_, ?_, ?_, ?_, ?_, ?_, ?_, ?_, ?_, ?_, ?_, ?_, ?_, ?_, ?_, ?_⟩
  · rw [htnet]
    exact hwf.net_ok
  · rw [htnet]
    exact hwf.net_nodup
  · rw [htng]
    exact hwf.ng_pos
  · rw [htng, htmax]
    exact hwf.ng_le
  · rw [htmax]
    exact hwf.max64
  · rw [htg, htnet, List.length_set]
    exact hwf.len_groups
  · rw [htg]
    rw [hs1g] at hbit1
    exact hbit1
  · rw [htg, htng]
    rw [hs1g] at hbnd1
    exact hbnd1
  · rw [htgs, htng, List.length_set]
    exact hwf.len_gs
  · rw [hrec.2, htng, recount_edges_length]
    exact rfl
  · rw [hrec.1, htng, recount_pairs_length]
    exact rfl
  · rw [htin, htng, set2_length]
    exact hwf.len_in
  · rw [htout, htng, set2_length]
    exact hwf.len_out
  · rw [htin, htnet]
    intro row hrow
    rw [set2] at hrow
    rcases List.mem_or_eq_of_mem_set hrow with h2 | h2
    · exact hwf.rowlen_in row h2
    · rw [h2, List.length_set]
      exact hrowI
  · rw [htout, htnet]
    intro row hrow
    rw [set2] at hrow
    rcases List.mem_or_eq_of_mem_set hrow with h2 | h2
    · exact hwf.rowlen_out row h2
    · rw [h2, List.length_set]
      exact hwf.rowlen_out _ (getD_mem_of_lt_g _ _ _ hlenO)
  · rw [htgs, htng, htnet]
    intro r hr
    by_cases hrg : r = g
    · subst hrg
      rw [getD_set_self _ _ _ hlenS]
      omega
    · rw [getD_set_ne _ _ _ _ (fun he => hrg he.symm)]
      exact hwf.size_le r hr
  · rw [htin, htgs, htg, htng, htnet]
    intro r hr
    by_cases hrg : r = g
    · subst hrg
      rw [getD_set2_self_row _ _ _ _ hlenI, getD_set_self _ _ _ hlenS]
      refine rosterOk_push _ _ _ node _ _ (hwf.in_ok r hr) (by omega) huN hbitg ?_
      intro v hv
      by_cases hvn : v = node
      · subst hvn
        rw [getD_set_self _ _ _ hlenG, testBit_add_two_pow _ _ _ hbitg, if_pos rfl]
        simp
      · rw [getD_set_ne _ _ _ _ (fun he => hvn he.symm)]
        simp [hvn]
    · rw [getD_set2_ne_row _ _ _ _ _ (fun he => hrg he.symm),
        getD_set_ne _ _ _ _ (fun he => hrg he.symm)]
      refine rosterOk_congr _ _ _ _ _ (hwf.in_ok r hr) ?_
      intro v hv
      by_cases hvn : v = node
      · subst hvn
        rw [getD_set_self _ _ _ hlenG, testBit_add_two_pow _ _ _ hbitg, if_neg hrg]
      · rw [getD_set_ne _ _ _ _ (fun he => hvn he.symm)]
  · rw [htout, htgs, htg, htng, htnet]
    intro r hr
    by_cases hrg : r = g
    · subst hrg
      rw [getD_set2_self_row _ _ _ _ hlenO, getD_set_self _ _ _ hlenS,
        show s.network.num_nodes - (s.group_size.getD r 0 + 1)
          = s.network.num_nodes - s.group_size.getD r 0 - 1 by omega]
      refine rosterOk_swapdel _ _ _ node _ _ _ (hwf.out_ok r hr) hidx hue ?_
      intro v hv
      by_cases hvn : v = node
      · subst hvn
        rw [getD_set_self _ _ _ hlenG, testBit_add_two_pow _ _ _ hbitg, if_pos rfl]
        simp
      · rw [getD_set_ne _ _ _ _ (fun he => hvn he.symm)]
        simp [hvn]
    · rw [getD_set2_ne_row _ _ _ _ _ (fun he => hrg he.symm),
        getD_set_ne _ _ _ _ (fun he => hrg he.symm)]
      refine rosterOk_congr _ _ _ _ _ (hwf.out_ok r hr) ?_
      intro v hv
      by_cases hvn : v = node
      · subst hvn
        rw [getD_set_self _ _ _ hlenG, testBit_add_two_pow _ _ _ hbitg, if_neg hrg]
      · rw [getD_set_ne _ _ _ _ (fun he => hvn he.symm)]
  · rw [htnet, htng, htg]
    have hmem1 : ∀ v, v < s.network.num_nodes
        → (s.add_node_to_group_by_idx g idx).1.groups.getD v 0 % 2 = 1 := by
      intro v hv
      refine hbit1 _ (getD_mem_of_lt _ _ _ ?_)
      rw [hs1g, List.length_set, hwf.len_groups]
      omega
    rw [hs1g] at hmem1
    rw [← recount_edges_eq_ideal _ _ _ hngN hwf.ng_pos hwf.net_ok hmem1, ← hs1g]
    exact hrec.2
  · rw [htnet, htng, htg]
    have hmem1 : ∀ v, v < s.network.num_nodes
        → (s.add_node_to_group_by_idx g idx).1.groups.getD v 0 % 2 = 1 := by
      intro v hv
      refine hbit1 _ (getD_mem_of_lt _ _ _ ?_)
      rw [hs1g, List.length_set, hwf.len_groups]
      omega
    rw [hs1g] at hmem1
    rw [← recount_pairs_eq_ideal _ _ _ hngN hwf.ng_pos hmem1, ← hs1g]
    exact hrec.1

theorem WF_remove_node (s : HierarchicalModel) (hwf : s.WF) (g idx : Nat)
    (hngN : s.num_groups ≤ 63 ∨ s.network.num_nodes ≤ 1)
    (hg1 : 1 ≤ g) (hg : g < s.num_groups)
    (hsz0 : s.group_size.getD g 0 ≠ 0)
    (hidx : idx < s.group_size.getD g 0) :
    ∀ node old_state, node = (get2 s.nodes_in g idx).toNat
      → old_state = s.groups.getD node 0
      → ((s.remove_node_from_group_by_idx g idx).1.update_hcg_props node old_state).WF := by
  intro node old_state hnode hold
  subst hold
  obtain ⟨u, huN, hue, hub⟩ := (hwf.in_ok g hg).1 idx hidx
  have hnodeu : node = u := by
    rw [hnode, get2, hue]
    rfl
  subst hnodeu
  have hbitg : (s.groups.getD node 0).testBit g = true := hub
  have hlenG : node < s.groups.length := by
    rw [hwf.len_groups]
    exact huN
  have hlenS : g < s.group_size.length := by
    rw [hwf.len_gs]
    exact hg
  have hlenI : g < s.nodes_in.length := by
    rw [hwf.len_in]
    exact hg
  have hlenO : g < s.nodes_out.length := by
    rw [hwf.len_out]
    exact hg
  have hszle : s.group_size.getD g 0 ≤ s.network.num_nodes := hwf.size_le g hg
  have hrowO : (s.nodes_out.getD g []).length = s.network.num_nodes :=
    hwf.rowlen_out _ (getD_mem_of_lt_g _ _ _ hlenO)
  have hng64 : s.num_groups ≤ 64 := le_trans hwf.ng_le hwf.max64
  have hmlt : s.groups.getD node 0 < 2 ^ 64 :=
    lt_of_lt_of_le (hwf.bounded _ (getD_mem_of_lt _ _ _ hlenG))
      (Nat.pow_le_pow_right (by norm_num) hng64)
  have hs1g : (s.remove_node_from_group_by_idx g idx).1.groups
      = s.groups.set node (s.groups.getD node 0 - 2 ^ g) := by
    rw [HierarchicalModel.remove_node_from_group_by_idx, ← hnode,
      u64_sub_eq _ _ (Nat.testBit_implies_ge hbitg) hmlt]
  have hs1gs : (s.remove_node_from_group_by_idx g idx).1.group_size
      = s.group_size.set g (s.group_size.getD g 0 - 1) := rfl
  have hs1in : (s.remove_node_from_group_by_idx g idx).1.nodes_in
      = set2 s.nodes_in g idx (get2 s.nodes_in g (s.group_size.getD g 0 - 1)) := rfl
  have hs1out : (s.remove_node_from_group_by_idx g idx).1.nodes_out
      = set2 s.nodes_out g (s.network.num_nodes - s.group_size.getD g 0)
          (Int.ofNat node) := by
    rw [HierarchicalModel.remove_node_from_group_by_idx, ← hnode]
  have hbit1 : ∀ m ∈ (s.remove_node_from_group_by_idx g idx).1.groups, m % 2 = 1 := by
    rw [hs1g]
    intro m hmem
    rcases List.mem_or_eq_of_mem_set hmem with h2 | h2
    · exact hwf.bit0 m h2
    · rw [h2]
      exact toggled_parity_remove _ g hg1 hbitg (hwf.bit0 _ (getD_mem_of_lt _ _ _ hlenG))
  have hbnd1 : ∀ m ∈ (s.remove_node_from_group_by_idx g idx).1.groups,
      m < 2 ^ s.num_groups := by
    rw [hs1g]
    intro m hmem
    rcases List.mem_or_eq_of_mem_set hmem with h2 | h2
    · exact hwf.bounded m h2
    · rw [h2]
      exact lt_of_le_of_lt (Nat.sub_le _ _)
        (hwf.bounded _ (getD_mem_of_lt _ _ _ hlenG))
  have hrt : (s.remove_node_from_group_by_idx g idx).1.groups.set node
      (s.groups.getD node 0) = s.groups := by
    rw [hs1g, List.set_set, set_getD_self _ _ hlenG]
  have hmem0 : ∀ v, v < s.network.num_nodes → s.groups.getD v 0 % 2 = 1 := by
    intro v hv
    exact hwf.bit0 _ (getD_mem_of_lt _ _ _ (by rw [hwf.len_groups]; omega))
  have hedges0 : s.hcg_edges = recount_edges s.network s.groups s.num_groups := by
    rw [hwf.edges_ok, recount_edges_eq_ideal s.network s.groups s.num_groups hngN
      hwf.ng_pos hwf.net_ok hmem0]
  have hpairs0 : s.hcg_pairs
      = recount_pairs s.network.num_nodes s.groups s.num_groups := by
    rw [hwf.pairs_ok, recount_pairs_eq_ideal s.network.num_nodes s.groups s.num_groups
      hngN hwf.ng_pos hmem0]
  have hrec := update_hcg_props_recount_or (s.remove_node_from_group_by_idx g idx).1 node
    (s.groups.getD node 0) hwf.ng_pos hngN huN
    (by rw [hs1g, List.length_set]; exact hwf.len_groups) hbit1
    (hwf.bit0 _ (getD_mem_of_lt _ _ _ hlenG))
    hwf.net_ok (by rw [hrt]; exact hedges0) (by rw [hrt]; exact hpairs0)
  have hsk := update_hcg_props_skeleton (s.remove_node_from_group_by_idx g idx).1 node
    (s.groups.getD node 0)
  have htg := hsk.2.2.2.1.trans hs1g
  have htgs := hsk.2.2.2.2.1.trans hs1gs
  have htin := hsk.2.2.2.2.2.1.trans hs1in
  have htout := hsk.2.2.2.2.2.2.trans hs1out
  have htnet : ((s.remove_node_from_group_by_idx g idx).1.update_hcg_props node
      (s.groups.getD node 0)).network = s.network := hsk.1
  have htmax : ((s.remove_node_from_group_by_idx g idx).1.update_hcg_props node
      (s.groups.getD node 0)).max_groups = s.max_groups := hsk.2.1
  have htng : ((s.remove_node_from_group_by_idx g idx).1.update_hcg_props node
      (s.groups.getD node 0)).num_groups = s.num_groups := hsk.2.2.1
  refine ⟨?_, ?_, ?_, ?_, ?_, ?_, ?_, ?_, ?_, ?_, ?_, ?_, ?_, ?_, ?_, ?_, ?_, ?_, ?_, ?_⟩
  · rw [htnet]
    exact hwf.net_ok
  · rw [htnet]
    exact hwf.net_nodup
  · rw [htng]
    exact hwf.ng_pos
  · rw [htng, htmax]
    exact hwf.ng_le
  · rw [htmax]
    exact hwf.max64
  · rw [htg, htnet, List.length_set]
    exact hwf.len_groups
  · rw [htg]
    rw [hs1g] at hbit1
    exact hbit1
  · rw [htg, htng]
    rw [hs1g] at hbnd1
    exact hbnd1
  · rw [htgs, htng, List.length_set]
    exact hwf.len_gs
  · rw [hrec.2, htng, recount_edges_length]
    exact rfl
  · rw [hrec.1, htng, recount_pairs_length]
    exact rfl
  · rw [htin, htng, set2_length]
    exact hwf.len_in
  · rw [htout, htng, set2_length]
    exact hwf.len_out
  · rw [htin, htnet]
    intro row hrow
    rw [set2] at hrow
    rcases List.mem_or_eq_of_mem_set hrow with h2 | h2
    · exact hwf.rowlen_in row h2
    · rw [h2, List.length_set]
      exact hwf.rowlen_in _ (getD_mem_of_lt_g _ _ _ hlenI)
  · rw [htout, htnet]
    intro row hrow
    rw [set2] at hrow
    rcases List.mem_or_eq_of_mem_set hrow with h2 | h2
    · exact hwf.rowlen_out row h2
    · rw [h2, List.length_set]
      exact hrowO
  · rw [htgs, htng, htnet]
    intro r hr
    by_cases hrg : r = g
    · subst hrg
      rw [getD_set_self _ _ _ hlenS]
      omega
    · rw [getD_set_ne _ _ _ _ (fun he => hrg he.symm)]
      exact hwf.size_le r hr
  · rw [htin, htgs, htg, htng, htnet]
    intro r hr
    by_cases hrg : r = g
    · subst hrg
      rw [getD_set2_self_row _ _ _ _ hlenI, getD_set_self _ _ _ hlenS]
      refine rosterOk_swapdel _ _ _ node _ _ _ (hwf.in_ok r hr) hidx hue ?_
      intro v hv
      by_cases hvn : v = node
      · subst hvn
        rw [getD_set_self _ _ _ hlenG, testBit_sub_two_pow _ _ _ hbitg, if_pos rfl]
        simp
      · rw [getD_set_ne _ _ _ _ (fun he => hvn he.symm)]
        simp [hvn]
    · rw [getD_set2_ne_row _ _ _ _ _ (fun he => hrg he.symm),
        getD_set_ne _ _ _ _ (fun he => hrg he.symm)]
      refine rosterOk_congr _ _ _ _ _ (hwf.in_ok r hr) ?_
      intro v hv
      by_cases hvn : v = node
      · subst hvn
        rw [getD_set_self _ _ _ hlenG, testBit_sub_two_pow _ _ _ hbitg, if_neg hrg]
      · rw [getD_set_ne _ _ _ _ (fun he => hvn he.symm)]
  · rw [htout, htgs, htg, htng, htnet]
    intro r hr
    by_cases hrg : r = g
    · subst hrg
      rw [getD_set2_self_row _ _ _ _ hlenO, getD_set_self _ _ _ hlenS,
        show s.network.num_nodes - (s.group_size.getD r 0 - 1)
          = s.network.num_nodes - s.group_size.getD r 0 + 1 by omega]
      refine rosterOk_push _ _ _ node _ _ (hwf.out_ok r hr) (by omega) huN
        (by simp only [hbitg, Bool.not_true]) ?_
      intro v hv
      by_cases hvn : v = node
      · subst hvn
        rw [getD_set_self _ _ _ hlenG, testBit_sub_two_pow _ _ _ hbitg, if_pos rfl]
        simp
      · rw [getD_set_ne _ _ _ _ (fun he => hvn he.symm)]
        simp [hvn]
    · rw [getD_set2_ne_row _ _ _ _ _ (fun he => hrg he.symm),
        getD_set_ne _ _ _ _ (fun he => hrg he.symm)]
      refine rosterOk_congr _ _ _ _ _ (hwf.out_ok r hr) ?_
      intro v hv
      by_cases hvn : v = node
      · subst hvn
        rw [getD_set_self _ _ _ hlenG, testBit_sub_two_pow _ _ _ hbitg, if_neg hrg]
      · rw [getD_set_ne _ _ _ _ (fun he => hvn he.symm)]
  · rw [htnet, htng, htg]
    have hmem1 : ∀ v, v < s.network.num_nodes
        → (s.remove_node_from_group_by_idx g idx).1.groups.getD v 0 % 2 = 1 := by
      intro v hv
      refine hbit1 _ (getD_mem_of_lt _ _ _ ?_)
      rw [hs1g, List.length_set, hwf.len_groups]
      omega
    rw [hs1g] at hmem1
    rw [← recount_edges_eq_ideal _ _ _ hngN hwf.ng_pos hwf.net_ok hmem1, ← hs1g]
    exact hrec.2
  · rw [htnet, htng, htg]
    have hmem1 : ∀ v, v < s.network.num_nodes
        → (s.remove_node_from_group_by_idx g idx).1.groups.getD v 0 % 2 = 1 := by
      intro v hv
      refine hbit1 _ (getD_mem_of_lt _ _ _ ?_)
      rw [hs1g, List.length_set, hwf.len_groups]
      omega
    rw [hs1g] at hmem1
    rw [← recount_pairs_eq_ideal _ _ _ hngN hwf.ng_pos hmem1, ← hs1g]
    exact hrec.1
/-! ## Invariant preservation: structural moves -/

theorem WF_add_group (s : HierarchicalModel) (hwf : s.WF) (g : Nat)
    (hg1 : 1 ≤ g) (hgle : g ≤ s.num_groups) (hmax : s.num_groups ≠ s.max_groups) :
    ((s.add_group g).1).WF := by
  have hng64 : s.num_groups ≤ 64 := le_trans hwf.ng_le hwf.max64
  have hng64s : s.num_groups + 1 ≤ 64 := by
    have := hwf.ng_le
    have := hwf.max64
    omega
  have hng63 : s.num_groups ≤ 63 := by omega
  have hglen : g ≤ s.group_size.length := by
    rw [hwf.len_gs]
    exact hgle
  have hglenI : g ≤ s.nodes_in.length := by
    rw [hwf.len_in]
    exact hgle
  have hglenO : g ≤ s.nodes_out.length := by
    rw [hwf.len_out]
    exact hgle
  have hglenE : g ≤ s.hcg_edges.length := by
    rw [hwf.len_e]
    exact hgle
  have hglenP : g ≤ s.hcg_pairs.length := by
    rw [hwf.len_p]
    exact hgle
  have hPnew : ∀ r, r ≤ s.num_groups → ∀ u, u < s.network.num_nodes →
      ((s.groups.map (fun m => insert_zero_at m g s.num_groups)).getD u 0).testBit r
        = if r < g then (s.groups.getD u 0).testBit r
          else if r = g then false else (s.groups.getD u 0).testBit (r - 1) := by
    intro r hr u hu
    have hul : u < s.groups.length := by
      rw [hwf.len_groups]
      exact hu
    rw [getD_map_insert _ _ _ _ hul,
      insert_zero_at_testBit _ _ _ (hwf.bounded _ (getD_mem_of_lt _ _ _ hul)) hgle hng63 r]
    rcases Nat.lt_trichotomy r g with h1 | h1 | h1
    · rw [if_pos h1, if_pos h1]
    · subst h1
      rw [if_neg (lt_irrefl r), if_neg (lt_irrefl r), if_pos rfl, if_pos rfl]
    · have e1 : ¬ r < g := by omega
      have e2 : ¬ r = g := by omega
      rw [if_neg e1, if_neg e1, if_neg e2, if_neg e2, if_pos hr]
  refine ⟨hwf.net_ok, hwf.net_nodup, by show 1 ≤ s.num_groups + 1; omega, ?_, hwf.max64,
    ?_, ?_, ?_, ?_, ?_, ?_, ?_, ?_, ?_, ?_, ?_, ?_, ?_, ?_, ?_⟩
  · show s.num_groups + 1 ≤ s.max_groups
    have := hwf.ng_le
    omega
  · show (s.groups.map _).length = s.network.num_nodes
    rw [List.length_map]
    exact hwf.len_groups
  · show ∀ m ∈ s.groups.map (fun m => insert_zero_at m g s.num_groups), m % 2 = 1
    intro m hmem
    rw [List.mem_map] at hmem
    obtain ⟨m0, hm0, he⟩ := hmem
    rw [← he]
    exact insert_zero_at_parity _ _ _ (hwf.bounded _ hm0) (hwf.bit0 _ hm0) hg1 hgle hng63
  · show ∀ m ∈ s.groups.map (fun m => insert_zero_at m g s.num_groups),
      m < 2 ^ (s.num_groups + 1)
    intro m hmem
    rw [List.mem_map] at hmem
    obtain ⟨m0, hm0, he⟩ := hmem
    rw [← he]
    exact insert_zero_at_lt _ _ _ (hwf.bounded _ hm0) hgle hng63
  · show (s.group_size.insertIdx g 0).length = s.num_groups + 1
    rw [List.length_insertIdx _ _ hglen, hwf.len_gs]
  · show (s.hcg_edges.insertIdx g 0).length = s.num_groups + 1
    rw [List.length_insertIdx _ _ hglenE, hwf.len_e]
  · show (s.hcg_pairs.insertIdx g 0).length = s.num_groups + 1
    rw [List.length_insertIdx _ _ hglenP, hwf.len_p]
  · show (s.nodes_in.insertIdx g _).length = s.num_groups + 1
    rw [List.length_insertIdx _ _ hglenI, hwf.len_in]
  · show (s.nodes_out.insertIdx g _).length = s.num_groups + 1
    rw [List.length_insertIdx _ _ hglenO, hwf.len_out]
  · show ∀ row ∈ s.nodes_in.insertIdx g (List.replicate s.network.num_nodes (-1)),
      row.length = s.network.num_nodes
    intro row hrow
    rw [List.mem_insertIdx hglenI] at hrow
    rcases hrow with h | h
    · rw [h, List.length_replicate]
    · exact hwf.rowlen_in row h
  · show ∀ row ∈ s.nodes_out.insertIdx g ((List.range s.network.num_nodes).map Int.ofNat),
      row.length = s.network.num_nodes
    intro row hrow
    rw [List.mem_insertIdx hglenO] at hrow
    rcases hrow with h | h
    · rw [h, List.length_map, List.length_range]
    · exact hwf.rowlen_out row h
  · intro r hr
    have hr2 : r < s.num_groups + 1 := hr
    show (s.group_size.insertIdx g 0).getD r 0 ≤ s.network.num_nodes
    rw [getD_insertIdx_zero _ _ _ hglen]
    rcases Nat.lt_trichotomy r g with h1 | h1 | h1
    · rw [if_pos h1]
      exact hwf.size_le r (by omega)
    · subst h1
      rw [if_neg (lt_irrefl r), if_pos rfl]
      omega
    · have e1 : ¬ r < g := by omega
      have e2 : ¬ r = g := by omega
      rw [if_neg e1, if_neg e2]
      exact hwf.size_le (r - 1) (by omega)
  · intro r hr
    have hr2 : r < s.num_groups + 1 := hr
    show rosterOk ((s.nodes_in.insertIdx g _).getD r [])
      ((s.group_size.insertIdx g 0).getD r 0) s.network.num_nodes
      (fun u => ((s.groups.map (fun m => insert_zero_at m g s.num_groups)).getD u 0).testBit r)
    rw [getD_insertIdx_g _ _ _ _ _ hglenI, getD_insertIdx_zero _ _ _ hglen]
    rcases Nat.lt_trichotomy r g with h1 | h1 | h1
    · rw [if_pos h1, if_pos h1]
      refine rosterOk_congr _ _ _ _ _ (hwf.in_ok r (by omega)) ?_
      intro u hu
      rw [hPnew r (by omega) u hu, if_pos h1]
    · subst h1
      rw [if_neg (lt_irrefl r), if_neg (lt_irrefl r), if_pos rfl, if_pos rfl]
      refine ⟨fun i hi => absurd hi (by omega), ?_, fun i hi j hj _ => by omega⟩
      intro u hu hp
      simp only [] at hp
      rw [hPnew r hgle u hu, if_neg (lt_irrefl r), if_pos rfl] at hp
      exact absurd hp (by simp)
    · have e1 : ¬ r < g := by omega
      have e2 : ¬ r = g := by omega
      rw [if_neg e1, if_neg e2, if_neg e1, if_neg e2]
      refine rosterOk_congr _ _ _ _ _ (hwf.in_ok (r - 1) (by omega)) ?_
      intro u hu
      rw [hPnew r (by omega) u hu, if_neg e1, if_neg e2]
  · intro r hr
    have hr2 : r < s.num_groups + 1 := hr
    show rosterOk ((s.nodes_out.insertIdx g _).getD r [])
      (s.network.num_nodes - (s.group_size.insertIdx g 0).getD r 0)
      s.network.num_nodes
      (fun u => !((s.groups.map (fun m => insert_zero_at m g s.num_groups)).getD u 0).testBit r)
    rw [getD_insertIdx_g _ _ _ _ _ hglenO, getD_insertIdx_zero _ _ _ hglen]
    rcases Nat.lt_trichotomy r g with h1 | h1 | h1
    · rw [if_pos h1, if_pos h1]
      refine rosterOk_congr _ _ _ _ _ (hwf.out_ok r (by omega)) ?_
      intro u hu
      rw [hPnew r (by omega) u hu, if_pos h1]
    · subst h1
      rw [if_neg (lt_irrefl r), if_neg (lt_irrefl r), if_pos rfl, if_pos rfl]
      refine ⟨?_, ?_, ?_⟩
      · intro i hi
        rw [Nat.sub_zero] at hi
        refine ⟨i, hi, getD_map_range_int _ _ hi, ?_⟩
        show (!((s.groups.map (fun m => insert_zero_at m r s.num_groups)).getD i 0).testBit r)
          = true
        rw [hPnew r hgle i hi, if_neg (lt_irrefl r), if_pos rfl]
        rfl
      · intro u hu _
        refine ⟨u, by omega, getD_map_range_int _ _ hu⟩
      · intro i hi j hj he
        rw [Nat.sub_zero] at hi hj
        rw [getD_map_range_int _ _ hi, getD_map_range_int _ _ hj] at he
        exact Int.ofNat.inj he
    · have e1 : ¬ r < g := by omega
      have e2 : ¬ r = g := by omega
      rw [if_neg e1, if_neg e2, if_neg e1, if_neg e2]
      refine rosterOk_congr _ _ _ _ _ (hwf.out_ok (r - 1) (by omega)) ?_
      intro u hu
      rw [hPnew r (by omega) u hu, if_neg e1, if_neg e2]
  · show s.hcg_edges.insertIdx g 0
      = recount_edges_ideal s.network
          (s.groups.map (fun m => insert_zero_at m g s.num_groups)) (s.num_groups + 1)
    rw [recount_edges_insert s.network s.groups s.num_groups g hwf.len_groups hwf.bit0
      hwf.bounded hwf.net_ok hg1 hgle hng64s, hwf.edges_ok]
  · show s.hcg_pairs.insertIdx g 0
      = recount_pairs_ideal s.network.num_nodes
          (s.groups.map (fun m => insert_zero_at m g s.num_groups)) (s.num_groups + 1)
    rw [recount_pairs_insert s.network.num_nodes s.groups s.num_groups g hwf.len_groups
      hwf.bit0 hwf.bounded hg1 hgle hng64s, hwf.pairs_ok]

theorem WF_remove_group (s : HierarchicalModel) (hwf : s.WF) (g : Nat)
    (hng63 : s.num_groups ≤ 63)
    (hg1 : 1 ≤ g) (hg : g < s.num_groups) (hngne : s.num_groups ≠ 1)
    (hempty : s.group_size.getD g 0 = 0) :
    ((s.remove_group g).1).WF := by
  have hng64 : s.num_groups ≤ 64 := le_trans hwf.ng_le hwf.max64
  have hng2 : 2 ≤ s.num_groups := by
    have := hwf.ng_pos
    omega
  have hglen : g < s.group_size.length := by
    rw [hwf.len_gs]
    exact hg
  have hglenI : g < s.nodes_in.length := by
    rw [hwf.len_in]
    exact hg
  have hglenO : g < s.nodes_out.length := by
    rw [hwf.len_out]
    exact hg
  have hglenE : g < s.hcg_edges.length := by
    rw [hwf.len_e]
    exact hg
  have hglenP : g < s.hcg_pairs.length := by
    rw [hwf.len_p]
    exact hg
  have hfree : ∀ m ∈ s.groups, m.testBit g = false := by
    intro m hmem
    obtain ⟨u, hul, he⟩ := List.mem_iff_getElem.mp hmem
    have hgd : s.groups.getD u 0 = m := by
      rw [List.getD_eq_getElem _ _ hul, he]
    by_contra hb
    rw [Bool.not_eq_false] at hb
    obtain ⟨i, hi, _⟩ := (hwf.in_ok g hg).2.1 u
      (by rw [← hwf.len_groups]; exact hul)
      (by show (s.groups.getD u 0).testBit g = true
          rw [hgd]
          exact hb)
    rw [hempty] at hi
    omega
  have hPnew : ∀ r, r < s.num_groups - 1 → ∀ u, u < s.network.num_nodes →
      ((s.groups.map (fun m => remove_bit_at m g s.num_groups)).getD u 0).testBit r
        = if r < g then (s.groups.getD u 0).testBit r
          else (s.groups.getD u 0).testBit (r + 1) := by
    intro r hr u hu
    have hul : u < s.groups.length := by
      rw [hwf.len_groups]
      exact hu
    rw [getD_map_remove _ _ _ _ hul, remove_bit_at_testBit _ _ _ hg hng63 r]
    rcases Nat.lt_or_ge r g with h1 | h1
    · rw [if_pos h1, if_pos h1]
    · have e1 : ¬ r < g := by omega
      rw [if_neg e1, if_neg e1, if_pos (by omega)]
  refine ⟨hwf.net_ok, hwf.net_nodup, by show 1 ≤ s.num_groups - 1; omega, ?_, hwf.max64,
    ?_, ?_, ?_, ?_, ?_, ?_, ?_, ?_, ?_, ?_, ?_, ?_, ?_, ?_, ?_⟩
  · show s.num_groups - 1 ≤ s.max_groups
    have := hwf.ng_le
    omega
  · show (s.groups.map _).length = s.network.num_nodes
    rw [List.length_map]
    exact hwf.len_groups
  · show ∀ m ∈ s.groups.map (fun m => remove_bit_at m g s.num_groups), m % 2 = 1
    intro m hmem
    rw [List.mem_map] at hmem
    obtain ⟨m0, hm0, he⟩ := hmem
    rw [← he]
    exact remove_bit_at_parity _ _ _ (hwf.bit0 _ hm0) hg1 hg hng63
  · show ∀ m ∈ s.groups.map (fun m => remove_bit_at m g s.num_groups),
      m < 2 ^ (s.num_groups - 1)
    intro m hmem
    rw [List.mem_map] at hmem
    obtain ⟨m0, hm0, he⟩ := hmem
    rw [← he]
    exact remove_bit_at_lt _ _ _ hg hng63
  · show (s.group_size.eraseIdx g).length = s.num_groups - 1
    rw [List.length_eraseIdx, if_pos hglen, hwf.len_gs]
  · show (s.hcg_edges.eraseIdx g).length = s.num_groups - 1
    rw [List.length_eraseIdx, if_pos hglenE, hwf.len_e]
  · show (s.hcg_pairs.eraseIdx g).length = s.num_groups - 1
    rw [List.length_eraseIdx, if_pos hglenP, hwf.len_p]
  · show (s.nodes_in.eraseIdx g).length = s.num_groups - 1
    rw [List.length_eraseIdx, if_pos hglenI, hwf.len_in]
  · show (s.nodes_out.eraseIdx g).length = s.num_groups - 1
    rw [List.length_eraseIdx, if_pos hglenO, hwf.len_out]
  · show ∀ row ∈ s.nodes_in.eraseIdx g, row.length = s.network.num_nodes
    intro row hrow
    exact hwf.rowlen_in row ((List.eraseIdx_sublist _ _).subset hrow)
  · show ∀ row ∈ s.nodes_out.eraseIdx g, row.length = s.network.num_nodes
    intro row hrow
    exact hwf.rowlen_out row ((List.eraseIdx_sublist _ _).subset hrow)
  · intro r hr
    have hr2 : r < s.num_groups - 1 := hr
    show (s.group_size.eraseIdx g).getD r 0 ≤ s.network.num_nodes
    rw [getD_eraseIdx_zero]
    by_cases h1 : r < g
    · rw [if_pos h1]
      exact hwf.size_le r (by omega)
    · rw [if_neg h1]
      exact hwf.size_le (r + 1) (by omega)
  · intro r hr
    have hr2 : r < s.num_groups - 1 := hr
    show rosterOk ((s.nodes_in.eraseIdx g).getD r [])
      ((s.group_size.eraseIdx g).getD r 0) s.network.num_nodes
      (fun u => ((s.groups.map (fun m => remove_bit_at m g s.num_groups)).getD u 0).testBit r)
    rw [getD_eraseIdx_g, getD_eraseIdx_zero]
    by_cases h1 : r < g
    · rw [if_pos h1, if_pos h1]
      refine rosterOk_congr _ _ _ _ _ (hwf.in_ok r (by omega)) ?_
      intro u hu
      rw [hPnew r hr2 u hu, if_pos h1]
    · rw [if_neg h1, if_neg h1]
      refine rosterOk_congr _ _ _ _ _ (hwf.in_ok (r + 1) (by omega)) ?_
      intro u hu
      rw [hPnew r hr2 u hu, if_neg h1]
  · intro r hr
    have hr2 : r < s.num_groups - 1 := hr
    show rosterOk ((s.nodes_out.eraseIdx g).getD r [])
      (s.network.num_nodes - (s.group_size.eraseIdx g).getD r 0) s.network.num_nodes
      (fun u => !((s.groups.map (fun m => remove_bit_at m g s.num_groups)).getD u 0).testBit r)
    rw [getD_eraseIdx_g, getD_eraseIdx_zero]
    by_cases h1 : r < g
    · rw [if_pos h1, if_pos h1]
      refine rosterOk_congr _ _ _ _ _ (hwf.out_ok r (by omega)) ?_
      intro u hu
      rw [hPnew r hr2 u hu, if_pos h1]
    · rw [if_neg h1, if_neg h1]
      refine rosterOk_congr _ _ _ _ _ (hwf.out_ok (r + 1) (by omega)) ?_
      intro u hu
      rw [hPnew r hr2 u hu, if_neg h1]
  · show s.hcg_edges.eraseIdx g
      = recount_edges_ideal s.network
          (s.groups.map (fun m => remove_bit_at m g s.num_groups)) (s.num_groups - 1)
    rw [recount_edges_erase s.network s.groups s.num_groups g hwf.len_groups hwf.bit0
      hwf.bounded hfree hwf.net_ok hg1 hg hng63, hwf.edges_ok]
  · show s.hcg_pairs.eraseIdx g
      = recount_pairs_ideal s.network.num_nodes
          (s.groups.map (fun m => remove_bit_at m g s.num_groups)) (s.num_groups - 1)
    rw [recount_pairs_erase s.network.num_nodes s.groups s.num_groups g hwf.len_groups
      hwf.bit0 hwf.bounded hfree hg1 hg hng63, hwf.pairs_ok]
/-! ## Invariant preservation through one full step -/

theorem apply_update_addgroup (s1 : HierarchicalModel) (g : Nat) :
    s1.apply_update (Move.AddGroup g) = s1 := rfl

theorem apply_update_removegroup (s1 : HierarchicalModel) (g : Nat) :
    s1.apply_update (Move.RemoveGroup g) = s1 := rfl

theorem apply_update_removenode (s1 : HierarchicalModel) (g node idx old : Nat) :
    s1.apply_update (Move.RemoveNodeFromGroup g node idx old)
      = s1.update_hcg_props node old := rfl

theorem apply_update_addnode (s1 : HierarchicalModel) (g node idx old : Nat) :
    s1.apply_update (Move.AddNodeToGroup g node idx old)
      = s1.update_hcg_props node old := rfl

theorem remove_node_move_eq (s : HierarchicalModel) (g idx : Nat) :
    (s.remove_node_from_group_by_idx g idx).2
      = Move.RemoveNodeFromGroup g ((get2 s.nodes_in g idx).toNat) idx
          (s.groups.getD ((get2 s.nodes_in g idx).toNat) 0) := rfl

theorem add_node_move_eq (s : HierarchicalModel) (g idx : Nat) :
    (s.add_node_to_group_by_idx g idx).2
      = Move.AddNodeToGroup g ((get2 s.nodes_out g idx).toNat) idx
          (s.groups.getD ((get2 s.nodes_out g idx).toNat) 0) := rfl

open Classical in
theorem get_groups_after_some (s : SamplerState) (s1 : HierarchicalModel) (mv : Move)
    (a : Bool) :
    get_groups_after s (s1, some mv) a
      = if 1 ≤ Real.exp (step_newL s.log_like s1 mv - s.log_like) ∨ a = true then
          ⟨s1.apply_update mv, step_newL s.log_like s1 mv⟩
        else
          ⟨{ (s1.apply_update mv).revert_move mv with
              hcg_edges :=
                s.hm.hcg_edges.take (((s1.apply_update mv).revert_move mv).num_groups),
              hcg_pairs :=
                s.hm.hcg_pairs.take (((s1.apply_update mv).revert_move mv).num_groups) },
            s.log_like⟩ := rfl

/-- Both structural moves keep `new_loglike = log_like`, so
`alpha = exp(0) = 1 ≥ 1` and they are always accepted. -/
theorem structural_accepts (L : ℝ) (a : Bool) : 1 ≤ Real.exp (L - L) ∨ a = true := by
  left
  rw [sub_self, Real.exp_zero]

/-- The rolled-back state with truncated counter snapshots satisfies the
invariant whenever the rollback restored the scalar state and the roster
prefixes (the lone scratch cell sits just beyond a valid prefix). -/
theorem WF_reject_state (s : HierarchicalModel) (hwf : s.WF) (s3 : HierarchicalModel)
    (g : Nat) (hg : g < s.num_groups)
    (hbng : s3.num_groups = s.num_groups)
    (hbnet : s3.network = s.network) (hbmax : s3.max_groups = s.max_groups)
    (hbg : s3.groups = s.groups) (hbgs : s3.group_size = s.group_size)
    (hbin : s3.nodes_in = s.nodes_in
      ∨ s3.nodes_in = set2 s.nodes_in g (s.group_size.getD g 0) (-1))
    (hbout : s3.nodes_out = s.nodes_out
      ∨ s3.nodes_out = set2 s.nodes_out g
          (s.network.num_nodes - s.group_size.getD g 0) (-1)) :
    ({ s3 with hcg_edges := s.hcg_edges.take s3.num_groups,
               hcg_pairs := s.hcg_pairs.take s3.num_groups } : HierarchicalModel).WF := by
  refine WF_transfer s _ ?_ ?_ ?_ ?_ ?_ ?_ ?_ ?_ ?_ ?_ ?_ ?_ ?_ hwf
  · show s3.network = s.network
    exact hbnet
  · show s3.max_groups = s.max_groups
    exact hbmax
  · show s3.num_groups = s.num_groups
    exact hbng
  · show s3.groups = s.groups
    exact hbg
  · show s3.group_size = s.group_size
    exact hbgs
  · show s.hcg_edges.take s3.num_groups = s.hcg_edges
    rw [hbng, List.take_of_length_le (le_of_eq hwf.len_e)]
  · show s.hcg_pairs.take s3.num_groups = s.hcg_pairs
    rw [hbng, List.take_of_length_le (le_of_eq hwf.len_p)]
  · show s3.nodes_in.length = s.nodes_in.length
    rcases hbin with h | h
    · rw [h]
    · rw [h, set2_length]
  · show s3.nodes_out.length = s.nodes_out.length
    rcases hbout with h | h
    · rw [h]
    · rw [h, set2_length]
  · intro r
    show (s3.nodes_in.getD r []).length = (s.nodes_in.getD r []).length
    rcases hbin with h | h
    · rw [h]
    · rw [h, set2_row_length]
  · intro r
    show (s3.nodes_out.getD r []).length = (s.nodes_out.getD r []).length
    rcases hbout with h | h
    · rw [h]
    · rw [h, set2_row_length]
  · intro r hr i hi
    show (s3.nodes_in.getD r []).getD i (-1) = (s.nodes_in.getD r []).getD i (-1)
    rcases hbin with h | h
    · rw [h]
    · rw [h]
      by_cases hrg : r = g
      · subst hrg
        rw [getD_set2_self_row _ _ _ _ (by rw [hwf.len_in]; exact hg)]
        exact getD_row_set_ne _ _ _ _ (by omega)
      · rw [getD_set2_ne_row _ _ _ _ _ (fun he => hrg he.symm)]
  · intro r hr i hi
    show (s3.nodes_out.getD r []).getD i (-1) = (s.nodes_out.getD r []).getD i (-1)
    rcases hbout with h | h
    · rw [h]
    · rw [h]
      by_cases hrg : r = g
      · subst hrg
        rw [getD_set2_self_row _ _ _ _ (by rw [hwf.len_out]; exact hg)]
        exact getD_row_set_ne _ _ _ _ (by omega)
      · rw [getD_set2_ne_row _ _ _ _ _ (fun he => hrg he.symm)]

/-! ## Reachability and the counter totals -/

theorem sum_bump (l : List Nat) (i : Nat) (h : i < l.length) :
    (bump l i).sum = l.sum + 1 := by
  induction l generalizing i with
  | nil => simp at h
  | cons x xs ih =>
    cases i with
    | zero =>
      rw [bump]
      simp
      omega
    | succ j =>
      have hj : j < xs.length := by
        rw [List.length_cons] at h
        omega
      rw [bump, List.set_cons_succ, List.sum_cons, List.sum_cons]
      have := ih j hj
      rw [bump] at this
      have hgd : (x :: xs).getD (j + 1) 0 = xs.getD j 0 := by
        rw [List.getD_cons_succ]
      rw [hgd, this]
      omega

theorem foldl_bump_sum {α : Type} (L : List α) (f : α → Nat) (init : List Nat)
    (h : ∀ x ∈ L, f x < init.length) :
    (L.foldl (fun acc x => bump acc (f x)) init).sum = init.sum + L.length := by
  induction L generalizing init with
  | nil => simp
  | cons a L ih =>
    rw [List.foldl_cons, ih _ (fun x hx => by
      rw [bump_length]
      exact h x (List.mem_cons_of_mem _ hx)),
      sum_bump _ _ (h a (List.mem_cons_self ..)), List.length_cons]
    omega

theorem countLt_range (a n : Nat) :
    ((List.range n).filter (fun b => decide (a < b))).length = n - (a + 1) := by
  induction n with
  | zero => simp
  | succ m ih =>
    rw [List.range_succ, List.filter_append, List.length_append, ih, List.filter_cons]
    by_cases h : a < m
    · simp [h]
      omega
    · simp [h]
      omega

theorem sum_map_succ (l : List Nat) (f : Nat → Nat) :
    (l.map (fun a => f a + 1)).sum = (l.map f).sum + l.length := by
  induction l with
  | nil => rfl
  | cons x xs ih =>
    rw [List.map_cons, List.map_cons, List.sum_cons, List.sum_cons, ih, List.length_cons]
    omega

theorem sum_map_n_sub (n : Nat) :
    ((List.range n).map (fun a => n - (a + 1))).sum * 2 = n * (n - 1) := by
  induction n with
  | zero => rfl
  | succ m ih =>
    rw [List.range_succ, List.map_append, List.sum_append]
    have h1 : (List.range m).map (fun a => m + 1 - (a + 1))
        = (List.range m).map (fun a => (m - (a + 1)) + 1) := by
      apply List.map_congr_left
      intro a ha
      rw [List.mem_range] at ha
      omega
    rw [h1, sum_map_succ, List.length_range]
    simp
    rcases m with _ | k
    · rfl
    · have : (k + 1) * (k + 1 - 1) = (k + 1) * k := by norm_num
      rw [this] at ih
      ring_nf
      ring_nf at ih
      omega

theorem product_filter_length (l1 : List Nat) (n : Nat) :
    ((l1.product (List.range n)).filter (fun p => decide (p.1 < p.2))).length
      = (l1.map (fun a => n - (a + 1))).sum := by
  induction l1 with
  | nil => rfl
  | cons a l1 ih =>
    have hc : (a :: l1).product (List.range n)
        = (List.range n).map (Prod.mk a) ++ l1.product (List.range n) := by
      rw [List.product, List.product, List.flatMap_cons]
    rw [hc, List.filter_append, List.length_append, ih, List.map_cons, List.sum_cons]
    congr 1
    rw [List.filter_map, List.length_map]
    have hfn : ((fun p : Nat × Nat => decide (p.1 < p.2)) ∘ Prod.mk a)
        = (fun b => decide (a < b)) := rfl
    rw [hfn, countLt_range]

theorem pair_list_length (n : Nat) : (pair_list n).length = n * (n - 1) / 2 := by
  have h1 := product_filter_length (List.range n) n
  have h2 := sum_map_n_sub n
  rw [pair_list, h1]
  omega

/-- The invariant forces the counter totals. -/
theorem WF_sums (s : HierarchicalModel) (hwf : s.WF) :
    s.hcg_edges.sum = s.network.edges.length
    ∧ s.hcg_pairs.sum = s.network.num_nodes * (s.network.num_nodes - 1) / 2 := by
  have hbound : ∀ a b : Nat, a < s.network.num_nodes → b < s.network.num_nodes →
      hcg_ideal s.num_groups (s.groups.getD a 0) (s.groups.getD b 0) < s.num_groups := by
    intro a b ha hb
    exact hcg_ideal_lt _ _ _ (le_trans hwf.ng_le hwf.max64) hwf.ng_pos
      (hwf.bit0 _ (getD_mem_of_lt _ _ _ (by rw [hwf.len_groups]; exact ha)))
      (hwf.bit0 _ (getD_mem_of_lt _ _ _ (by rw [hwf.len_groups]; exact hb)))
  constructor
  · rw [hwf.edges_ok, recount_edges_ideal, foldl_bump_sum _ _ _ (fun e he => by
      rw [List.length_replicate]
      obtain ⟨h1, h2, _⟩ := hwf.net_ok e he
      exact hbound _ _ h1 h2)]
    simp
  · rw [hwf.pairs_ok, recount_pairs_ideal, foldl_bump_sum _ _ _ (fun p hp => by
      rw [List.length_replicate]
      obtain ⟨h1, h2, _⟩ := (mem_pair_list _ p).mp hp
      exact hbound _ _ h1 h2),
      pair_list_length]
    simp
/-! ## Every edge bucket is dominated by the pair bucket -/

theorem countP_edges_le_pairs (net : Network)
    (hnet : ∀ e ∈ net.edges, e.1 < net.num_nodes ∧ e.2 < net.num_nodes ∧ e.1 ≠ e.2)
    (hnodup : (net.edges.map (fun e => (min e.1 e.2, max e.1 e.2))).Nodup)
    (f : Nat → Nat → Nat) (hsymm : ∀ a b, f a b = f b a) (r : Nat) :
    net.edges.countP (fun e => decide (f e.1 e.2 = r))
      ≤ (pair_list net.num_nodes).countP (fun p => decide (f p.1 p.2 = r)) := by
  rw [List.countP_eq_length_filter, List.countP_eq_length_filter]
  have hmapnd : ((net.edges.filter (fun e => decide (f e.1 e.2 = r))).map
      (fun e => (min e.1 e.2, max e.1 e.2))).Nodup :=
    (List.Sublist.map _ (List.filter_sublist _)).nodup hnodup
  have hpairnd : ((pair_list net.num_nodes).filter
      (fun p => decide (f p.1 p.2 = r))).Nodup :=
    (nodup_pair_list net.num_nodes).filter _
  have hlen1 : (net.edges.filter (fun e => decide (f e.1 e.2 = r))).length
      = ((net.edges.filter (fun e => decide (f e.1 e.2 = r))).map
          (fun e => (min e.1 e.2, max e.1 e.2))).toFinset.card := by
    rw [List.toFinset_card_of_nodup hmapnd, List.length_map]
  have hlen2 : ((pair_list net.num_nodes).filter
      (fun p => decide (f p.1 p.2 = r))).length
      = ((pair_list net.num_nodes).filter
          (fun p => decide (f p.1 p.2 = r))).toFinset.card := by
    rw [List.toFinset_card_of_nodup hpairnd]
  rw [hlen1, hlen2]
  apply Finset.card_le_card
  intro x hx
  rw [List.mem_toFinset] at hx ⊢
  rw [List.mem_map] at hx
  obtain ⟨e, he, hxe⟩ := hx
  rw [List.mem_filter] at he
  obtain ⟨hmem, hbucket⟩ := he
  obtain ⟨h1, h2, hne⟩ := hnet e hmem
  rw [List.mem_filter]
  have hfmin : f (min e.1 e.2) (max e.1 e.2) = f e.1 e.2 := by
    rcases Nat.le_total e.1 e.2 with h | h
    · rw [Nat.min_eq_left h, Nat.max_eq_right h]
    · rw [Nat.min_eq_right h, Nat.max_eq_left h, hsymm]
  constructor
  · rw [← hxe, mem_pair_list]
    refine ⟨by omega, by omega, by omega⟩
  · rw [← hxe]
    rw [decide_eq_true_eq] at hbucket ⊢
    rw [hfmin]
    exact hbucket

/-- The invariant forces per-bucket domination of `hcg_edges` by `hcg_pairs`. -/
theorem WF_bucket_le (s : HierarchicalModel) (hwf : s.WF) (r : Nat)
    (hr : r < s.num_groups) :
    s.hcg_edges.getD r 0 ≤ s.hcg_pairs.getD r 0 := by
  have hbound : ∀ a b : Nat, a < s.network.num_nodes → b < s.network.num_nodes →
      hcg_ideal s.num_groups (s.groups.getD a 0) (s.groups.getD b 0) < s.num_groups := by
    intro a b ha hb
    exact hcg_ideal_lt _ _ _ (le_trans hwf.ng_le hwf.max64) hwf.ng_pos
      (hwf.bit0 _ (getD_mem_of_lt _ _ _ (by rw [hwf.len_groups]; exact ha)))
      (hwf.bit0 _ (getD_mem_of_lt _ _ _ (by rw [hwf.len_groups]; exact hb)))
  rw [hwf.edges_ok, hwf.pairs_ok, recount_edges_ideal, recount_pairs_ideal]
  rw [(foldl_bump_getD _ _ _ (fun e he => by
      rw [List.length_replicate]
      obtain ⟨h1, h2, _⟩ := hwf.net_ok e he
      exact hbound _ _ h1 h2) r).1, getD_replicate,
    (foldl_bump_getD _ _ _ (fun p hp => by
      rw [List.length_replicate]
      obtain ⟨h1, h2, _⟩ := (mem_pair_list _ p).mp hp
      exact hbound _ _ h1 h2) r).1, getD_replicate]
  simp only [Nat.zero_add]
  exact countP_edges_le_pairs s.network hwf.net_ok hwf.net_nodup
    (fun a b => hcg_ideal s.num_groups (s.groups.getD a 0) (s.groups.getD b 0))
    (fun a b => hcg_ideal_comm _ _ _) r
/-! ## The weak invariant across moves -/

theorem set_oob {α : Type} (l : List α) (i : Nat) (v : α) (h : l.length ≤ i) :
    l.set i v = l := by
  induction l generalizing i with
  | nil => rfl
  | cons a t ih =>
    cases i with
    | zero => simp at h
    | succ n =>
      show a :: t.set n v = a :: t
      rw [ih n (by simpa using h)]

theorem sum_zero_getD (l : List Nat) (r : Nat) (h : l.sum = 0) : l.getD r 0 = 0 := by
  induction l generalizing r with
  | nil => rfl
  | cons a t ih =>
    rw [List.sum_cons] at h
    cases r with
    | zero =>
      rw [List.getD_cons_zero]
      omega
    | succ n =>
      rw [List.getD_cons_succ]
      exact ih n (by omega)

theorem sum_insertIdx_zero (l : List Nat) (g : Nat) : (l.insertIdx g 0).sum = l.sum := by
  induction l generalizing g with
  | nil =>
    cases g with
    | zero => rfl
    | succ n => rfl
  | cons a t ih =>
    cases g with
    | zero => simp
    | succ n =>
      rw [List.insertIdx_succ_cons, List.sum_cons, List.sum_cons, ih n]

theorem sum_eraseIdx_add (l : List Nat) (g : Nat) (h : g < l.length) :
    (l.eraseIdx g).sum + l.getD g 0 = l.sum := by
  induction l generalizing g with
  | nil => simp at h
  | cons a t ih =>
    cases g with
    | zero =>
      rw [List.eraseIdx_cons_zero, List.getD_cons_zero, List.sum_cons]
      omega
    | succ n =>
      rw [List.eraseIdx_cons_succ, List.getD_cons_succ, List.sum_cons, List.sum_cons,
        ← ih n (by simpa using h)]
      omega

/-- A mask with bit `g` clear never lands in bucket `g`. -/
theorem hcg_ideal_ne (ng a b g : Nat) (hpa : a % 2 = 1) (hpb : b % 2 = 1)
    (ha : a < 2 ^ ng) (hng : ng ≤ 64) (hba : a.testBit g = false) :
    hcg_ideal ng a b ≠ g := by
  have hab := and_mod_two a b hpa hpb
  have habs : a &&& b < 2 ^ ng := lt_of_le_of_lt Nat.and_le_left ha
  rw [hcg_ideal_eq_log2 ng a b hng (by rw [and_mask_of_lt _ _ habs]; exact hab.2),
    and_mask_of_lt _ _ habs]
  intro h
  have hb2 := testBit_log2_self (a &&& b) hab.2
  rw [h, Nat.testBit_and, hba] at hb2
  simp at hb2

/-- In a well-formed state an empty group's buckets hold zero: no mask has the
bit, so no pair and no edge lands in that bucket of the recount. -/
theorem WF_empty_bucket_zero (s : HierarchicalModel) (hwf : s.WF) (g : Nat)
    (hg : g < s.num_groups) (hempty : s.group_size.getD g 0 = 0) :
    s.hcg_edges.getD g 0 = 0 ∧ s.hcg_pairs.getD g 0 = 0 := by
  have hfree : ∀ m ∈ s.groups, m.testBit g = false := by
    intro m hmem
    obtain ⟨u, hul, he⟩ := List.mem_iff_getElem.mp hmem
    have hgd : s.groups.getD u 0 = m := by
      rw [List.getD_eq_getElem _ _ hul, he]
    by_contra hb
    rw [Bool.not_eq_false] at hb
    obtain ⟨i, hi, _⟩ := (hwf.in_ok g hg).2.1 u
      (by rw [← hwf.len_groups]; exact hul)
      (by show (s.groups.getD u 0).testBit g = true
          rw [hgd]
          exact hb)
    rw [hempty] at hi
    omega
  have hne : ∀ a b : Nat, a < s.network.num_nodes → b < s.network.num_nodes →
      hcg_ideal s.num_groups (s.groups.getD a 0) (s.groups.getD b 0) ≠ g := by
    intro a b ha hb
    exact hcg_ideal_ne _ _ _ g
      (hwf.bit0 _ (getD_mem_of_lt _ _ _ (by rw [hwf.len_groups]; exact ha)))
      (hwf.bit0 _ (getD_mem_of_lt _ _ _ (by rw [hwf.len_groups]; exact hb)))
      (hwf.bounded _ (getD_mem_of_lt _ _ _ (by rw [hwf.len_groups]; exact ha)))
      (le_trans hwf.ng_le hwf.max64)
      (hfree _ (getD_mem_of_lt _ _ _ (by rw [hwf.len_groups]; exact ha)))
  have hbound : ∀ a b : Nat, a < s.network.num_nodes → b < s.network.num_nodes →
      hcg_ideal s.num_groups (s.groups.getD a 0) (s.groups.getD b 0) < s.num_groups := by
    intro a b ha hb
    exact hcg_ideal_lt _ _ _ (le_trans hwf.ng_le hwf.max64) hwf.ng_pos
      (hwf.bit0 _ (getD_mem_of_lt _ _ _ (by rw [hwf.len_groups]; exact ha)))
      (hwf.bit0 _ (getD_mem_of_lt _ _ _ (by rw [hwf.len_groups]; exact hb)))
  constructor
  · rw [hwf.edges_ok, recount_edges_ideal,
      (foldl_bump_getD _ _ _ (fun e he => by
        rw [List.length_replicate]
        obtain ⟨h1, h2, _⟩ := hwf.net_ok e he
        exact hbound _ _ h1 h2) g).1, getD_replicate]
    simp only [Nat.zero_add]
    rw [List.countP_eq_zero]
    intro e he
    obtain ⟨h1, h2, _⟩ := hwf.net_ok e he
    simp only [decide_eq_true_eq]
    exact hne _ _ h1 h2
  · rw [hwf.pairs_ok, recount_pairs_ideal,
      (foldl_bump_getD _ _ _ (fun p hp => by
        rw [List.length_replicate]
        obtain ⟨h1, h2, _⟩ := (mem_pair_list _ p).mp hp
        exact hbound _ _ h1 h2) g).1, getD_replicate]
    simp only [Nat.zero_add]
    rw [List.countP_eq_zero]
    intro p hp
    obtain ⟨h1, h2, _⟩ := (mem_pair_list _ p).mp hp
    simp only [decide_eq_true_eq]
    exact hne _ _ h1 h2

/-- When every other node reads a mask that drives the wrapped hcg to
`2 ^ 64 - 1`, the completion guard fails: the source call aborts on the
out-of-bounds bucket, so no successor state exists. -/
theorem update_ok_oob (s1 : HierarchicalModel) (u old : Nat)
    (hplen : s1.hcg_pairs.length ≤ 64)
    (hN2 : 2 ≤ s1.network.num_nodes)
    (hhcg : ∀ v, v < s1.network.num_nodes → v ≠ u → s1.hcg u v = 2 ^ 64 - 1) :
    ¬ s1.update_ok u old := by
  intro hok
  by_cases hu0 : u = 0
  · have h2 := (hok.1 1 (by omega) (by omega)).2
    rw [hhcg 1 (by omega) (by omega)] at h2
    omega
  · have h2 := (hok.1 0 (by omega) (by omega)).2
    rw [hhcg 0 (by omega) (by omega)] at h2
    omega

/-- On a degenerate network (`num_nodes ≤ 1`, hence no edges), as long as the
moved node's mask and old state read as zero whenever its id is not 0,
`update_hcg_props` leaves both counter vectors untouched: every loop is empty,
or its only indices are the out-of-range `2 ^ 64 - 1`. -/
theorem update_counters_small (s1 : HierarchicalModel) (u old : Nat)
    (hE0 : s1.network.edges = []) (hN : s1.network.num_nodes ≤ 1)
    (hmu : u ≠ 0 → s1.groups.getD u 0 = 0 ∧ old = 0)
    (hple : s1.hcg_pairs.length ≤ 64) :
    (s1.update_hcg_props u old).hcg_pairs = s1.hcg_pairs
    ∧ (s1.update_hcg_props u old).hcg_edges = s1.hcg_edges := by
  constructor
  · show ((List.range s1.network.num_nodes).filter (fun v => decide (v ≠ u))).foldl
        (fun acc v => bump (dip acc (s1.hcg_node old v)) (s1.hcg u v))
        s1.hcg_pairs = s1.hcg_pairs
    rcases Nat.le_one_iff_eq_zero_or_eq_one.mp hN with h0 | h1
    · rw [h0]
      rfl
    · rw [h1]
      by_cases hu : u = 0
      · subst hu
        show ((List.range 1).filter (fun v => decide (v ≠ 0))).foldl _ s1.hcg_pairs
          = s1.hcg_pairs
        rfl
      · have h0u : (0 : Nat) ≠ u := fun h => hu h.symm
        have hfil : (List.range 1).filter (fun v => decide (v ≠ u)) = [0] := by
          have hr1 : List.range 1 = [0] := rfl
          rw [hr1]
          simp [h0u]
        rw [hfil, List.foldl_cons, List.foldl_nil]
        obtain ⟨hg0, ho0⟩ := hmu hu
        have hn1 : s1.hcg_node old 0 = 2 ^ 64 - 1 := by
          rw [HierarchicalModel.hcg_node, ho0, hcg_masks_zero_left]
        have hc1 : s1.hcg u 0 = 2 ^ 64 - 1 := by
          rw [HierarchicalModel.hcg, hg0, hcg_masks_zero_left]
        rw [hn1, hc1, dip, set_oob _ _ _ (by omega), bump, set_oob _ _ _ (by omega)]
  · show (s1.network.edges.filter
          (fun e => xor (decide (e.1 = u)) (decide (e.2 = u)))).foldl
        (fun acc e =>
          let v := if e.1 = u then e.2 else e.1
          bump (dip acc (s1.hcg_node old v)) (s1.hcg u v))
        s1.hcg_edges = s1.hcg_edges
    rw [hE0]
    rfl

/-- Transfer of the weak invariant along any completed move on a degenerate
network: the network, group count, list lengths and both counter vectors are
preserved, and that is all the weak invariant asks there. -/
theorem WeakWF_transfer (s t : HierarchicalModel) (hwk : s.WeakWF)
    (hN1 : s.network.num_nodes ≤ 1)
    (hnet : t.network = s.network) (hmax : t.max_groups = s.max_groups)
    (hng : t.num_groups = s.num_groups)
    (hlg : t.groups.length = s.groups.length)
    (hgsl : t.group_size.length = s.group_size.length)
    (he : t.hcg_edges = s.hcg_edges) (hp : t.hcg_pairs = s.hcg_pairs) :
    t.WeakWF := by
  have hE0 : s.network.edges = [] := edges_nil_of_small s.network hwk.net_ok hN1
  have hsume : s.hcg_edges.sum = 0 := by
    rw [hwk.sum_e, hE0]
    rfl
  have hsump : s.hcg_pairs.sum = 0 := by
    rw [hwk.sum_p]
    rcases Nat.le_one_iff_eq_zero_or_eq_one.mp hN1 with h | h <;> rw [h]
  refine ⟨?_, ?_, ?_, ?_, ?_, ?_, ?_, ?_, ?_, ?_, ?_, ?_, ?_⟩
  · rw [hnet]
    exact hwk.net_ok
  · rw [hng]
    exact hwk.ng_pos
  · rw [hng, hmax]
    exact hwk.ng_le
  · rw [hmax]
    exact hwk.max64
  · rw [hlg, hnet]
    exact hwk.len_groups
  · left
    rw [hnet]
    exact hN1
  · rw [hgsl, hng]
    exact hwk.len_gs
  · rw [he, hng]
    exact hwk.len_e
  · rw [hp, hng]
    exact hwk.len_p
  · rw [he, hnet]
    exact hwk.sum_e
  · rw [hp, hnet]
    exact hwk.sum_p
  · intro r hr
    rw [he, hp]
    exact hwk.bucket_le r (hng ▸ hr)
  · intro r hr hsz
    rw [he, hp]
    exact ⟨sum_zero_getD _ _ hsume, sum_zero_getD _ _ hsump⟩

/-- `add_group` preserves the weak invariant. -/
theorem WeakWF_add_group (s : HierarchicalModel) (hwk : s.WeakWF) (g : Nat)
    (hg1 : 1 ≤ g) (hgle : g ≤ s.num_groups) (hmax : s.num_groups ≠ s.max_groups) :
    ((s.add_group g).1).WeakWF := by
  have hglen : g ≤ s.group_size.length := by
    rw [hwk.len_gs]
    exact hgle
  have hglenE : g ≤ s.hcg_edges.length := by
    rw [hwk.len_e]
    exact hgle
  have hglenP : g ≤ s.hcg_pairs.length := by
    rw [hwk.len_p]
    exact hgle
  refine ⟨hwk.net_ok, by show 1 ≤ s.num_groups + 1; omega, ?_, hwk.max64, ?_, ?_, ?_,
    ?_, ?_, ?_, ?_, ?_, ?_⟩
  · show s.num_groups + 1 ≤ s.max_groups
    have := hwk.ng_le
    omega
  · show (s.groups.map _).length = s.network.num_nodes
    rw [List.length_map]
    exact hwk.len_groups
  · rcases hwk.dead with h | h
    · exact Or.inl h
    · refine Or.inr ?_
      intro m hmem
      have hmem2 : m ∈ s.groups.map (fun m2 => insert_zero_at m2 g s.num_groups) := hmem
      rw [List.mem_map] at hmem2
      obtain ⟨m0, hm0, he⟩ := hmem2
      rw [← he, h m0 hm0]
      exact insert_zero_at_zero _ _
  · show (s.group_size.insertIdx g 0).length = s.num_groups + 1
    rw [List.length_insertIdx _ _ hglen, hwk.len_gs]
  · show (s.hcg_edges.insertIdx g 0).length = s.num_groups + 1
    rw [List.length_insertIdx _ _ hglenE, hwk.len_e]
  · show (s.hcg_pairs.insertIdx g 0).length = s.num_groups + 1
    rw [List.length_insertIdx _ _ hglenP, hwk.len_p]
  · show (s.hcg_edges.insertIdx g 0).sum = s.network.edges.length
    rw [sum_insertIdx_zero, hwk.sum_e]
  · show (s.hcg_pairs.insertIdx g 0).sum
      = s.network.num_nodes * (s.network.num_nodes - 1) / 2
    rw [sum_insertIdx_zero, hwk.sum_p]
  · intro r hr
    have hr2 : r < s.num_groups + 1 := hr
    show (s.hcg_edges.insertIdx g 0).getD r 0 ≤ (s.hcg_pairs.insertIdx g 0).getD r 0
    rw [getD_insertIdx_zero _ _ _ hglenE, getD_insertIdx_zero _ _ _ hglenP]
    rcases Nat.lt_trichotomy r g with h1 | h1 | h1
    · rw [if_pos h1, if_pos h1]
      exact hwk.bucket_le r (by omega)
    · subst h1
      rw [if_neg (lt_irrefl r), if_pos rfl, if_neg (lt_irrefl r), if_pos rfl]
    · have e1 : ¬ r < g := by omega
      have e2 : ¬ r = g := by omega
      rw [if_neg e1, if_neg e2, if_neg e1, if_neg e2]
      exact hwk.bucket_le (r - 1) (by omega)
  · intro r hr hsz
    have hr2 : r < s.num_groups + 1 := hr
    have hsz2 : (s.group_size.insertIdx g 0).getD r 0 = 0 := hsz
    rw [getD_insertIdx_zero _ _ _ hglen] at hsz2
    show (s.hcg_edges.insertIdx g 0).getD r 0 = 0
      ∧ (s.hcg_pairs.insertIdx g 0).getD r 0 = 0
    rw [getD_insertIdx_zero _ _ _ hglenE, getD_insertIdx_zero _ _ _ hglenP]
    rcases Nat.lt_trichotomy r g with h1 | h1 | h1
    · rw [if_pos h1] at hsz2
      rw [if_pos h1, if_pos h1]
      exact hwk.empty_zero r (by omega) hsz2
    · subst h1
      rw [if_neg (lt_irrefl r), if_pos rfl, if_neg (lt_irrefl r), if_pos rfl]
      exact ⟨rfl, rfl⟩
    · have e1 : ¬ r < g := by omega
      have e2 : ¬ r = g := by omega
      rw [if_neg e1, if_neg e2] at hsz2
      rw [if_neg e1, if_neg e2, if_neg e1, if_neg e2]
      exact hwk.empty_zero (r - 1) (by omega) hsz2

/-- `remove_group` of an empty group preserves the weak invariant. -/
theorem WeakWF_remove_group (s : HierarchicalModel) (hwk : s.WeakWF) (g : Nat)
    (hg1 : 1 ≤ g) (hg : g < s.num_groups) (hngne : s.num_groups ≠ 1)
    (hempty : s.group_size.getD g 0 = 0) :
    ((s.remove_group g).1).WeakWF := by
  have hglen : g < s.group_size.length := by
    rw [hwk.len_gs]
    exact hg
  have hglenE : g < s.hcg_edges.length := by
    rw [hwk.len_e]
    exact hg
  have hglenP : g < s.hcg_pairs.length := by
    rw [hwk.len_p]
    exact hg
  have hez := hwk.empty_zero g hg hempty
  refine ⟨hwk.net_ok, ?_, ?_, hwk.max64, ?_, ?_, ?_, ?_, ?_, ?_, ?_, ?_, ?_⟩
  · show 1 ≤ s.num_groups - 1
    have := hwk.ng_pos
    omega
  · show s.num_groups - 1 ≤ s.max_groups
    have := hwk.ng_le
    omega
  · show (s.groups.map _).length = s.network.num_nodes
    rw [List.length_map]
    exact hwk.len_groups
  · rcases hwk.dead with h | h
    · exact Or.inl h
    · refine Or.inr ?_
      intro m hmem
      have hmem2 : m ∈ s.groups.map (fun m2 => remove_bit_at m2 g s.num_groups) := hmem
      rw [List.mem_map] at hmem2
      obtain ⟨m0, hm0, he⟩ := hmem2
      rw [← he, h m0 hm0]
      exact remove_bit_at_zero _ _
  · show (s.group_size.eraseIdx g).length = s.num_groups - 1
    rw [List.length_eraseIdx, if_pos hglen, hwk.len_gs]
  · show (s.hcg_edges.eraseIdx g).length = s.num_groups - 1
    rw [List.length_eraseIdx, if_pos hglenE, hwk.len_e]
  · show (s.hcg_pairs.eraseIdx g).length = s.num_groups - 1
    rw [List.length_eraseIdx, if_pos hglenP, hwk.len_p]
  · show (s.hcg_edges.eraseIdx g).sum = s.network.edges.length
    have h2 := sum_eraseIdx_add s.hcg_edges g hglenE
    rw [hez.1] at h2
    rw [← hwk.sum_e]
    omega
  · show (s.hcg_pairs.eraseIdx g).sum
      = s.network.num_nodes * (s.network.num_nodes - 1) / 2
    have h2 := sum_eraseIdx_add s.hcg_pairs g hglenP
    rw [hez.2] at h2
    rw [← hwk.sum_p]
    omega
  · intro r hr
    have hr2 : r < s.num_groups - 1 := hr
    show (s.hcg_edges.eraseIdx g).getD r 0 ≤ (s.hcg_pairs.eraseIdx g).getD r 0
    rw [getD_eraseIdx_zero, getD_eraseIdx_zero]
    by_cases h1 : r < g
    · rw [if_pos h1, if_pos h1]
      exact hwk.bucket_le r (by omega)
    · rw [if_neg h1, if_neg h1]
      exact hwk.bucket_le (r + 1) (by omega)
  · intro r hr hsz
    have hr2 : r < s.num_groups - 1 := hr
    have hsz2 : (s.group_size.eraseIdx g).getD r 0 = 0 := hsz
    rw [getD_eraseIdx_zero] at hsz2
    show (s.hcg_edges.eraseIdx g).getD r 0 = 0 ∧ (s.hcg_pairs.eraseIdx g).getD r 0 = 0
    rw [getD_eraseIdx_zero, getD_eraseIdx_zero]
    by_cases h1 : r < g
    · rw [if_pos h1] at hsz2
      rw [if_pos h1, if_pos h1]
      exact hwk.empty_zero r (by omega) hsz2
    · rw [if_neg h1] at hsz2
      rw [if_neg h1, if_neg h1]
      exact hwk.empty_zero (r + 1) (by omega) hsz2

/-- The release-profile escape hatch behind C7: a `remove_group` at
`num_groups = 64` replaces every mask by `remove_bit_at m g 64 = 0` (the
shift-width wrap empties both select masks), so the full invariant is lost;
the structural bookkeeping and the counter totals survive as `WeakWF`.  An
overflow-checked build panics inside `remove_bit_at` instead of completing
this move. -/
theorem WeakWF_of_remove_group_64 (s : HierarchicalModel) (hwf : s.WF)
    (hng : s.num_groups = 64) (g : Nat)
    (hg1 : 1 ≤ g) (hg : g < s.num_groups)
    (hempty : s.group_size.getD g 0 = 0) :
    ((s.remove_group g).1).WeakWF := by
  have hglen : g < s.group_size.length := by
    rw [hwf.len_gs]
    exact hg
  have hglenE : g < s.hcg_edges.length := by
    rw [hwf.len_e]
    exact hg
  have hglenP : g < s.hcg_pairs.length := by
    rw [hwf.len_p]
    exact hg
  have hez := WF_empty_bucket_zero s hwf g hg hempty
  have hsums := WF_sums s hwf
  refine ⟨hwf.net_ok, ?_, ?_, hwf.max64, ?_, ?_, ?_, ?_, ?_, ?_, ?_, ?_, ?_⟩
  · show 1 ≤ s.num_groups - 1
    omega
  · show s.num_groups - 1 ≤ s.max_groups
    have := hwf.ng_le
    omega
  · show (s.groups.map _).length = s.network.num_nodes
    rw [List.length_map]
    exact hwf.len_groups
  · refine Or.inr ?_
    intro m hmem
    have hmem2 : m ∈ s.groups.map (fun m2 => remove_bit_at m2 g s.num_groups) := hmem
    rw [List.mem_map] at hmem2
    obtain ⟨m0, hm0, he⟩ := hmem2
    rw [← he, hng]
    exact remove_bit_at_64 _ _
  · show (s.group_size.eraseIdx g).length = s.num_groups - 1
    rw [List.length_eraseIdx, if_pos hglen, hwf.len_gs]
  · show (s.hcg_edges.eraseIdx g).length = s.num_groups - 1
    rw [List.length_eraseIdx, if_pos hglenE, hwf.len_e]
  · show (s.hcg_pairs.eraseIdx g).length = s.num_groups - 1
    rw [List.length_eraseIdx, if_pos hglenP, hwf.len_p]
  · show (s.hcg_edges.eraseIdx g).sum = s.network.edges.length
    have h2 := sum_eraseIdx_add s.hcg_edges g hglenE
    rw [hez.1] at h2
    rw [← hsums.1]
    omega
  · show (s.hcg_pairs.eraseIdx g).sum
      = s.network.num_nodes * (s.network.num_nodes - 1) / 2
    have h2 := sum_eraseIdx_add s.hcg_pairs g hglenP
    rw [hez.2] at h2
    rw [← hsums.2]
    omega
  · intro r hr
    have hr2 : r < s.num_groups - 1 := hr
    show (s.hcg_edges.eraseIdx g).getD r 0 ≤ (s.hcg_pairs.eraseIdx g).getD r 0
    rw [getD_eraseIdx_zero, getD_eraseIdx_zero]
    by_cases h1 : r < g
    · rw [if_pos h1, if_pos h1]
      exact WF_bucket_le s hwf r (by omega)
    · rw [if_neg h1, if_neg h1]
      exact WF_bucket_le s hwf (r + 1) (by omega)
  · intro r hr hsz
    have hr2 : r < s.num_groups - 1 := hr
    have hsz2 : (s.group_size.eraseIdx g).getD r 0 = 0 := hsz
    rw [getD_eraseIdx_zero] at hsz2
    show (s.hcg_edges.eraseIdx g).getD r 0 = 0 ∧ (s.hcg_pairs.eraseIdx g).getD r 0 = 0
    rw [getD_eraseIdx_zero, getD_eraseIdx_zero]
    by_cases h1 : r < g
    · rw [if_pos h1] at hsz2
      rw [if_pos h1, if_pos h1]
      exact WF_empty_bucket_zero s hwf r (by omega) hsz2
    · rw [if_neg h1] at hsz2
      rw [if_neg h1, if_neg h1]
      exact WF_empty_bucket_zero s hwf (r + 1) (by omega) hsz2

/-- One guarded `get_groups` call preserves the invariant and never touches
the network.  The guard is exactly the in-bounds condition under which the
source call returns: a population proposal at `num_groups = 64` on a network
with at least two nodes, or from a wiped-mask state, indexes the counters at
`2 ^ 64 - 1` and aborts — such calls produce no successor state (cf. C7). -/
theorem Inv_step (s : SamplerState) (d : ProposalDraws) (a : Bool)
    (hinv : s.hm.Inv) (hd : s.hm.draws_ok d)
    (hok : ∀ s1 mv, s.hm.uniform_groupsize d = (s1, some mv) → step_ok s1 mv) :
    (s.get_groups d a).hm.Inv ∧ (s.get_groups d a).hm.network = s.hm.network := by
  rcases uniform_groupsize_cases s.hm d hd with hc
    | ⟨g, hne, hg1, hgle, hc⟩
    | ⟨g, hne, hg1, hglt, h0, hc⟩
    | ⟨g, idx, hne, hg1, hglt, h0, hidx, hc⟩
    | ⟨g, idx, hne, hg1, hglt, hN, hidx, hc⟩
  · rw [SamplerState.get_groups, hc]
    exact ⟨hinv, rfl⟩
  · have hcond : 1 ≤ Real.exp (step_newL s.log_like (s.hm.add_group g).1
        (Move.AddGroup g) - s.log_like) ∨ a = true := structural_accepts s.log_like a
    rw [SamplerState.get_groups, hc, get_groups_after_some, if_pos hcond]
    rcases hinv with hwf | hwk
    · exact ⟨Or.inl (WF_add_group s.hm hwf g hg1 hgle hne), rfl⟩
    · exact ⟨Or.inr (WeakWF_add_group s.hm hwk g hg1 hgle hne), rfl⟩
  · have hcond : 1 ≤ Real.exp (step_newL s.log_like (s.hm.remove_group g).1
        (Move.RemoveGroup g) - s.log_like) ∨ a = true := structural_accepts s.log_like a
    rw [SamplerState.get_groups, hc, get_groups_after_some, if_pos hcond]
    rcases hinv with hwf | hwk
    · by_cases hng63 : s.hm.num_groups ≤ 63
      · exact ⟨Or.inl (WF_remove_group s.hm hwf g hng63 hg1 hglt hne h0), rfl⟩
      · have hng64 : s.hm.num_groups = 64 := by
          have ha1 := hwf.ng_le
          have ha2 := hwf.max64
          omega
        exact ⟨Or.inr (WeakWF_of_remove_group_64 s.hm hwf hng64 g hg1 hglt h0), rfl⟩
    · exact ⟨Or.inr (WeakWF_remove_group s.hm hwk g hg1 hglt hne h0), rfl⟩
  · -- remove_node_from_group_by_idx
    rw [remove_node_move_eq] at hc
    have hstep := hok _ _ hc
    have hstep2 : (s.hm.remove_node_from_group_by_idx g idx).1.update_ok
        ((get2 s.hm.nodes_in g idx).toNat)
        (s.hm.groups.getD ((get2 s.hm.nodes_in g idx).toNat) 0) := hstep
    rcases hinv with hwf | hwk
    · by_cases hngN : s.hm.num_groups ≤ 63 ∨ s.hm.network.num_nodes ≤ 1
      · rw [SamplerState.get_groups, hc, get_groups_after_some]
        by_cases hacc : 1 ≤ Real.exp (step_newL s.log_like
            (s.hm.remove_node_from_group_by_idx g idx).1
            (Move.RemoveNodeFromGroup g ((get2 s.hm.nodes_in g idx).toNat) idx
              (s.hm.groups.getD ((get2 s.hm.nodes_in g idx).toNat) 0)) - s.log_like)
          ∨ a = true
        · rw [if_pos hacc]
          refine ⟨?_, rfl⟩
          rw [apply_update_removenode]
          exact Or.inl (WF_remove_node s.hm hwf g idx hngN hg1 hglt h0 hidx _ _ rfl rfl)
        · rw [if_neg hacc]
          obtain ⟨hbg, hbgs, hbin, hbout, hbng, hbnet, hbmax⟩ :=
            rollback_remove_node s.hm hwf g idx hg1 hglt hidx
              ((get2 s.hm.nodes_in g idx).toNat)
              (s.hm.groups.getD ((get2 s.hm.nodes_in g idx).toNat) 0) rfl rfl
          rw [apply_update_removenode]
          exact ⟨Or.inl (WF_reject_state s.hm hwf _ g hglt hbng hbnet hbmax hbg hbgs
            (Or.inl hbin) (Or.inr hbout)), hbnet⟩
      · -- `num_groups = 64` on a real network: the guard rules the call out
        exfalso
        push_neg at hngN
        have hng64 : s.hm.num_groups = 64 := by
          have ha1 := hwf.ng_le
          have ha2 := hwf.max64
          omega
        have hngp : (s.hm.remove_node_from_group_by_idx g idx).1.num_groups = 64 := hng64
        have hplen : (s.hm.remove_node_from_group_by_idx g idx).1.hcg_pairs.length
            ≤ 64 := by
          show s.hm.hcg_pairs.length ≤ 64
          rw [hwf.len_p]
          omega
        have hN2 : 2 ≤ s.hm.network.num_nodes := by omega
        have hhcg : ∀ v,
            v < (s.hm.remove_node_from_group_by_idx g idx).1.network.num_nodes
            → v ≠ (get2 s.hm.nodes_in g idx).toNat
            → (s.hm.remove_node_from_group_by_idx g idx).1.hcg
                ((get2 s.hm.nodes_in g idx).toNat) v = 2 ^ 64 - 1 := by
          intro v hv hvne
          rw [HierarchicalModel.hcg, hngp, hcg_masks_64]
        exact update_ok_oob _ _ _ hplen hN2 hhcg hstep2
    · by_cases hN1 : s.hm.network.num_nodes ≤ 1
      · -- degenerate network: the update touches nothing
        have hE0 : s.hm.network.edges = [] :=
          edges_nil_of_small s.hm.network hwk.net_ok hN1
        have hmu : (get2 s.hm.nodes_in g idx).toNat ≠ 0 →
            (s.hm.remove_node_from_group_by_idx g idx).1.groups.getD
              ((get2 s.hm.nodes_in g idx).toNat) 0 = 0
            ∧ s.hm.groups.getD ((get2 s.hm.nodes_in g idx).toNat) 0 = 0 := by
          intro hn0
          have hnN : s.hm.network.num_nodes ≤ (get2 s.hm.nodes_in g idx).toNat := by
            omega
          have hlen1 : s.hm.groups.length ≤ (get2 s.hm.nodes_in g idx).toNat := by
            rw [hwk.len_groups]
            exact hnN
          have hold0 : s.hm.groups.getD ((get2 s.hm.nodes_in g idx).toNat) 0 = 0 :=
            List.getD_eq_default _ _ hlen1
          refine ⟨?_, hold0⟩
          have h3 : (s.hm.groups.set ((get2 s.hm.nodes_in g idx).toNat)
              (u64_sub (s.hm.groups.getD ((get2 s.hm.nodes_in g idx).toNat) 0)
                (2 ^ g))).getD ((get2 s.hm.nodes_in g idx).toNat) 0 = 0 := by
            rw [set_oob _ _ _ hlen1]
            exact hold0
          exact h3
        have hupd := update_counters_small (s.hm.remove_node_from_group_by_idx g idx).1
          ((get2 s.hm.nodes_in g idx).toNat)
          (s.hm.groups.getD ((get2 s.hm.nodes_in g idx).toNat) 0) hE0 hN1 hmu
          (by show s.hm.hcg_pairs.length ≤ 64
              rw [hwk.len_p]
              have ha1 := hwk.ng_le
              have ha2 := hwk.max64
              omega)
        rw [SamplerState.get_groups, hc, get_groups_after_some]
        by_cases hacc : 1 ≤ Real.exp (step_newL s.log_like
            (s.hm.remove_node_from_group_by_idx g idx).1
            (Move.RemoveNodeFromGroup g ((get2 s.hm.nodes_in g idx).toNat) idx
              (s.hm.groups.getD ((get2 s.hm.nodes_in g idx).toNat) 0)) - s.log_like)
          ∨ a = true
        · rw [if_pos hacc]
          refine ⟨Or.inr ?_, rfl⟩
          rw [apply_update_removenode]
          refine WeakWF_transfer s.hm _ hwk hN1 rfl rfl rfl ?_ ?_ hupd.2 hupd.1
          · show (s.hm.groups.set ((get2 s.hm.nodes_in g idx).toNat)
                (u64_sub (s.hm.groups.getD ((get2 s.hm.nodes_in g idx).toNat) 0)
                  (2 ^ g))).length = s.hm.groups.length
            rw [List.length_set]
          · show (s.hm.group_size.set g (s.hm.group_size.getD g 0 - 1)).length
              = s.hm.group_size.length
            rw [List.length_set]
        · rw [if_neg hacc]
          refine ⟨Or.inr ?_, rfl⟩
          rw [apply_update_removenode]
          refine WeakWF_transfer s.hm _ hwk hN1 rfl rfl rfl ?_ ?_ ?_ ?_
          · show (((s.hm.remove_node_from_group_by_idx g idx).1.update_hcg_props
                  ((get2 s.hm.nodes_in g idx).toNat)
                  (s.hm.groups.getD ((get2 s.hm.nodes_in g idx).toNat) 0)).groups.set
                ((get2 s.hm.nodes_in g idx).toNat)
                (u64_add
                  (((s.hm.remove_node_from_group_by_idx g idx).1.update_hcg_props
                      ((get2 s.hm.nodes_in g idx).toNat)
                      (s.hm.groups.getD
                        ((get2 s.hm.nodes_in g idx).toNat) 0)).groups.getD
                    ((get2 s.hm.nodes_in g idx).toNat) 0)
                  (2 ^ g))).length = s.hm.groups.length
            rw [List.length_set]
            show (s.hm.groups.set ((get2 s.hm.nodes_in g idx).toNat)
                (u64_sub (s.hm.groups.getD ((get2 s.hm.nodes_in g idx).toNat) 0)
                  (2 ^ g))).length = s.hm.groups.length
            rw [List.length_set]
          · show (((s.hm.remove_node_from_group_by_idx g idx).1.update_hcg_props
                  ((get2 s.hm.nodes_in g idx).toNat)
                  (s.hm.groups.getD
                    ((get2 s.hm.nodes_in g idx).toNat) 0)).group_size.set g
                (((s.hm.remove_node_from_group_by_idx g idx).1.update_hcg_props
                    ((get2 s.hm.nodes_in g idx).toNat)
                    (s.hm.groups.getD
                      ((get2 s.hm.nodes_in g idx).toNat) 0)).group_size.getD g 0
                  + 1)).length = s.hm.group_size.length
            rw [List.length_set]
            show (s.hm.group_size.set g (s.hm.group_size.getD g 0 - 1)).length
              = s.hm.group_size.length
            rw [List.length_set]
          · show s.hm.hcg_edges.take s.hm.num_groups = s.hm.hcg_edges
            exact List.take_of_length_le (le_of_eq hwk.len_e)
          · show s.hm.hcg_pairs.take s.hm.num_groups = s.hm.hcg_pairs
            exact List.take_of_length_le (le_of_eq hwk.len_p)
      · -- a wiped-mask state with two or more nodes: the guard rules the call out
        exfalso
        rcases hwk.dead with hd1 | hdead
        · omega
        have hplen : (s.hm.remove_node_from_group_by_idx g idx).1.hcg_pairs.length
            ≤ 64 := by
          show s.hm.hcg_pairs.length ≤ 64
          rw [hwk.len_p]
          have ha1 := hwk.ng_le
          have ha2 := hwk.max64
          omega
        have hN2 : 2 ≤ s.hm.network.num_nodes := by omega
        have hhcg : ∀ v,
            v < (s.hm.remove_node_from_group_by_idx g idx).1.network.num_nodes
            → v ≠ (get2 s.hm.nodes_in g idx).toNat
            → (s.hm.remove_node_from_group_by_idx g idx).1.hcg
                ((get2 s.hm.nodes_in g idx).toNat) v = 2 ^ 64 - 1 := by
          intro v hv hvne
          have hv2 : v < s.hm.network.num_nodes := hv
          have hgv : (s.hm.remove_node_from_group_by_idx g idx).1.groups.getD v 0
              = s.hm.groups.getD v 0 := by
            have h3 : (s.hm.groups.set ((get2 s.hm.nodes_in g idx).toNat)
                (u64_sub (s.hm.groups.getD ((get2 s.hm.nodes_in g idx).toNat) 0)
                  (2 ^ g))).getD v 0 = s.hm.groups.getD v 0 :=
              getD_set_ne _ _ _ _ (fun he2 => hvne he2.symm)
            exact h3
          have hzv : s.hm.groups.getD v 0 = 0 :=
            hdead _ (getD_mem_of_lt _ _ _ (by rw [hwk.len_groups]; omega))
          rw [HierarchicalModel.hcg, hgv, hzv, hcg_masks_comm, hcg_masks_zero_left]
        exact update_ok_oob _ _ _ hplen hN2 hhcg hstep2
  · -- add_node_to_group_by_idx
    rw [add_node_move_eq] at hc
    have hstep := hok _ _ hc
    have hstep2 : (s.hm.add_node_to_group_by_idx g idx).1.update_ok
        ((get2 s.hm.nodes_out g idx).toNat)
        (s.hm.groups.getD ((get2 s.hm.nodes_out g idx).toNat) 0) := hstep
    rcases hinv with hwf | hwk
    · by_cases hngN : s.hm.num_groups ≤ 63 ∨ s.hm.network.num_nodes ≤ 1
      · rw [SamplerState.get_groups, hc, get_groups_after_some]
        by_cases hacc : 1 ≤ Real.exp (step_newL s.log_like
            (s.hm.add_node_to_group_by_idx g idx).1
            (Move.AddNodeToGroup g ((get2 s.hm.nodes_out g idx).toNat) idx
              (s.hm.groups.getD ((get2 s.hm.nodes_out g idx).toNat) 0)) - s.log_like)
          ∨ a = true
        · rw [if_pos hacc]
          refine ⟨?_, rfl⟩
          rw [apply_update_addnode]
          exact Or.inl (WF_add_node s.hm hwf g idx hngN hg1 hglt hN hidx _ _ rfl rfl)
        · rw [if_neg hacc]
          obtain ⟨hbg, hbgs, hbout, hbin, hbng, hbnet, hbmax⟩ :=
            rollback_add_node s.hm hwf g idx hg1 hglt hN hidx
              ((get2 s.hm.nodes_out g idx).toNat)
              (s.hm.groups.getD ((get2 s.hm.nodes_out g idx).toNat) 0) rfl rfl
          rw [apply_update_addnode]
          exact ⟨Or.inl (WF_reject_state s.hm hwf _ g hglt hbng hbnet hbmax hbg hbgs
            (Or.inr hbin) (Or.inl hbout)), hbnet⟩
      · exfalso
        push_neg at hngN
        have hng64 : s.hm.num_groups = 64 := by
          have ha1 := hwf.ng_le
          have ha2 := hwf.max64
          omega
        have hngp : (s.hm.add_node_to_group_by_idx g idx).1.num_groups = 64 := hng64
        have hplen : (s.hm.add_node_to_group_by_idx g idx).1.hcg_pairs.length ≤ 64 := by
          show s.hm.hcg_pairs.length ≤ 64
          rw [hwf.len_p]
          omega
        have hN2 : 2 ≤ s.hm.network.num_nodes := by omega
        have hhcg : ∀ v,
            v < (s.hm.add_node_to_group_by_idx g idx).1.network.num_nodes
            → v ≠ (get2 s.hm.nodes_out g idx).toNat
            → (s.hm.add_node_to_group_by_idx g idx).1.hcg
                ((get2 s.hm.nodes_out g idx).toNat) v = 2 ^ 64 - 1 := by
          intro v hv hvne
          rw [HierarchicalModel.hcg, hngp, hcg_masks_64]
        exact update_ok_oob _ _ _ hplen hN2 hhcg hstep2
    · by_cases hN1 : s.hm.network.num_nodes ≤ 1
      · have hE0 : s.hm.network.edges = [] :=
          edges_nil_of_small s.hm.network hwk.net_ok hN1
        have hmu : (get2 s.hm.nodes_out g idx).toNat ≠ 0 →
            (s.hm.add_node_to_group_by_idx g idx).1.groups.getD
              ((get2 s.hm.nodes_out g idx).toNat) 0 = 0
            ∧ s.hm.groups.getD ((get2 s.hm.nodes_out g idx).toNat) 0 = 0 := by
          intro hn0
          have hnN : s.hm.network.num_nodes ≤ (get2 s.hm.nodes_out g idx).toNat := by
            omega
          have hlen1 : s.hm.groups.length ≤ (get2 s.hm.nodes_out g idx).toNat := by
            rw [hwk.len_groups]
            exact hnN
          have hold0 : s.hm.groups.getD ((get2 s.hm.nodes_out g idx).toNat) 0 = 0 :=
            List.getD_eq_default _ _ hlen1
          refine ⟨?_, hold0⟩
          have h3 : (s.hm.groups.set ((get2 s.hm.nodes_out g idx).toNat)
              (u64_add (s.hm.groups.getD ((get2 s.hm.nodes_out g idx).toNat) 0)
                (2 ^ g))).getD ((get2 s.hm.nodes_out g idx).toNat) 0 = 0 := by
            rw [set_oob _ _ _ hlen1]
            exact hold0
          exact h3
        have hupd := update_counters_small (s.hm.add_node_to_group_by_idx g idx).1
          ((get2 s.hm.nodes_out g idx).toNat)
          (s.hm.groups.getD ((get2 s.hm.nodes_out g idx).toNat) 0) hE0 hN1 hmu
          (by show s.hm.hcg_pairs.length ≤ 64
              rw [hwk.len_p]
              have ha1 := hwk.ng_le
              have ha2 := hwk.max64
              omega)
        rw [SamplerState.get_groups, hc, get_groups_after_some]
        by_cases hacc : 1 ≤ Real.exp (step_newL s.log_like
            (s.hm.add_node_to_group_by_idx g idx).1
            (Move.AddNodeToGroup g ((get2 s.hm.nodes_out g idx).toNat) idx
              (s.hm.groups.getD ((get2 s.hm.nodes_out g idx).toNat) 0)) - s.log_like)
          ∨ a = true
        · rw [if_pos hacc]
          refine ⟨Or.inr ?_, rfl⟩
          rw [apply_update_addnode]
          refine WeakWF_transfer s.hm _ hwk hN1 rfl rfl rfl ?_ ?_ hupd.2 hupd.1
          · show (s.hm.groups.set ((get2 s.hm.nodes_out g idx).toNat)
                (u64_add (s.hm.groups.getD ((get2 s.hm.nodes_out g idx).toNat) 0)
                  (2 ^ g))).length = s.hm.groups.length
            rw [List.length_set]
          · show (s.hm.group_size.set g (s.hm.group_size.getD g 0 + 1)).length
              = s.hm.group_size.length
            rw [List.length_set]
        · rw [if_neg hacc]
          refine ⟨Or.inr ?_, rfl⟩
          rw [apply_update_addnode]
          refine WeakWF_transfer s.hm _ hwk hN1 rfl rfl rfl ?_ ?_ ?_ ?_
          · show (((s.hm.add_node_to_group_by_idx g idx).1.update_hcg_props
                  ((get2 s.hm.nodes_out g idx).toNat)
                  (s.hm.groups.getD ((get2 s.hm.nodes_out g idx).toNat) 0)).groups.set
                ((get2 s.hm.nodes_out g idx).toNat)
                (u64_sub
                  (((s.hm.add_node_to_group_by_idx g idx).1.update_hcg_props
                      ((get2 s.hm.nodes_out g idx).toNat)
                      (s.hm.groups.getD
                        ((get2 s.hm.nodes_out g idx).toNat) 0)).groups.getD
                    ((get2 s.hm.nodes_out g idx).toNat) 0)
                  (2 ^ g))).length = s.hm.groups.length
            rw [List.length_set]
            show (s.hm.groups.set ((get2 s.hm.nodes_out g idx).toNat)
                (u64_add (s.hm.groups.getD ((get2 s.hm.nodes_out g idx).toNat) 0)
                  (2 ^ g))).length = s.hm.groups.length
            rw [List.length_set]
          · show (((s.hm.add_node_to_group_by_idx g idx).1.update_hcg_props
                  ((get2 s.hm.nodes_out g idx).toNat)
                  (s.hm.groups.getD
                    ((get2 s.hm.nodes_out g idx).toNat) 0)).group_size.set g
                (((s.hm.add_node_to_group_by_idx g idx).1.update_hcg_props
                    ((get2 s.hm.nodes_out g idx).toNat)
                    (s.hm.groups.getD
                      ((get2 s.hm.nodes_out g idx).toNat) 0)).group_size.getD g 0
                  - 1)).length = s.hm.group_size.length
            rw [List.length_set]
            show (s.hm.group_size.set g (s.hm.group_size.getD g 0 + 1)).length
              = s.hm.group_size.length
            rw [List.length_set]
          · show s.hm.hcg_edges.take s.hm.num_groups = s.hm.hcg_edges
            exact List.take_of_length_le (le_of_eq hwk.len_e)
          · show s.hm.hcg_pairs.take s.hm.num_groups = s.hm.hcg_pairs
            exact List.take_of_length_le (le_of_eq hwk.len_p)
      · exfalso
        rcases hwk.dead with hd1 | hdead
        · omega
        have hplen : (s.hm.add_node_to_group_by_idx g idx).1.hcg_pairs.length ≤ 64 := by
          show s.hm.hcg_pairs.length ≤ 64
          rw [hwk.len_p]
          have ha1 := hwk.ng_le
          have ha2 := hwk.max64
          omega
        have hN2 : 2 ≤ s.hm.network.num_nodes := by omega
        have hhcg : ∀ v,
            v < (s.hm.add_node_to_group_by_idx g idx).1.network.num_nodes
            → v ≠ (get2 s.hm.nodes_out g idx).toNat
            → (s.hm.add_node_to_group_by_idx g idx).1.hcg
                ((get2 s.hm.nodes_out g idx).toNat) v = 2 ^ 64 - 1 := by
          intro v hv hvne
          have hv2 : v < s.hm.network.num_nodes := hv
          have hgv : (s.hm.add_node_to_group_by_idx g idx).1.groups.getD v 0
              = s.hm.groups.getD v 0 := by
            have h3 : (s.hm.groups.set ((get2 s.hm.nodes_out g idx).toNat)
                (u64_add (s.hm.groups.getD ((get2 s.hm.nodes_out g idx).toNat) 0)
                  (2 ^ g))).getD v 0 = s.hm.groups.getD v 0 :=
              getD_set_ne _ _ _ _ (fun he2 => hvne he2.symm)
            exact h3
          have hzv : s.hm.groups.getD v 0 = 0 :=
            hdead _ (getD_mem_of_lt _ _ _ (by rw [hwk.len_groups]; omega))
          rw [HierarchicalModel.hcg, hgv, hzv, hcg_masks_comm, hcg_masks_zero_left]
        exact update_ok_oob _ _ _ hplen hN2 hhcg hstep2

/-- The invariant holds in every state reachable by completed `get_groups`
calls, and the network is never modified. -/
theorem Inv_reachable (init s : SamplerState) (hinv : init.hm.Inv)
    (h : ReachableFrom init s) :
    s.hm.Inv ∧ s.hm.network = init.hm.network := by
  induction h with
  | refl => exact ⟨hinv, rfl⟩
  | tail _ hstep ih =>
    obtain ⟨d, a, hd, hok, he⟩ := hstep
    rw [he]
    have h2 := Inv_step _ d a ih.1 hd hok
    exact ⟨h2.1, h2.2.trans ih.2⟩

/-! ## Claim C2 -/

/-- C2: from a well-formed sampler state, a `get_groups` call whose proposed
move is rejected (`alpha = exp(new_loglike - log_like) < 1` and the
`gen_bool(alpha)` draw fails) restores the pre-call state exactly: `groups`,
`num_groups`, `group_size`, both counter vectors and `log_like` are unchanged,
the valid prefixes of every `nodes_in` / `nodes_out` row are unchanged, and the
pre-update counter snapshots truncated to the post-rollback `num_groups` equal
the pre-step counters.  The `step_ok` hypothesis is the completion guard of
`SamplerStep`: it says every bucket index the proposal update touches is in
bounds, which is exactly the condition under which the source call returns at
all (a 64-group population proposal trips it and aborts before any
accept/reject decision — cf. C7); the claim quantifies over steps, i.e. over
completed calls.  On those, no error path remains: every `usize`/`u64`
subtraction on the rollback path is shown in range (the exact-restoration
equalities are only provable because of it), and structural moves are never
rejected since their `alpha` is `exp(0) = 1`. -/
theorem C2_reject_rollback (s : SamplerState) (d : ProposalDraws) (a : Bool)
    (hwf : s.hm.WF) (hd : s.hm.draws_ok d)
    (s1 : HierarchicalModel) (mv : Move)
    (hprop : s.hm.uniform_groupsize d = (s1, some mv))
    (hok : step_ok s1 mv)
    (hrej : ¬ (1 ≤ Real.exp (step_newL s.log_like s1 mv - s.log_like) ∨ a = true)) :
    (s.get_groups d a).hm.groups = s.hm.groups
    ∧ (s.get_groups d a).hm.num_groups = s.hm.num_groups
    ∧ (s.get_groups d a).hm.group_size = s.hm.group_size
    ∧ (s.get_groups d a).hm.hcg_edges = s.hm.hcg_edges
    ∧ (s.get_groups d a).hm.hcg_pairs = s.hm.hcg_pairs
    ∧ (s.get_groups d a).log_like = s.log_like
    ∧ (∀ r, r < s.hm.num_groups →
        (∀ i, i < s.hm.group_size.getD r 0 →
          ((s.get_groups d a).hm.nodes_in.getD r []).getD i (-1)
            = (s.hm.nodes_in.getD r []).getD i (-1))
        ∧ (∀ i, i < s.hm.network.num_nodes - s.hm.group_size.getD r 0 →
          ((s.get_groups d a).hm.nodes_out.getD r []).getD i (-1)
            = (s.hm.nodes_out.getD r []).getD i (-1)))
    ∧ s.hm.hcg_edges.take ((s.get_groups d a).hm.num_groups) = s.hm.hcg_edges
    ∧ s.hm.hcg_pairs.take ((s.get_groups d a).hm.num_groups) = s.hm.hcg_pairs := by
  rcases uniform_groupsize_cases s.hm d hd with hc
    | ⟨g, hne, hg1, hgle, hc⟩
    | ⟨g, hne, hg1, hglt, h0, hc⟩
    | ⟨g, idx, hne, hg1, hglt, h0, hidx, hc⟩
    | ⟨g, idx, hne, hg1, hglt, hN, hidx, hc⟩
  · rw [hc] at hprop
    simp at hprop
  · rw [hc] at hprop
    injection hprop with h1 h2
    injection h2 with h2
    subst h1
    subst h2
    exact absurd (structural_accepts s.log_like a) hrej
  · rw [hc] at hprop
    injection hprop with h1 h2
    injection h2 with h2
    subst h1
    subst h2
    exact absurd (structural_accepts s.log_like a) hrej
  · rw [remove_node_move_eq] at hc
    rw [hc] at hprop
    injection hprop with h1 h2
    injection h2 with h2
    subst h1
    subst h2
    rw [SamplerState.get_groups, hc, get_groups_after_some, if_neg hrej]
    obtain ⟨hbg, hbgs, hbin, hbout, hbng, hbnet, hbmax⟩ :=
      rollback_remove_node s.hm hwf g idx hg1 hglt hidx
        ((get2 s.hm.nodes_in g idx).toNat)
        (s.hm.groups.getD ((get2 s.hm.nodes_in g idx).toNat) 0) rfl rfl
    rw [apply_update_removenode]
    refine ⟨hbg, hbng, hbgs, ?_, ?_, rfl, ?_, ?_, ?_⟩
    · show s.hm.hcg_edges.take _ = s.hm.hcg_edges
      rw [hbng, List.take_of_length_le (le_of_eq hwf.len_e)]
    · show s.hm.hcg_pairs.take _ = s.hm.hcg_pairs
      rw [hbng, List.take_of_length_le (le_of_eq hwf.len_p)]
    · intro r hr
      constructor
      · intro i hi
        show ((((s.hm.remove_node_from_group_by_idx g idx).1.update_hcg_props _ _).revert_move
          _).nodes_in.getD r []).getD i (-1) = _
        rw [hbin]
      · intro i hi
        show ((((s.hm.remove_node_from_group_by_idx g idx).1.update_hcg_props _ _).revert_move
          _).nodes_out.getD r []).getD i (-1) = _
        rw [hbout]
        by_cases hrg : r = g
        · subst hrg
          rw [getD_set2_self_row _ _ _ _ (by rw [hwf.len_out]; exact hglt)]
          exact getD_row_set_ne _ _ _ _ (by omega)
        · rw [getD_set2_ne_row _ _ _ _ _ (fun he => hrg he.symm)]
    · show s.hm.hcg_edges.take _ = s.hm.hcg_edges
      rw [hbng, List.take_of_length_le (le_of_eq hwf.len_e)]
    · show s.hm.hcg_pairs.take _ = s.hm.hcg_pairs
      rw [hbng, List.take_of_length_le (le_of_eq hwf.len_p)]
  · rw [add_node_move_eq] at hc
    rw [hc] at hprop
    injection hprop with h1 h2
    injection h2 with h2
    subst h1
    subst h2
    rw [SamplerState.get_groups, hc, get_groups_after_some, if_neg hrej]
    obtain ⟨hbg, hbgs, hbout, hbin, hbng, hbnet, hbmax⟩ :=
      rollback_add_node s.hm hwf g idx hg1 hglt hN hidx
        ((get2 s.hm.nodes_out g idx).toNat)
        (s.hm.groups.getD ((get2 s.hm.nodes_out g idx).toNat) 0) rfl rfl
    rw [apply_update_addnode]
    refine ⟨hbg, hbng, hbgs, ?_, ?_, rfl, ?_, ?_, ?_⟩
    · show s.hm.hcg_edges.take _ = s.hm.hcg_edges
      rw [hbng, List.take_of_length_le (le_of_eq hwf.len_e)]
    · show s.hm.hcg_pairs.take _ = s.hm.hcg_pairs
      rw [hbng, List.take_of_length_le (le_of_eq hwf.len_p)]
    · intro r hr
      constructor
      · intro i hi
        show ((((s.hm.add_node_to_group_by_idx g idx).1.update_hcg_props _ _).revert_move
          _).nodes_in.getD r []).getD i (-1) = _
        rw [hbin]
        by_cases hrg : r = g
        · subst hrg
          rw [getD_set2_self_row _ _ _ _ (by rw [hwf.len_in]; exact hglt)]
          exact getD_row_set_ne _ _ _ _ (by omega)
        · rw [getD_set2_ne_row _ _ _ _ _ (fun he => hrg he.symm)]
      · intro i hi
        show ((((s.hm.add_node_to_group_by_idx g idx).1.update_hcg_props _ _).revert_move
          _).nodes_out.getD r []).getD i (-1) = _
        rw [hbout]
    · show s.hm.hcg_edges.take _ = s.hm.hcg_edges
      rw [hbng, List.take_of_length_le (le_of_eq hwf.len_e)]
    · show s.hm.hcg_pairs.take _ = s.hm.hcg_pairs
      rw [hbng, List.take_of_length_le (le_of_eq hwf.len_p)]
/-- Witness for `C2_reject_rollback`: on the two-node state with stored
`log_like = 0`, the proposal removes node 0 from group 1, the new
log-likelihood is `-ln 2 < 0`, the acceptance draw fails, and the call leaves
every observable component unchanged. -/
theorem C2_witness :
    ((⟨two_node_example, 0⟩ : SamplerState).get_groups ⟨false, 1, true, 0⟩ false).hm.groups
      = two_node_example.groups
    ∧ ((⟨two_node_example, 0⟩ : SamplerState).get_groups ⟨false, 1, true, 0⟩ false).hm.hcg_edges
      = two_node_example.hcg_edges
    ∧ ((⟨two_node_example, 0⟩ : SamplerState).get_groups ⟨false, 1, true, 0⟩ false).hm.hcg_pairs
      = two_node_example.hcg_pairs
    ∧ ((⟨two_node_example, 0⟩ : SamplerState).get_groups ⟨false, 1, true, 0⟩ false).log_like
      = 0 := by
  have hlf2 : ln_fact 2 = Real.log 2 := by
    rw [ln_fact]
    norm_num [Nat.factorial]
  have hcalc : ((two_node_example.remove_node_from_group_by_idx 1 0).1.update_hcg_props
      0 3).calc_loglike = -Real.log 2 := by
    rw [HierarchicalModel.calc_loglike,
      show ((two_node_example.remove_node_from_group_by_idx 1 0).1.update_hcg_props
        0 3).hcg_edges = [1, 0] from by decide,
      show ((two_node_example.remove_node_from_group_by_idx 1 0).1.update_hcg_props
        0 3).hcg_pairs = [1, 0] from by decide]
    show ln_fact 1 + ln_fact (1 - 1) - ln_fact (1 + 1)
      + (ln_fact 0 + ln_fact (0 - 0) - ln_fact (0 + 1) + 0) = -Real.log 2
    show ln_fact 1 + ln_fact 0 - ln_fact 2 + (ln_fact 0 + ln_fact 0 - ln_fact 1 + 0)
      = -Real.log 2
    rw [ln_fact_zero, ln_fact_one, hlf2]
    ring
  have hrej : ¬ (1 ≤ Real.exp (step_newL
      ((⟨two_node_example, 0⟩ : SamplerState).log_like)
      ((two_node_example.remove_node_from_group_by_idx 1 0).1)
      (Move.RemoveNodeFromGroup 1 0 0 3)
      - (⟨two_node_example, 0⟩ : SamplerState).log_like) ∨ false = true) := by
    intro hor
    rcases hor with h | h
    · rw [show step_newL ((⟨two_node_example, 0⟩ : SamplerState).log_like)
          ((two_node_example.remove_node_from_group_by_idx 1 0).1)
          (Move.RemoveNodeFromGroup 1 0 0 3)
        = ((two_node_example.remove_node_from_group_by_idx 1 0).1.update_hcg_props
            0 3).calc_loglike from rfl, hcalc,
        show ((⟨two_node_example, 0⟩ : SamplerState).log_like) = 0 from rfl] at h
      have hlt : Real.exp (-Real.log 2 - 0) < 1 := by
        rw [Real.exp_lt_one_iff]
        have := Real.log_pos (show (1:ℝ) < 2 by norm_num)
        linarith
      linarith
    · simp at h
  have hwf2 : two_node_example.WF := by
    constructor <;> decide
  have hd2 : two_node_example.draws_ok ⟨false, 1, true, 0⟩ := by
    rw [HierarchicalModel.draws_ok]
    simp only [Bool.false_eq_true, if_false, if_true]
    right
    decide
  have h := C2_reject_rollback ⟨two_node_example, 0⟩ ⟨false, 1, true, 0⟩ false hwf2 hd2
    ((two_node_example.remove_node_from_group_by_idx 1 0).1)
    (Move.RemoveNodeFromGroup 1 0 0 3) (by decide) (by decide) hrej
  exact ⟨h.1, h.2.2.2.1, h.2.2.2.2.1, h.2.2.2.2.2.1⟩

/-! ## Claim C3 -/

/-- C3: from any state built by `init_groups` on bit-0 masks occupying the low
`num_groups` bits of a network with positional node ids, each undirected edge
listed once and no self-loops, every state reachable by completed `get_groups`
steps has `sum(hcg_edges) = |E|` and `sum(hcg_pairs) = N·(N-1)/2`.  The
hypothesis `ng0 ≤ 63 ∨ num_nodes ≤ 1` covers every construction that returns:
at `num_groups = 64` on a network with two or more nodes, `init_groups`
itself aborts on the wrapped hcg (cf. C7).  Reachability carries the
`step_ok` completion guard of `SamplerStep`, and the sums survive even the
release-profile mask wipe of a 64-group `remove_group` (the `WeakWF` arm of
the invariant). -/
theorem C3_counter_sums (net : Network) (mg ng0 : Nat) (masks : List Nat) (L : ℝ)
    (s : SamplerState)
    (hnet : ∀ e ∈ net.edges, e.1 < net.num_nodes ∧ e.2 < net.num_nodes ∧ e.1 ≠ e.2)
    (hnodup : (net.edges.map (fun e => (min e.1 e.2, max e.1 e.2))).Nodup)
    (hml : masks.length = net.num_nodes)
    (hbit : ∀ m ∈ masks, m % 2 = 1)
    (hbnd : ∀ m ∈ masks, m < 2 ^ ng0)
    (h1 : 1 ≤ ng0) (h2 : ng0 ≤ mg) (h3 : mg ≤ 64)
    (hngN : ng0 ≤ 63 ∨ net.num_nodes ≤ 1)
    (hreach : ReachableFrom
      ⟨(HierarchicalModel.new net mg).init_groups masks ng0, L⟩ s) :
    s.hm.hcg_edges.sum = net.edges.length
    ∧ s.hm.hcg_pairs.sum = net.num_nodes * (net.num_nodes - 1) / 2 := by
  have hwf0 := init_groups_WF net mg ng0 masks hnet hnodup hml hbit hbnd h1 h2 h3 hngN
  have h := Inv_reachable _ s (Or.inl hwf0) hreach
  have hnet2 : s.hm.network = net := h.2
  rcases h.1 with hwf | hwk
  · have hs := WF_sums s.hm hwf
    rw [hnet2] at hs
    exact hs
  · refine ⟨?_, ?_⟩
    · rw [hwk.sum_e, hnet2]
    · rw [hwk.sum_p, hnet2]

/-- Witness for `C3_counter_sums` at the freshly constructed two-node,
one-edge state (the empty step sequence). -/
theorem C3_witness :
    (⟨(HierarchicalModel.new ⟨2, [(0, 1)]⟩ 64).init_groups [3, 3] 2, 0⟩
        : SamplerState).hm.hcg_edges.sum = (⟨2, [(0, 1)]⟩ : Network).edges.length
    ∧ (⟨(HierarchicalModel.new ⟨2, [(0, 1)]⟩ 64).init_groups [3, 3] 2, 0⟩
        : SamplerState).hm.hcg_pairs.sum = 2 * (2 - 1) / 2 :=
  C3_counter_sums ⟨2, [(0, 1)]⟩ 64 2 [3, 3] 0 _ (by decide) (by decide) (by decide)
    (by decide) (by decide) (by decide) (by decide) (by decide) (Or.inl (by decide))
    Relation.ReflTransGen.refl

/-! ## Claim C10 -/

/-- C10: under the same reachability hypotheses as C3 (completed construction,
completed `get_groups` calls), every bucket satisfies
`hcg_edges[r] ≤ hcg_pairs[r]`, so the `usize` subtraction
`hcg_pairs[r] - hcg_edges[r]` inside `calc_loglike` never underflows and its
(panic) error branch is unreachable; the domination also survives the
release-profile mask wipe of a 64-group `remove_group` (the `WeakWF` arm). -/
theorem C10_edges_le_pairs (net : Network) (mg ng0 : Nat) (masks : List Nat) (L : ℝ)
    (s : SamplerState)
    (hnet : ∀ e ∈ net.edges, e.1 < net.num_nodes ∧ e.2 < net.num_nodes ∧ e.1 ≠ e.2)
    (hnodup : (net.edges.map (fun e => (min e.1 e.2, max e.1 e.2))).Nodup)
    (hml : masks.length = net.num_nodes)
    (hbit : ∀ m ∈ masks, m % 2 = 1)
    (hbnd : ∀ m ∈ masks, m < 2 ^ ng0)
    (h1 : 1 ≤ ng0) (h2 : ng0 ≤ mg) (h3 : mg ≤ 64)
    (hngN : ng0 ≤ 63 ∨ net.num_nodes ≤ 1)
    (hreach : ReachableFrom
      ⟨(HierarchicalModel.new net mg).init_groups masks ng0, L⟩ s) :
    ∀ r, r < s.hm.num_groups →
      s.hm.hcg_edges.getD r 0 ≤ s.hm.hcg_pairs.getD r 0 := by
  have hwf0 := init_groups_WF net mg ng0 masks hnet hnodup hml hbit hbnd h1 h2 h3 hngN
  have h := Inv_reachable _ s (Or.inl hwf0) hreach
  rcases h.1 with hwf | hwk
  · exact fun r hr => WF_bucket_le s.hm hwf r hr
  · exact fun r hr => hwk.bucket_le r hr

/-- Witness for `C10_edges_le_pairs` at a freshly constructed three-node state
with two groups (the empty step sequence), for both buckets. -/
theorem C10_witness :
    (⟨(HierarchicalModel.new ⟨3, [(0, 1), (1, 2)]⟩ 64).init_groups [3, 1, 3] 2, 0⟩
        : SamplerState).hm.hcg_edges.getD 0 0
      ≤ (⟨(HierarchicalModel.new ⟨3, [(0, 1), (1, 2)]⟩ 64).init_groups [3, 1, 3] 2, 0⟩
        : SamplerState).hm.hcg_pairs.getD 0 0
    ∧ (⟨(HierarchicalModel.new ⟨3, [(0, 1), (1, 2)]⟩ 64).init_groups [3, 1, 3] 2, 0⟩
        : SamplerState).hm.hcg_edges.getD 1 0
      ≤ (⟨(HierarchicalModel.new ⟨3, [(0, 1), (1, 2)]⟩ 64).init_groups [3, 1, 3] 2, 0⟩
        : SamplerState).hm.hcg_pairs.getD 1 0 :=
  ⟨C10_edges_le_pairs ⟨3, [(0, 1), (1, 2)]⟩ 64 2 [3, 1, 3] 0 _ (by decide) (by decide)
    (by decide) (by decide) (by decide) (by decide) (by decide) (by decide)
    (Or.inl (by decide)) Relation.ReflTransGen.refl 0 (by decide),
   C10_edges_le_pairs ⟨3, [(0, 1), (1, 2)]⟩ 64 2 [3, 1, 3] 0 _ (by decide) (by decide)
    (by decide) (by decide) (by decide) (by decide) (by decide) (by decide)
    (Or.inl (by decide)) Relation.ReflTransGen.refl 1 (by decide)⟩
